import Mathlib

/-!
# EngineSync: the master-sync coordinator of `src/engine/enginesync.cpp`

A shallow embedding of `EngineSync` and of the parts of its collaborators it
reads and writes.

* C++ `double` values are rationals (`ℚ`). The sum and the differences of
  `process` and the differences of `slotMasterBpmChanged`, on which the number
  of iterations of their loop and its end depend, are rounded to the nearest
  `double` (`roundDouble`); the loop carries a fuel, `none` meaning that it ran
  out. The other products and quotients are exact: their rounding in the last
  bit is outside of the embedding, and so are values that are not finite.
* A `RateControl*` is an index into `m_ratecontrols`; an index past the end of
  the list stands for the null pointer.
* The control objects of a deck (`play`, `rateEngine`, `bpm`, beat distance),
  which the source looks up by the deck's group, are fields of the deck.
* `chooseNewMaster` and `setChannelSyncMode` call each other; the embedding
  threads a fuel through `chooseNewMaster`, `none` meaning that the fuel ran out.
-/

/-- The sync mode of a deck, `enum SYNC_MODE` of `enginesync.h`. -/
inductive SYNC_MODE where
  | SYNC_NONE
  | SYNC_FOLLOWER
  | SYNC_MASTER
deriving DecidableEq, Repr

open SYNC_MODE

/-- What `EngineSync` reads of an `EngineChannel`: its group and whether
`getEngineBuffer()` is non-null. -/
structure EngineChannel where
  group : String
  engineBuffer : Bool
deriving DecidableEq, Repr

/-- Modelled from the spec: the Deck Rate Controller (`RateControl`, whose code
is not part of the sources at hand) with the members `EngineSync` uses: group
identity, the sync-mode field behind `getMode()`/`setMode()`, the attached
channel (`getChannel()`), the nominal tempo (`getFileBpm()`), and the control
values `play`, `rateEngine`, `bpm` and the beat-distance control (absent
controls are `none`). -/
structure RateControl where
  group : String
  mode : SYNC_MODE
  channel : Option EngineChannel
  play : Option ℚ
  fileBpm : ℚ
  rateEngine : ℚ
  bpm : ℚ
  beatDistance : Option ℚ
deriving DecidableEq, Repr

/-- The three live signals of a deck that `setChannelMaster` connects. -/
inductive SourceSignal where
  | rateEngine
  | bpm
  | beatDistance
deriving DecidableEq, Repr

/-- The state of `EngineSync`: its member variables, the values of the control
objects it owns or reads, and the signal connections it holds to decks. -/
structure EngineSync where
  m_ratecontrols : List RateControl
  m_pChannelMaster : Option Nat
  m_sSyncSource : String
  m_bExplicitMasterSelected : Bool
  m_dSamplesPerBeat : ℚ
  m_dPseudoBufferPos : ℚ
  m_pMasterBpm : ℚ
  m_pMasterBeatDistance : ℚ
  m_pSampleRate : ℚ
  m_pSyncInternalEnabled : ℚ
  m_pInternalRateSlider : ℚ
  connections : List (Nat × SourceSignal)
deriving DecidableEq, Repr

/-- The value of `playing && playing->get()` for a deck. -/
def RateControl.isPlaying (d : RateControl) : Bool :=
  match d.play with
  | some v => decide (v ≠ 0)
  | none => false

/-- The test `pChannel && pChannel->getEngineBuffer()` for a deck. -/
def RateControl.hasEngineBuffer (d : RateControl) : Bool :=
  match d.channel with
  | some ch => ch.engineBuffer
  | none => false

namespace EngineSync

/-- The group of the internal clock, `kMasterSyncGroup`. -/
def kMasterSyncGroup : String := "[Master]"

/-- Qt's `qFuzzyCompare(double, double)`:
`qAbs(p1 - p2) * 1000000000000. <= qMin(qAbs(p1), qAbs(p2))`. -/
def qFuzzyCompare (p1 p2 : ℚ) : Bool :=
  decide (|p1 - p2| * 1000000000000 ≤ min |p1| |p2|)

/-- The conversion `static_cast<int>(x)`: truncation towards zero, for `x` in
the range of `int`; values outside of that range are outside of the
embedding. -/
def staticCastInt (x : ℚ) : Int :=
  if 0 ≤ x then ⌊x⌋ else ⌈x⌉

/-- The decks after `setMode(mode)` on the deck at index `i`: that deck has the
new mode, the others are as they were. -/
def setModeAt (decks : List RateControl) (i : Nat) (mode : SYNC_MODE) : List RateControl :=
  match decks[i]? with
  | some d => decks.set i { d with mode := mode }
  | none => decks

/-- The call `pRateControl->setMode(mode)` on the deck at index `i`. -/
def setMode (s : EngineSync) (i : Nat) (mode : SYNC_MODE) : EngineSync :=
  { s with m_ratecontrols := setModeAt s.m_ratecontrols i mode }

/-- Qt's `connect` of one signal of deck `i` to its slot of the coordinator. -/
def connect (s : EngineSync) (i : Nat) (sig : SourceSignal) : EngineSync :=
  { s with connections := s.connections ++ [(i, sig)] }

/-- Qt's `disconnect`: every connection of that signal of deck `i` is removed. -/
def disconnect (s : EngineSync) (i : Nat) (sig : SourceSignal) : EngineSync :=
  { s with connections := s.connections.filter (fun c => decide (c ≠ (i, sig))) }

/-- Rounding of a rational to the nearest integer, a tie going to the even
one. -/
def roundHalfEven (y : ℚ) : ℤ :=
  let f := ⌊y⌋
  if y - f < 1 / 2 then f
  else if 1 / 2 < y - f then f + 1
  else if f % 2 = 0 then f else f + 1

/-- The exponent of the spacing of the `double` values around `x`: 52 below the
binary exponent of `x`, and that of the subnormal values below `2^-1022`. -/
def ulpExp (x : ℚ) : ℤ := max (Int.log 2 |x|) (-1022) - 52

/-- The result, as a C++ `double`, of an arithmetic operation whose exact value
is `x`: the nearest IEEE 754 binary64 value (53 significant bits, a tie going to
the even one). Overflow is outside of the embedding: `x` is below `2^1024`. -/
def roundDouble (x : ℚ) : ℚ :=
  (roundHalfEven (x / (2 : ℚ) ^ ulpExp x) : ℚ) * (2 : ℚ) ^ ulpExp x

/-- The loop `while (m_dPseudoBufferPos >= m_dSamplesPerBeat)
m_dPseudoBufferPos -= m_dSamplesPerBeat;`, each difference rounded to `double`.
The fuel bounds the number of subtractions: `none` when it runs out. -/
def wrapPseudoBufferPos (spb : ℚ) : Nat → ℚ → Option ℚ
  | 0, pos => if spb ≤ pos then none else some pos
  | fuel + 1, pos =>
    if spb ≤ pos then wrapPseudoBufferPos spb fuel (roundDouble (pos - spb)) else some pos

/-- The method `EngineSync::updateSamplesPerBeat`. -/
def updateSamplesPerBeat (s : EngineSync) : EngineSync :=
  let master_bpm := s.m_pMasterBpm
  let sample_rate := s.m_pSampleRate
  if qFuzzyCompare master_bpm 0 then
    { s with m_dSamplesPerBeat := sample_rate }
  else
    let s1 := { s with m_dSamplesPerBeat := (sample_rate * 60) / master_bpm }
    if s1.m_dSamplesPerBeat ≤ 0 then
      { s1 with m_dSamplesPerBeat := sample_rate }
    else s1

/-- The method `EngineSync::getInternalBeatDistance`, for samples per beat other
than zero: with zero the quotient of the source is not a finite value, which is
outside of the embedding (the quotient is `0` here). -/
def getInternalBeatDistance (s : EngineSync) : ℚ :=
  if s.m_dPseudoBufferPos < 0 then 0
  else s.m_dPseudoBufferPos / s.m_dSamplesPerBeat

/-- The method `EngineSync::setPseudoPosition`. -/
def setPseudoPosition (s : EngineSync) (percent : ℚ) : EngineSync :=
  { s with m_dPseudoBufferPos := percent * s.m_dSamplesPerBeat }

/-- The slot `EngineSync::slotMasterBpmChanged`; `fuel` bounds the subtractions
of its loop, `none` when it runs out. -/
def slotMasterBpmChanged (fuel : Nat) (s : EngineSync) (new_bpm : ℚ) : Option EngineSync :=
  if !qFuzzyCompare new_bpm s.m_pMasterBpm then
    let s1 := updateSamplesPerBeat s
    let s2 := if s1.m_dSamplesPerBeat ≤ 0 then { s1 with m_dSamplesPerBeat := 21338 } else s1
    (wrapPseudoBufferPos s2.m_dSamplesPerBeat fuel s2.m_dPseudoBufferPos).map
      (fun pos => { s2 with m_dPseudoBufferPos := pos })
  else some s

/-- Modelled from the spec: `m_pMasterBpm->set(v)` on the Tunable Control Bus
(`ControlObject`, whose code is not part of the sources at hand). The value is
stored and the change is then pushed synchronously to the subscriber, which the
constructor connects for writes of both origins: `slotMasterBpmChanged`. The
slot is given the value that the control already holds, so it returns at its
first test whatever the fuel (`slotMasterBpmChanged_of_stored`): the second
branch of the `match` is never taken. -/
def setMasterBpm (s : EngineSync) (v : ℚ) : EngineSync :=
  match slotMasterBpmChanged 0 { s with m_pMasterBpm := v } v with
  | some s1 => s1
  | none => { s with m_pMasterBpm := v }

/-- The slot `EngineSync::slotSyncRateSliderChanged`. -/
def slotSyncRateSliderChanged (s : EngineSync) (new_bpm : ℚ) : EngineSync :=
  if s.m_sSyncSource = kMasterSyncGroup ∧ !qFuzzyCompare s.m_pMasterBpm new_bpm then
    setMasterBpm s new_bpm
  else s

/-- Modelled from the spec: `m_pInternalRateSlider->set(v)` on the Tunable
Control Bus: the value is stored, then `slotSyncRateSliderChanged`, connected
for writes of both origins, runs. -/
def setInternalRateSlider (s : EngineSync) (v : ℚ) : EngineSync :=
  slotSyncRateSliderChanged { s with m_pInternalRateSlider := v } v

/-- Modelled from the spec: `m_pSyncInternalEnabled->set(b)` by the coordinator
itself. The bus tags a notification by its writer and the constructor connects
`slotInternalMasterChanged` to writes from outside only (`valueChanged`), so
this write stores the value and runs no slot. -/
def setSyncInternalEnabled (s : EngineSync) (b : Bool) : EngineSync :=
  { s with m_pSyncInternalEnabled := if b then 1 else 0 }

/-- The method `EngineSync::setChannelRateSlider`. -/
def setChannelRateSlider (s : EngineSync) (_i : Nat) (new_bpm : ℚ) : EngineSync :=
  setMasterBpm (setInternalRateSlider s new_bpm) new_bpm

/-- The method `EngineSync::initializeInternalBeatDistance(RateControl*)`. -/
def initializeInternalBeatDistanceOf (s : EngineSync) (i : Nat) : EngineSync :=
  match s.m_ratecontrols[i]? with
  | some d =>
    let beat_distance : ℚ := match d.beatDistance with
      | some v => v
      | none => 0
    { s with m_dPseudoBufferPos := beat_distance * s.m_dSamplesPerBeat,
             m_pMasterBeatDistance := beat_distance }
  | none => s

/-- The method `EngineSync::initializeInternalBeatDistance()`. -/
def initializeInternalBeatDistance (s : EngineSync) : EngineSync :=
  match s.m_pChannelMaster with
  | some i => initializeInternalBeatDistanceOf s i
  | none => s

/-- The slot `EngineSync::slotSourceRateEngineChanged`. -/
def slotSourceRateEngineChanged (s : EngineSync) (rate_engine : ℚ) : EngineSync :=
  match s.m_pChannelMaster with
  | some i =>
    match s.m_ratecontrols[i]? with
    | some d => setMasterBpm s (rate_engine * d.fileBpm)
    | none => s
  | none => s

/-- The slot `EngineSync::slotSourceBpmChanged`. -/
def slotSourceBpmChanged (s : EngineSync) (bpm : ℚ) : EngineSync :=
  match s.m_pChannelMaster with
  | some _ => setInternalRateSlider s bpm
  | none => s

/-- The slot `EngineSync::slotSourceBeatDistanceChanged`. -/
def slotSourceBeatDistanceChanged (s : EngineSync) (beat_dist : ℚ) : EngineSync :=
  setPseudoPosition { s with m_pMasterBeatDistance := beat_dist } beat_dist

/-- The slot `EngineSync::slotSampleRateChanged`; it runs when the sample rate
control already holds the new value. -/
def slotSampleRateChanged (s : EngineSync) (srate : ℚ) : EngineSync :=
  let new_rate : Int := staticCastInt srate
  let internal_position := getInternalBeatDistance s
  updateSamplesPerBeat
    { s with m_dPseudoBufferPos := (new_rate : ℚ) * internal_position / s.m_dSamplesPerBeat }

/-- Modelled from the spec: a write of `v` to the sample rate control on the
Tunable Control Bus: the value is stored, then `slotSampleRateChanged`,
connected for writes of both origins, runs. -/
def setSampleRate (s : EngineSync) (v : ℚ) : EngineSync :=
  slotSampleRateChanged { s with m_pSampleRate := v } v

/-- The method `EngineSync::process`; `fuel` bounds the subtractions of its
loop, `none` when it runs out. The sum and the differences, which decide how
often the loop runs and whether it ends, are rounded to `double`. -/
def process (fuel : Nat) (s : EngineSync) (bufferSize : Int) : Option EngineSync :=
  if s.m_sSyncSource ≠ kMasterSyncGroup then some s
  else
    let s1 := { s with
      m_dPseudoBufferPos := roundDouble (s.m_dPseudoBufferPos + ((bufferSize.tdiv 2 : Int) : ℚ)) }
    let s2 := if s1.m_dSamplesPerBeat ≤ 0 then { s1 with m_dSamplesPerBeat := 21338 } else s1
    (wrapPseudoBufferPos s2.m_dSamplesPerBeat fuel s2.m_dPseudoBufferPos).map
      (fun pos =>
        let s3 := { s2 with m_dPseudoBufferPos := pos }
        { s3 with m_pMasterBeatDistance := getInternalBeatDistance s3 })

/-- A sequence of `process` calls, one per buffer size of the list, each with
the given fuel. -/
def processAll (fuel : Nat) (s : EngineSync) : List Int → Option EngineSync
  | [] => some s
  | b :: rest => (process fuel s b).bind (fun s1 => processAll fuel s1 rest)

/-- The method `EngineSync::addDeck`. -/
def addDeck (s : EngineSync) (pNewRate : RateControl) : EngineSync :=
  if s.m_ratecontrols.any (fun pRate => decide (pRate.group = pNewRate.group)) then s
  else { s with m_ratecontrols := s.m_ratecontrols ++ [pNewRate] }

/-- The loop of `EngineSync::addChannel` over the remaining decks. -/
def addChannelLoop (pChannel : EngineChannel) : List RateControl → List RateControl
  | [] => []
  | pRate :: rest =>
    if pRate.group = pChannel.group then { pRate with channel := some pChannel } :: rest
    else pRate :: addChannelLoop pChannel rest

/-- The method `EngineSync::addChannel`. -/
def addChannel (s : EngineSync) (pChannel : EngineChannel) : EngineSync :=
  { s with m_ratecontrols := addChannelLoop pChannel s.m_ratecontrols }

/-- The method `EngineSync::getRateControlForGroup`. -/
def getRateControlForGroup (s : EngineSync) (group : String) : Option Nat :=
  let i := s.m_ratecontrols.findIdx (fun pChannel => decide (pChannel.group = group))
  if i < s.m_ratecontrols.length then some i else none

/-- The method `EngineSync::disableCurrentMaster`. -/
def disableCurrentMaster (s : EngineSync) : EngineSync :=
  let pOldChannelMaster := s.m_pChannelMaster
  let s1 := if s.m_sSyncSource = kMasterSyncGroup then setSyncInternalEnabled s false else s
  let s2 := match pOldChannelMaster with
    | some i =>
      setMode
        (disconnect
          (disconnect (disconnect s1 i SourceSignal.rateEngine) i SourceSignal.bpm)
          i SourceSignal.beatDistance)
        i SYNC_FOLLOWER
    | none => s1
  { s2 with m_sSyncSource := "", m_pChannelMaster := none }

/-- The method `EngineSync::setInternalMaster`. -/
def setInternalMaster (s : EngineSync) : EngineSync :=
  if s.m_sSyncSource = kMasterSyncGroup then s
  else
    let master_bpm := s.m_pMasterBpm
    let s1 := if !qFuzzyCompare master_bpm 0 then setInternalRateSlider s master_bpm else s
    let s2 := initializeInternalBeatDistance s1
    let s3 := disableCurrentMaster s2
    let s4 := { s3 with m_sSyncSource := kMasterSyncGroup }
    let s5 := updateSamplesPerBeat s4
    setSyncInternalEnabled s5 true

/-- The method `EngineSync::setChannelMaster`; the result pairs the new state
with the returned `bool`. -/
def setChannelMaster (s : EngineSync) (i : Nat) : EngineSync × Bool :=
  match s.m_ratecontrols[i]? with
  | none => (s, false)
  | some d =>
    if s.m_sSyncSource = d.group then (s, true)
    else
      let s1 := disableCurrentMaster s
      match d.channel with
      | none => (s1, false)
      | some pChannel =>
        if !pChannel.engineBuffer then (s1, false)
        else
          let s2 := { s1 with m_sSyncSource := pChannel.group, m_pChannelMaster := some i }
          let s3 := connect s2 i SourceSignal.rateEngine
          let s4 := connect s3 i SourceSignal.bpm
          let s5 := connect s4 i SourceSignal.beatDistance
          let s6 := initializeInternalBeatDistance s5
          let s7 := setSyncInternalEnabled s6 false
          let s8 := slotSourceRateEngineChanged s7 d.rateEngine
          let s9 := slotSourceBpmChanged s8 d.bpm
          (s9, true)

/-- The method `EngineSync::playingSyncDeckCount`. -/
def playingSyncDeckCount (s : EngineSync) : Nat :=
  s.m_ratecontrols.countP (fun d => decide (d.mode ≠ SYNC_NONE) && d.isPlaying)

/-- How the `foreach` loop of `chooseNewMaster` ends: with the early `return`
on a deck in `SYNC_MASTER`, or after the last deck with its two counters and
`new_master`. -/
inductive ScanOutcome where
  | alreadyMaster (group : String)
  | counted (playing_sync_decks paused_sync_decks : Nat) (new_master : Option Nat)
deriving DecidableEq, Repr

/-- The `foreach` loop of `EngineSync::chooseNewMaster` over the decks that
remain, `idx` being the index of the first of them. -/
def scanDecks (dontpick : String) :
    List RateControl → Nat → Nat → Nat → Option Nat → ScanOutcome
  | [], _, playing, paused, new_master => ScanOutcome.counted playing paused new_master
  | d :: rest, idx, playing, paused, new_master =>
    if d.group = dontpick then scanDecks dontpick rest (idx + 1) playing paused new_master
    else if d.mode = SYNC_MASTER then ScanOutcome.alreadyMaster d.group
    else if d.mode = SYNC_NONE then scanDecks dontpick rest (idx + 1) playing paused new_master
    else if d.isPlaying then scanDecks dontpick rest (idx + 1) (playing + 1) paused (some idx)
    else scanDecks dontpick rest (idx + 1) playing (paused + 1) new_master

/-- The statement `if (!setChannelMaster(pRateControl)) chooseNewMaster(group);`
of `setChannelSyncMode`, `choose` being `chooseNewMaster`. -/
def setChannelMasterOrChoose (choose : EngineSync → String → Option EngineSync)
    (s : EngineSync) (i : Nat) (group : String) : Option EngineSync :=
  let r := setChannelMaster s i
  if r.2 then some r.1 else choose r.1 group

/-- The part of `setChannelSyncMode(pRateControl, SYNC_FOLLOWER)` after the
hand-off test (source lines 331 to 352). -/
def followerTail (choose : EngineSync → String → Option EngineSync)
    (s : EngineSync) (i : Nat) (group : String) : Option EngineSync :=
  if s.m_sSyncSource = "" then
    setChannelMasterOrChoose choose (setMode s i SYNC_MASTER) i group
  else if !s.m_bExplicitMasterSelected then
    if s.m_sSyncSource = kMasterSyncGroup then
      if playingSyncDeckCount s = 1 then
        setChannelMasterOrChoose choose (setMode s i SYNC_MASTER) i group
      else some s
    else
      if playingSyncDeckCount s > 1 then some (setInternalMaster s)
      else some s
  else some s

/-- The method `EngineSync::setChannelSyncMode(RateControl*, int)`, `choose`
being `chooseNewMaster`. The `int state` is one of the three values of
`SYNC_MODE`. The assertion `Q_ASSERT(pRateControl)` excludes the null pointer,
for which the state is returned as it is. -/
def setChannelSyncModeWith (choose : EngineSync → String → Option EngineSync)
    (s : EngineSync) (i : Nat) (state : SYNC_MODE) : Option EngineSync :=
  match s.m_ratecontrols[i]? with
  | none => some s
  | some d =>
    let group := d.group
    let channelIsMaster : Bool := decide (s.m_sSyncSource = group)
    match state with
    | SYNC_MASTER =>
      setChannelMasterOrChoose choose { s with m_bExplicitMasterSelected := true } i group
    | SYNC_FOLLOWER =>
      if channelIsMaster then
        (choose s group).bind (fun s1 => followerTail choose s1 i group)
      else if s.m_bExplicitMasterSelected then some s
      else followerTail choose s i group
    | SYNC_NONE =>
      (choose s "").map (fun s1 => setMode s1 i SYNC_NONE)

/-- The method `EngineSync::chooseNewMaster`, with a fuel that bounds the
nesting of elections: `none` when it runs out. -/
def chooseNewMaster : Nat → EngineSync → String → Option EngineSync
  | 0, _, _ => none
  | fuel + 1, s, dontpick =>
    match scanDecks dontpick s.m_ratecontrols 0 0 0 none with
    | ScanOutcome.alreadyMaster group => some { s with m_sSyncSource := group }
    | ScanOutcome.counted playing_sync_decks _ new_master =>
      let chosen : Option EngineSync :=
        if playing_sync_decks = 1 then
          match new_master with
          | some i =>
            setChannelSyncModeWith (chooseNewMaster fuel) (setMode s i SYNC_MASTER) i SYNC_MASTER
          | none => some s
        else if dontpick ≠ kMasterSyncGroup then some (setInternalMaster s)
        else
          match new_master with
          | some i =>
            setChannelSyncModeWith (chooseNewMaster fuel) (setMode s i SYNC_MASTER) i SYNC_MASTER
          | none => some s
      chosen.map (fun s1 => { s1 with m_bExplicitMasterSelected := false })

/-- The method `EngineSync::setChannelSyncMode(RateControl*, int)`. -/
def setChannelSyncMode (fuel : Nat) (s : EngineSync) (i : Nat) (state : SYNC_MODE) :
    Option EngineSync :=
  setChannelSyncModeWith (chooseNewMaster fuel) s i state

/-- The method `EngineSync::setChannelSyncMode(RateControl*)`. -/
def setChannelSyncModeAuto (fuel : Nat) (s : EngineSync) (i : Nat) : Option EngineSync :=
  match s.m_ratecontrols[i]? with
  | none => some s
  | some d =>
    if s.m_sSyncSource = "" then
      setChannelMasterOrChoose (chooseNewMaster fuel) (setMode s i SYNC_MASTER) i d.group
    else
      setChannelSyncMode fuel (setMode s i SYNC_FOLLOWER) i SYNC_FOLLOWER

/-- The method `EngineSync::setDeckPlaying`. -/
def setDeckPlaying (s : EngineSync) (i : Nat) (_state : Bool) : EngineSync :=
  match s.m_ratecontrols[i]? with
  | none => s
  | some d =>
    if d.mode ≠ SYNC_NONE then
      let playing_deck_count := playingSyncDeckCount s
      if playing_deck_count = 1 then initializeInternalBeatDistanceOf s i
      else if !s.m_bExplicitMasterSelected then
        if playing_deck_count = 0 then
          let r := setChannelMaster s i
          if r.2 then setMode r.1 i SYNC_MASTER else r.1
        else setInternalMaster s
      else s
    else s

/-- The slot `EngineSync::slotInternalMasterChanged`; it runs when a writer
outside of the engine has stored `state` in the toggle. -/
def slotInternalMasterChanged (fuel : Nat) (s : EngineSync) (state : ℚ) : Option EngineSync :=
  if state ≠ 0 then some (setInternalMaster s)
  else chooseNewMaster fuel { s with m_sSyncSource := "" } kMasterSyncGroup

/-! ## Auxiliary definitions and example states -/

/-- The decks as `disableCurrentMaster` leaves them: the deck of
`m_pChannelMaster`, if there is one, is in `SYNC_FOLLOWER`. -/
def releasedDecks (s : EngineSync) : List RateControl :=
  match s.m_pChannelMaster with
  | some i => setModeAt s.m_ratecontrols i SYNC_FOLLOWER
  | none => s.m_ratecontrols

/-- The connections as `disableCurrentMaster` leaves them: the three signals of
the deck of `m_pChannelMaster`, if there is one, are disconnected. -/
def releasedConnections (s : EngineSync) : List (Nat × SourceSignal) :=
  match s.m_pChannelMaster with
  | some i =>
    ((s.connections.filter (fun c => decide (c ≠ (i, SourceSignal.rateEngine)))).filter
      (fun c => decide (c ≠ (i, SourceSignal.bpm)))).filter
      (fun c => decide (c ≠ (i, SourceSignal.beatDistance)))
  | none => s.connections

/-- The internal-clock toggle as `disableCurrentMaster` leaves it. -/
def releasedToggle (s : EngineSync) : ℚ :=
  if s.m_sSyncSource = kMasterSyncGroup then 0 else s.m_pSyncInternalEnabled

/-- The mode of the deck at index `i`, if there is one. -/
def modeOf (s : EngineSync) (i : Nat) : Option SYNC_MODE :=
  (s.m_ratecontrols[i]?).map (fun d => d.mode)

/-- A deck outside of the excluded group that is in a mode other than
`SYNC_NONE` and is playing. -/
def isCandidate (dontpick : String) (d : RateControl) : Bool :=
  decide (d.group ≠ dontpick) && decide (d.mode ≠ SYNC_NONE) && d.isPlaying

/-- No deck outside of the excluded group is in `SYNC_MASTER`. -/
def NoOtherMaster (dontpick : String) (decks : List RateControl) : Prop :=
  ∀ d ∈ decks, d.group ≠ dontpick → d.mode ≠ SYNC_MASTER

/-- An empty registry with the internal clock as sync source at tempo 128 and
sample rate 44100. -/
def clockState : EngineSync :=
  { m_ratecontrols := [], m_pChannelMaster := none, m_sSyncSource := kMasterSyncGroup,
    m_bExplicitMasterSelected := false, m_dSamplesPerBeat := 20671875 / 1000,
    m_dPseudoBufferPos := 0, m_pMasterBpm := 128, m_pMasterBeatDistance := 0,
    m_pSampleRate := 44100, m_pSyncInternalEnabled := 1, m_pInternalRateSlider := 128,
    connections := [] }

/-- A deck in a mode other than `SYNC_MASTER`. -/
def notMaster (d : RateControl) : Bool :=
  decide (d.mode ≠ SYNC_MASTER)

/-- The measure that decreases from an election to the election nested in it:
twice the number of decks that are not in `SYNC_MASTER`, plus one when there
is a channel master. -/
def electionMeasure (s : EngineSync) : Nat :=
  2 * s.m_ratecontrols.countP notMaster + (if s.m_pChannelMaster.isSome then 1 else 0)

/-- A fuel that is enough for every election in state `s`. -/
def fuelBound (s : EngineSync) : Nat :=
  2 * s.m_ratecontrols.length + 2

/-- The invariant of the sync source: a registered deck whose group is the sync
source has an engine buffer. -/
def SourceHasBuffer (s : EngineSync) : Prop :=
  ∀ d ∈ s.m_ratecontrols, d.group = s.m_sSyncSource → d.hasEngineBuffer = true

/-- The registry as `addDeck` and `addChannel` build it, with decks of groups
other than that of the internal clock: a channel attached to a deck has the
group of the deck. -/
def RegistryOk (decks : List RateControl) : Prop :=
  ∀ d ∈ decks, d.group ≠ kMasterSyncGroup ∧ ∀ ch, d.channel = some ch → ch.group = d.group

/-- The internal clock as sync source comes with its toggle on and without a
channel master. -/
def InternalCoherent (s : EngineSync) : Prop :=
  s.m_sSyncSource = kMasterSyncGroup → s.m_pSyncInternalEnabled = 1 ∧ s.m_pChannelMaster = none

/-- A deck with group `g` in mode `m`, playing or not, with or without an
attached channel that has an engine buffer; tempo values are those of a
120 BPM track at rate 1. -/
def mkDeck (g : String) (m : SYNC_MODE) (playing : Bool) (buffer : Bool) : RateControl :=
  { group := g, mode := m,
    channel := if buffer then some { group := g, engineBuffer := true } else none,
    play := some (if playing then 1 else 0), fileBpm := 120, rateEngine := 1, bpm := 120,
    beatDistance := some 0 }

/-- A state with the given decks, channel master, sync source and explicit
flag, at tempo 120 and sample rate 44100. -/
def mkState (decks : List RateControl) (master : Option Nat) (source : String)
    (explicit : Bool) : EngineSync :=
  { m_ratecontrols := decks, m_pChannelMaster := master, m_sSyncSource := source,
    m_bExplicitMasterSelected := explicit, m_dSamplesPerBeat := 22050,
    m_dPseudoBufferPos := 0, m_pMasterBpm := 120, m_pMasterBeatDistance := 0,
    m_pSampleRate := 44100,
    m_pSyncInternalEnabled := if source = kMasterSyncGroup then 1 else 0,
    m_pInternalRateSlider := 120,
    connections := match master with
      | some i => [(i, SourceSignal.rateEngine), (i, SourceSignal.bpm),
                   (i, SourceSignal.beatDistance)]
      | none => [] }

/-- Deck 0 (`[Channel1]`) is the bound master; deck 1 (`[Channel2]`) is a
follower without an attached channel. -/
def boundMasterState : EngineSync :=
  mkState [mkDeck "[Channel1]" SYNC_MASTER true true,
           mkDeck "[Channel2]" SYNC_FOLLOWER false false] (some 0) "[Channel1]" true

/-- Two playing followers, `[Channel1]` and `[Channel2]`, neither with an
attached channel; no sync source. -/
def noBufferState : EngineSync :=
  mkState [mkDeck "[Channel1]" SYNC_FOLLOWER true false,
           mkDeck "[Channel2]" SYNC_FOLLOWER true false] none "" false

/-- The internal clock is the sync source; `[Channel1]` is a playing follower
with an engine buffer, `[Channel2]` a paused follower. -/
def solePlayingState : EngineSync :=
  mkState [mkDeck "[Channel1]" SYNC_FOLLOWER true true,
           mkDeck "[Channel2]" SYNC_FOLLOWER false true] none kMasterSyncGroup false

/-- Deck 0 (`[Channel1]`) is the bound master; it and deck 1 (`[Channel2]`, a
follower) are both playing and have an engine buffer. -/
def twoPlayingState : EngineSync :=
  mkState [mkDeck "[Channel1]" SYNC_MASTER true true,
           mkDeck "[Channel2]" SYNC_FOLLOWER true true] (some 0) "[Channel1]" false

/-- The paused deck `[Channel1]` is in `SYNC_MASTER` and is the channel master;
the sync source has been emptied, as `slotInternalMasterChanged` does. -/
def pausedMasterState : EngineSync :=
  mkState [mkDeck "[Channel1]" SYNC_MASTER false true] (some 0) "" false

/-- The paused follower `[Channel1]` is the bound sync source. -/
def pausedFollowerState : EngineSync :=
  mkState [mkDeck "[Channel1]" SYNC_FOLLOWER false true] (some 0) "[Channel1]" false

/-- The playing deck `[Channel1]`, the only deck, is the bound master. -/
def soleMasterState : EngineSync :=
  mkState [mkDeck "[Channel1]" SYNC_MASTER true true] (some 0) "[Channel1]" false

/-- The internal clock is the sync source at tempo 120 and sample rate 44100,
half a beat (11025 of 22050 samples) after the last beat. -/
def halfBeatState : EngineSync :=
  { m_ratecontrols := [], m_pChannelMaster := none, m_sSyncSource := kMasterSyncGroup,
    m_bExplicitMasterSelected := false, m_dSamplesPerBeat := 22050,
    m_dPseudoBufferPos := 11025, m_pMasterBpm := 120, m_pMasterBeatDistance := 1 / 2,
    m_pSampleRate := 44100, m_pSyncInternalEnabled := 1, m_pInternalRateSlider := 120,
    connections := [] }

/-- The state of a new coordinator (master tempo 124, sample rate 44100, samples
per beat as `updateSamplesPerBeat` computes them) with one registered deck,
`[Channel1]`: a playing follower with an engine buffer and a 120 BPM track at
rate 1, half a beat after its last beat. -/
def freshDeckState : EngineSync :=
  { m_ratecontrols :=
      [{ group := "[Channel1]", mode := SYNC_FOLLOWER,
         channel := some { group := "[Channel1]", engineBuffer := true },
         play := some 1, fileBpm := 120, rateEngine := 1, bpm := 120,
         beatDistance := some (1 / 2) }],
    m_pChannelMaster := none, m_sSyncSource := "",
    m_bExplicitMasterSelected := false, m_dSamplesPerBeat := 44100 * 60 / 124,
    m_dPseudoBufferPos := 0, m_pMasterBpm := 124, m_pMasterBeatDistance := 0,
    m_pSampleRate := 44100, m_pSyncInternalEnabled := 0, m_pInternalRateSlider := 124,
    connections := [] }

/-- Two playing followers without an attached channel; the sync source is
empty while deck 1 (`[Channel2]`) still is the channel master. -/
def staleMasterState : EngineSync :=
  mkState [mkDeck "[Channel1]" SYNC_FOLLOWER true false,
           mkDeck "[Channel2]" SYNC_FOLLOWER true false] (some 1) "" false

/-- The channel master, when it is a registered deck, is the deck whose group
is the sync source. -/
def MasterCoherent (s : EngineSync) : Prop :=
  ∀ j d, s.m_pChannelMaster = some j → s.m_ratecontrols[j]? = some d →
    s.m_sSyncSource = d.group

/-- No deck in `SYNC_NONE` is the sync source. -/
def NoNoneSource (s : EngineSync) : Prop :=
  ∀ d ∈ s.m_ratecontrols, d.mode = SYNC_NONE → d.group ≠ s.m_sSyncSource

/-- The state in which the election of `noBufferState` ends: both decks,
neither with an engine buffer, are in `SYNC_MASTER`; `[Channel2]` is the sync
source and there is no channel master. -/
def flaggedPairState : EngineSync :=
  mkState [mkDeck "[Channel1]" SYNC_MASTER true false,
           mkDeck "[Channel2]" SYNC_MASTER true false] none "[Channel2]" false

/-- A new coordinator with one registered deck, the playing follower
`[Channel1]`, whose channel with an engine buffer is attached. -/
def freshFollowerState : EngineSync :=
  mkState [mkDeck "[Channel1]" SYNC_FOLLOWER true true] none "" false

/-- The state of `freshFollowerState` after the explicit request
`setChannelSyncMode([Channel1], SYNC_MASTER)`: the deck is bound as channel
master and sync source and the explicit flag is set; the request does not set
the mode of the deck. -/
def boundByRequestState : EngineSync :=
  mkState [mkDeck "[Channel1]" SYNC_FOLLOWER true true] (some 0) "[Channel1]" true

/-- The state `boundByRequestState` with the sync source emptied, as
`slotInternalMasterChanged(0)` does before its election: the playing follower
`[Channel1]`, with an engine buffer, is the channel master. -/
def boundFollowerState : EngineSync :=
  mkState [mkDeck "[Channel1]" SYNC_FOLLOWER true true] (some 0) "" true

/-- A new coordinator with one registered deck, the playing follower
`[Channel1]`, whose channel is not attached yet. -/
def freshNoBufferState : EngineSync :=
  mkState [mkDeck "[Channel1]" SYNC_FOLLOWER true false] none "" false

/-- The state of `freshNoBufferState` after `setChannelSyncMode([Channel1])`:
the deck is in `SYNC_MASTER`, its bind has failed and the internal clock is the
sync source. -/
def internalFlaggedState : EngineSync :=
  mkState [mkDeck "[Channel1]" SYNC_MASTER true false] none kMasterSyncGroup false

/-- A new coordinator with two registered decks: the playing follower
`[Channel1]`, whose channel is not attached yet, and the paused follower
`[Channel2]`. -/
def freshPairState : EngineSync :=
  mkState [mkDeck "[Channel1]" SYNC_FOLLOWER true false,
           mkDeck "[Channel2]" SYNC_FOLLOWER false true] none "" false

/-- The state of `freshPairState` after `setChannelSyncMode([Channel1])`:
`[Channel1]` is in `SYNC_MASTER`, its bind has failed and the internal clock is
the sync source. -/
def internalPairState : EngineSync :=
  mkState [mkDeck "[Channel1]" SYNC_MASTER true false,
           mkDeck "[Channel2]" SYNC_FOLLOWER false true] none kMasterSyncGroup false

/-- The playing deck `[Channel1]`, without an engine buffer, is in `SYNC_MASTER`
and is the sync source by adoption: there is no channel master. -/
def adoptedState : EngineSync :=
  mkState [mkDeck "[Channel1]" SYNC_MASTER true false] none "[Channel1]" false

/-- Deck `[Channel1]`, without an engine buffer, is in `SYNC_MASTER` and is the
sync source by adoption (no channel master); it and the follower `[Channel2]`
are both playing; the explicit flag is clear. -/
def adoptedPlayingState : EngineSync :=
  mkState [mkDeck "[Channel1]" SYNC_MASTER true false,
           mkDeck "[Channel2]" SYNC_FOLLOWER true true] none "[Channel1]" false

/-- The state `adoptedPlayingState` while `[Channel2]` is still paused. -/
def adoptedPausedState : EngineSync :=
  mkState [mkDeck "[Channel1]" SYNC_MASTER true false,
           mkDeck "[Channel2]" SYNC_FOLLOWER false true] none "[Channel1]" false

/-- Deck `[Channel1]`, with an engine buffer, is in `SYNC_MASTER` and is the sync
source by adoption while the toggle of the internal clock is on: there is no
channel master and no connection; `[Channel2]` is in `SYNC_NONE`. -/
def adoptedToggleState : EngineSync :=
  { mkState [mkDeck "[Channel1]" SYNC_MASTER true true,
             mkDeck "[Channel2]" SYNC_NONE false true] none "[Channel1]" false with
    m_pSyncInternalEnabled := 1 }

/-- The invariant of the channel master: it is a registered deck with an engine
buffer. `setChannelMaster` assigns `m_pChannelMaster` only after its test of the
engine buffer. -/
def ChannelMasterHasBuffer (s : EngineSync) : Prop :=
  ∀ j, s.m_pChannelMaster = some j →
    ∃ d, s.m_ratecontrols[j]? = some d ∧ d.hasEngineBuffer = true

/-- A multiple of `2 ^ j`. -/
def OnGrid (j : ℤ) (x : ℚ) : Prop :=
  ∃ k : ℤ, x = k * (2 : ℚ) ^ j

/-- The internal clock is the sync source at sample rate 44100 and master tempo
`2646000 * 2^46` (about 1.86e20), with `44100 * 60 / tempo = 2^-46` samples per
beat and phase 0; all of these values are `double`s. -/
def fastClockState : EngineSync :=
  { clockState with m_pMasterBpm := 2646000 * 2 ^ 46, m_dSamplesPerBeat := 1 / 2 ^ 46 }

/-- The internal clock is the sync source at tempo 120 and sample rate 44100
(22050 samples per beat), `2^-44` samples after the last beat. -/
def offGridState : EngineSync :=
  { halfBeatState with m_dPseudoBufferPos := 1 / 2 ^ 44 }

/-- The internal clock is the sync source at tempo 128 and sample rate 44100
(20671.875 samples per beat), 20000 samples after the last beat. -/
def lateBeatState : EngineSync :=
  { clockState with m_dPseudoBufferPos := 20000 }

/-! ## The internal clock -/

theorem qFuzzyCompare_zero_right (x : ℚ) : qFuzzyCompare x 0 = decide (x = 0) := by
  unfold qFuzzyCompare
  by_cases h : x = 0
  · simp [h]
  · have h1 : 0 < |x| := abs_pos.mpr h
    have h2 : ¬ (|x - 0| * 1000000000000 ≤ min |x| |(0 : ℚ)|) := by
      simp only [sub_zero, abs_zero, not_le]
      have : min |x| (0 : ℚ) ≤ 0 := min_le_right _ _
      nlinarith
    rw [decide_eq_false h2, decide_eq_false h]

theorem qFuzzyCompare_self (x : ℚ) : qFuzzyCompare x x = true := by
  simp [qFuzzyCompare]

theorem log_two_eq (r : ℚ) (e : ℤ) (h0 : 0 < r) (h1 : (2 : ℚ) ^ e ≤ r)
    (h2 : r < (2 : ℚ) ^ (e + 1)) : Int.log 2 r = e := by
  have a : e ≤ Int.log 2 r :=
    (Int.zpow_le_iff_le_log (b := 2) (by norm_num) (x := e) h0).mp (by exact_mod_cast h1)
  have b : Int.log 2 r < e + 1 :=
    (Int.lt_zpow_iff_log_lt (b := 2) (by norm_num) (x := e + 1) h0).mp (by exact_mod_cast h2)
  omega

theorem roundHalfEven_eq (y : ℚ) (m : ℤ) (h1 : (m : ℚ) - 1 / 2 < y) (h2 : y < m + 1 / 2) :
    roundHalfEven y = m := by
  unfold roundHalfEven
  simp only
  by_cases hy : (m : ℚ) ≤ y
  · have hf : ⌊y⌋ = m := by
      rw [Int.floor_eq_iff]
      exact ⟨hy, by linarith⟩
    rw [hf, if_pos (by linarith)]
  · have hf : ⌊y⌋ = m - 1 := by
      rw [Int.floor_eq_iff]
      push_cast
      exact ⟨by linarith, by linarith [not_le.mp hy]⟩
    rw [hf]
    push_cast
    rw [if_neg (by linarith), if_pos (by linarith)]
    ring

theorem roundHalfEven_intCast (m : ℤ) : roundHalfEven (m : ℚ) = m :=
  roundHalfEven_eq _ m (by linarith) (by linarith)

theorem roundHalfEven_nonneg (y : ℚ) (h : 0 ≤ y) : 0 ≤ roundHalfEven y := by
  have hf : 0 ≤ ⌊y⌋ := Int.floor_nonneg.mpr h
  unfold roundHalfEven
  simp only
  split
  · exact hf
  · split
    · omega
    · split
      · exact hf
      · omega

theorem roundDouble_nonneg (x : ℚ) (h : 0 ≤ x) : 0 ≤ roundDouble x := by
  unfold roundDouble
  have hu : (0 : ℚ) < (2 : ℚ) ^ ulpExp x := by positivity
  have : 0 ≤ roundHalfEven (x / (2 : ℚ) ^ ulpExp x) :=
    roundHalfEven_nonneg _ (div_nonneg h hu.le)
  have h2 : (0 : ℚ) ≤ (roundHalfEven (x / (2 : ℚ) ^ ulpExp x) : ℚ) := by exact_mod_cast this
  positivity

/-- The value of `roundDouble x` from the binary exponent `e` of `x` and the
integer `m` nearest to `x / 2^(e-52)`. -/
theorem roundDouble_eq (x : ℚ) (e m : ℤ) (he : -1022 ≤ e) (h1 : (2 : ℚ) ^ e ≤ |x|)
    (h2 : |x| < (2 : ℚ) ^ (e + 1))
    (h3 : (m : ℚ) - 1 / 2 < x / (2 : ℚ) ^ (e - 52))
    (h4 : x / (2 : ℚ) ^ (e - 52) < m + 1 / 2) :
    roundDouble x = m * (2 : ℚ) ^ (e - 52) := by
  have hpos : 0 < |x| := lt_of_lt_of_le (by positivity) h1
  have hl : Int.log 2 |x| = e := log_two_eq _ e hpos h1 h2
  have hu : ulpExp x = e - 52 := by
    unfold ulpExp
    rw [hl, max_eq_left he]
  unfold roundDouble
  rw [hu, roundHalfEven_eq _ m h3 h4]

/-- A multiple `k * 2^j` with `|k| < 2^53` is a `double`: rounding leaves it as
it is. -/
theorem roundDouble_of_multiple (x : ℚ) (j k : ℤ) (hj : -1074 ≤ j) (hx : x = k * (2 : ℚ) ^ j)
    (hk : |k| < 2 ^ 53) : roundDouble x = x := by
  have key : ∀ u : ℤ, u ≤ j →
      (roundHalfEven (x / (2 : ℚ) ^ u) : ℚ) * (2 : ℚ) ^ u = x := by
    intro u hu
    obtain ⟨n, hn⟩ := Int.eq_ofNat_of_zero_le (sub_nonneg.mpr hu)
    have e1 : (2 : ℚ) ^ j = (2 : ℚ) ^ n * (2 : ℚ) ^ u := by
      have : j = (n : ℤ) + u := by omega
      rw [this, zpow_add₀ (by norm_num : (2 : ℚ) ≠ 0), zpow_natCast]
    have hu0 : (2 : ℚ) ^ u ≠ 0 := by positivity
    have e2 : x / (2 : ℚ) ^ u = ((k * 2 ^ n : ℤ) : ℚ) := by
      rw [hx, e1]
      field_simp
      ring
    rw [e2, roundHalfEven_intCast, hx, e1]
    push_cast
    ring
  by_cases h0 : k = 0
  · subst h0
    have hx0 : x = 0 := by rw [hx]; simp
    unfold roundDouble
    rw [hx0]
    simp [roundHalfEven]
  · apply key
    have hxne : 0 < |x| := by
      rw [hx, abs_pos]
      exact mul_ne_zero (by exact_mod_cast h0) (by positivity)
    have hlt : |x| < (2 : ℚ) ^ (53 + j) := by
      rw [hx, abs_mul, abs_of_pos (by positivity : (0 : ℚ) < (2 : ℚ) ^ j),
        zpow_add₀ (by norm_num : (2 : ℚ) ≠ 0)]
      have hk2 : ((|k| : ℤ) : ℚ) < (2 : ℚ) ^ (53 : ℤ) := by
        have h5 : ((|k| : ℤ) : ℚ) < ((2 ^ 53 : ℤ) : ℚ) := by exact_mod_cast hk
        have h6 : ((2 ^ 53 : ℤ) : ℚ) = (2 : ℚ) ^ (53 : ℤ) := by norm_num
        rw [h6] at h5
        exact h5
      have : |(k : ℚ)| = ((|k| : ℤ) : ℚ) := by simp
      rw [this]
      exact mul_lt_mul_of_pos_right hk2 (by positivity)
    have hlog : Int.log 2 |x| < 53 + j :=
      (Int.lt_zpow_iff_log_lt (b := 2) (by norm_num) hxne).mp (by exact_mod_cast hlt)
    unfold ulpExp
    have := max_le (show Int.log 2 |x| ≤ 52 + j by omega) (show (-1022 : ℤ) ≤ 52 + j by omega)
    omega

theorem roundDouble_of_onGrid (j : ℤ) (x : ℚ) (hj : -1074 ≤ j) (hg : OnGrid j x)
    (h0 : 0 ≤ x) (hb : x < 2 ^ 53 * (2 : ℚ) ^ j) : roundDouble x = x := by
  obtain ⟨k, hk⟩ := hg
  have hu : (0 : ℚ) < (2 : ℚ) ^ j := by positivity
  have hk0 : (0 : ℚ) ≤ k := by
    by_contra hc
    have : (k : ℚ) * (2 : ℚ) ^ j < 0 := mul_neg_of_neg_of_pos (not_le.mp hc) hu
    linarith
  have hk1 : (k : ℚ) < 2 ^ 53 := by
    rw [hk] at hb
    exact lt_of_mul_lt_mul_right hb hu.le
  have hk0z : (0 : ℤ) ≤ k := by exact_mod_cast hk0
  have hk1z : k < 2 ^ 53 := by exact_mod_cast hk1
  exact roundDouble_of_multiple x j k hj hk (by rw [abs_of_nonneg hk0z]; exact hk1z)

theorem onGrid_intCast (j : ℤ) (hj : j ≤ 0) (m : ℤ) : OnGrid j (m : ℚ) := by
  obtain ⟨n, hn⟩ := Int.eq_ofNat_of_zero_le (neg_nonneg.mpr hj)
  refine ⟨m * 2 ^ n, ?_⟩
  have : j = -(n : ℤ) := by omega
  rw [this, zpow_neg, zpow_natCast]
  push_cast
  field_simp

theorem onGrid_add (j : ℤ) (x y : ℚ) (hx : OnGrid j x) (hy : OnGrid j y) :
    OnGrid j (x + y) := by
  obtain ⟨a, ha⟩ := hx
  obtain ⟨b, hb⟩ := hy
  exact ⟨a + b, by rw [ha, hb]; push_cast; ring⟩

theorem onGrid_sub (j : ℤ) (x y : ℚ) (hx : OnGrid j x) (hy : OnGrid j y) :
    OnGrid j (x - y) := by
  obtain ⟨a, ha⟩ := hx
  obtain ⟨b, hb⟩ := hy
  exact ⟨a - b, by rw [ha, hb]; push_cast; ring⟩

/-- When the loop ends, the accumulator is below the samples per beat, and not
negative when it was not negative before. -/
theorem wrapPseudoBufferPos_range (spb : ℚ) :
    ∀ (fuel : Nat) (pos p : ℚ), 0 ≤ pos → wrapPseudoBufferPos spb fuel pos = some p →
      0 ≤ p ∧ p < spb := by
  intro fuel
  induction fuel with
  | zero =>
    intro pos p h0 h
    unfold wrapPseudoBufferPos at h
    split at h
    · cases h
    · rename_i hc
      simp only [Option.some.injEq] at h
      rw [← h]
      exact ⟨h0, not_le.mp hc⟩
  | succ n ih =>
    intro pos p h0 h
    unfold wrapPseudoBufferPos at h
    split at h
    · rename_i hc
      exact ih _ p (roundDouble_nonneg _ (by linarith)) h
    · rename_i hc
      simp only [Option.some.injEq] at h
      rw [← h]
      exact ⟨h0, not_le.mp hc⟩

/-- Where every difference is a `double`, the loop subtracts the samples per
beat `k` times, `k` being the number of whole beats in the accumulator. -/
theorem wrapPseudoBufferPos_exact (spb : ℚ) (j : ℤ) (hspb : 0 < spb) (hj : -1074 ≤ j)
    (hgs : OnGrid j spb) :
    ∀ (k : ℕ) (pos : ℚ), OnGrid j pos → pos < 2 ^ 53 * (2 : ℚ) ^ j →
      (k : ℚ) * spb ≤ pos → pos < ((k : ℚ) + 1) * spb →
      ∀ fuel, k ≤ fuel → wrapPseudoBufferPos spb fuel pos = some (pos - (k : ℚ) * spb) := by
  intro k
  induction k with
  | zero =>
    intro pos _ _ _ h2 fuel _
    have hlt : ¬ spb ≤ pos := by
      simp only [Nat.cast_zero, zero_add, one_mul] at h2
      exact not_le.mpr h2
    cases fuel with
    | zero => simp [wrapPseudoBufferPos, hlt]
    | succ f => simp [wrapPseudoBufferPos, hlt]
  | succ k ih =>
    intro pos hg hb h1 h2 fuel hf
    push_cast at h1 h2
    have hk0 : (0 : ℚ) ≤ (k : ℚ) * spb := by positivity
    have hle : spb ≤ pos := by linarith
    cases fuel with
    | zero => omega
    | succ f =>
      have hr : roundDouble (pos - spb) = pos - spb :=
        roundDouble_of_onGrid j _ hj (onGrid_sub j _ _ hg hgs) (by linarith) (by linarith)
      rw [wrapPseudoBufferPos, if_pos hle, hr,
        ih (pos - spb) (onGrid_sub j _ _ hg hgs) (by linarith) (by linarith) (by linarith)
          f (by omega)]
      congr 1
      push_cast
      ring

theorem tdiv_two_nonneg (b : Int) (h : 0 ≤ b) : 0 ≤ b.tdiv 2 :=
  Int.tdiv_nonneg h (by decide)

/-- The loop in `fastClockState` after the first sum: the accumulator is 1024,
the samples per beat are `2^-46`, a quarter of half the spacing of the `double`
values below 1024; the difference rounds to 1024 again, and no fuel is
enough. -/
theorem wrapPseudoBufferPos_stuck :
    ∀ fuel, wrapPseudoBufferPos (1 / 2 ^ 46) fuel 1024 = none := by
  have hr : roundDouble (1024 - 1 / 2 ^ 46) = 1024 := by
    rw [roundDouble_eq _ 9 (2 ^ 53) (by norm_num) (by norm_num [abs_of_pos])
      (by norm_num [abs_of_pos]) (by norm_num) (by norm_num)]
    norm_num
  intro fuel
  induction fuel with
  | zero => norm_num [wrapPseudoBufferPos]
  | succ n ih =>
    rw [wrapPseudoBufferPos, if_pos (by norm_num), hr]
    exact ih

/-- C1, the code at a failing input: `fastClockState` has the internal clock as
sync source, a positive tempo and sample rate, `sampleRate * 60 / tempo = 2^-46`
samples per beat and phase 0, in `[0, 2^-46)`. The first `process` call of a
sequence, with a buffer of 2048 samples, never returns: the sum is 1024, and
`1024 - 2^-46` rounds to 1024, so the loop subtracts for ever. -/
theorem process_never_returns :
    0 < fastClockState.m_pMasterBpm ∧ 0 < fastClockState.m_pSampleRate ∧
    fastClockState.m_sSyncSource = kMasterSyncGroup ∧
    fastClockState.m_dSamplesPerBeat
      = fastClockState.m_pSampleRate * 60 / fastClockState.m_pMasterBpm ∧
    (updateSamplesPerBeat fastClockState).m_dSamplesPerBeat = fastClockState.m_dSamplesPerBeat ∧
    0 ≤ fastClockState.m_dPseudoBufferPos ∧
    fastClockState.m_dPseudoBufferPos < fastClockState.m_dSamplesPerBeat ∧
    roundDouble (1024 - fastClockState.m_dSamplesPerBeat) = 1024 ∧
    (∀ fuel, process fuel fastClockState 2048 = none) ∧
    ∀ fuel, processAll fuel fastClockState [2048] = none := by
  have hsum : roundDouble (0 + ((((2048 : Int).tdiv 2 : Int)) : ℚ)) = 1024 := by
    have e0 : (2048 : Int).tdiv 2 = 1024 := by decide
    have e : (0 : ℚ) + ((((2048 : Int).tdiv 2 : Int)) : ℚ) = 1024 := by
      rw [e0]
      norm_num
    rw [e]
    exact roundDouble_of_multiple 1024 0 1024 (by norm_num) (by norm_num) (by norm_num)
  have hr : roundDouble (1024 - 1 / 2 ^ 46) = 1024 := by
    rw [roundDouble_eq _ 9 (2 ^ 53) (by norm_num) (by norm_num [abs_of_pos])
      (by norm_num [abs_of_pos]) (by norm_num) (by norm_num)]
    norm_num
  have hp : ∀ fuel, process fuel fastClockState 2048 = none := by
    intro fuel
    have hsrc : fastClockState.m_sSyncSource = kMasterSyncGroup := rfl
    have hspb : ¬ ((1 : ℚ) / 2 ^ 46 ≤ 0) := by norm_num
    unfold process
    simp only [hsrc, ne_eq, not_true_eq_false, if_false]
    show Option.map _ (wrapPseudoBufferPos _ fuel _) = none
    simp only [fastClockState, clockState, hsum, hspb, if_false, wrapPseudoBufferPos_stuck,
      Option.map_none']
  refine ⟨by norm_num [fastClockState], by norm_num [fastClockState, clockState], rfl,
    by norm_num [fastClockState, clockState], ?_, by norm_num [fastClockState, clockState],
    by norm_num [fastClockState, clockState], hr, hp, ?_⟩
  · simp [updateSamplesPerBeat, qFuzzyCompare_zero_right, fastClockState, clockState]
    norm_num
  · intro fuel
    simp [processAll, hp fuel]

theorem slotMasterBpmChanged_of_stored (fuel : Nat) (s : EngineSync) (v : ℚ) :
    slotMasterBpmChanged fuel { s with m_pMasterBpm := v } v
      = some { s with m_pMasterBpm := v } := by
  simp [slotMasterBpmChanged, qFuzzyCompare_self]

theorem setMasterBpm_eq (s : EngineSync) (v : ℚ) :
    setMasterBpm s v = { s with m_pMasterBpm := v } := by
  unfold setMasterBpm
  rw [slotMasterBpmChanged_of_stored]

theorem slotSyncRateSliderChanged_eq (s : EngineSync) (v : ℚ) :
    ∃ b, slotSyncRateSliderChanged s v = { s with m_pMasterBpm := b } := by
  unfold slotSyncRateSliderChanged
  split
  · exact ⟨v, setMasterBpm_eq s v⟩
  · exact ⟨s.m_pMasterBpm, rfl⟩

theorem setInternalRateSlider_eq (s : EngineSync) (v : ℚ) :
    ∃ b, setInternalRateSlider s v = { s with m_pInternalRateSlider := v, m_pMasterBpm := b } := by
  unfold setInternalRateSlider
  obtain ⟨b, hb⟩ := slotSyncRateSliderChanged_eq { s with m_pInternalRateSlider := v } v
  exact ⟨b, hb⟩

theorem updateSamplesPerBeat_eq (s : EngineSync) :
    ∃ v, updateSamplesPerBeat s = { s with m_dSamplesPerBeat := v } := by
  unfold updateSamplesPerBeat
  simp only
  split
  · exact ⟨_, rfl⟩
  · split
    · exact ⟨_, rfl⟩
    · exact ⟨_, rfl⟩

theorem initializeInternalBeatDistance_eq (s : EngineSync) :
    ∃ p b, initializeInternalBeatDistance s
      = { s with m_dPseudoBufferPos := p, m_pMasterBeatDistance := b } := by
  unfold initializeInternalBeatDistance
  split
  · unfold initializeInternalBeatDistanceOf
    split
    · exact ⟨_, _, rfl⟩
    · exact ⟨_, _, rfl⟩
  · exact ⟨_, _, rfl⟩

theorem setModeAt_length (l : List RateControl) (i : Nat) (m : SYNC_MODE) :
    (setModeAt l i m).length = l.length := by
  unfold setModeAt
  split <;> simp

theorem setModeAt_getElem? (l : List RateControl) (i j : Nat) (m : SYNC_MODE) :
    (setModeAt l i m)[j]? =
      if j = i then (l[i]?).map (fun d => { d with mode := m }) else l[j]? := by
  unfold setModeAt
  split
  · rename_i d hd
    rw [List.getElem?_set]
    by_cases h : i = j
    · subst h
      have : i < l.length := by
        by_contra hc
        rw [List.getElem?_eq_none (not_lt.mp hc)] at hd
        cases hd
      simp [hd, this]
    · have h2 : ¬ j = i := fun e => h e.symm
      simp [h, h2]
  · rename_i hd
    by_cases h : j = i
    · subst h; simp [hd]
    · simp [h]

theorem disableCurrentMaster_eq (s : EngineSync) :
    disableCurrentMaster s =
      { s with m_ratecontrols := releasedDecks s, connections := releasedConnections s,
               m_pSyncInternalEnabled := releasedToggle s,
               m_sSyncSource := "", m_pChannelMaster := none } := by
  unfold disableCurrentMaster releasedDecks releasedConnections releasedToggle
  cases h : s.m_pChannelMaster <;> by_cases h2 : s.m_sSyncSource = kMasterSyncGroup <;>
    simp [h2, setSyncInternalEnabled, setMode, disconnect]

theorem setInternalMaster_already (s : EngineSync) (h : s.m_sSyncSource = kMasterSyncGroup) :
    setInternalMaster s = s := by
  simp [setInternalMaster, h]

theorem setInternalMaster_eq (s : EngineSync) (h : s.m_sSyncSource ≠ kMasterSyncGroup) :
    ∃ p b v sl mb, setInternalMaster s =
      { s with m_ratecontrols := releasedDecks s, connections := releasedConnections s,
               m_pSyncInternalEnabled := 1, m_sSyncSource := kMasterSyncGroup,
               m_pChannelMaster := none, m_dPseudoBufferPos := p,
               m_pMasterBeatDistance := b, m_dSamplesPerBeat := v,
               m_pInternalRateSlider := sl, m_pMasterBpm := mb } := by
  have h1 : ∃ sl mb, (if !qFuzzyCompare s.m_pMasterBpm 0 then
      setInternalRateSlider s s.m_pMasterBpm else s)
      = { s with m_pInternalRateSlider := sl, m_pMasterBpm := mb } := by
    split
    · obtain ⟨b, hb⟩ := setInternalRateSlider_eq s s.m_pMasterBpm
      exact ⟨_, b, hb⟩
    · exact ⟨_, _, rfl⟩
  obtain ⟨sl, mb, e1⟩ := h1
  unfold setInternalMaster
  simp only [h, if_false]
  rw [e1]
  obtain ⟨p, b, e2⟩ := initializeInternalBeatDistance_eq
    { s with m_pInternalRateSlider := sl, m_pMasterBpm := mb }
  rw [e2, disableCurrentMaster_eq]
  obtain ⟨v, e3⟩ := updateSamplesPerBeat_eq
    { ({ ({ ({ s with m_pInternalRateSlider := sl, m_pMasterBpm := mb } : EngineSync) with
            m_dPseudoBufferPos := p, m_pMasterBeatDistance := b } : EngineSync) with
          m_ratecontrols := releasedDecks
            { ({ s with m_pInternalRateSlider := sl, m_pMasterBpm := mb } : EngineSync) with
              m_dPseudoBufferPos := p, m_pMasterBeatDistance := b },
          connections := releasedConnections
            { ({ s with m_pInternalRateSlider := sl, m_pMasterBpm := mb } : EngineSync) with
              m_dPseudoBufferPos := p, m_pMasterBeatDistance := b },
          m_pSyncInternalEnabled := releasedToggle
            { ({ s with m_pInternalRateSlider := sl, m_pMasterBpm := mb } : EngineSync) with
              m_dPseudoBufferPos := p, m_pMasterBeatDistance := b },
          m_sSyncSource := "", m_pChannelMaster := none } : EngineSync) with
      m_sSyncSource := kMasterSyncGroup }
  refine ⟨p, b, v, sl, mb, ?_⟩
  simp only [] at e3 ⊢
  rw [e3]
  simp [setSyncInternalEnabled, releasedDecks, releasedConnections]

theorem setChannelMaster_already (s : EngineSync) (i : Nat) (d : RateControl)
    (hd : s.m_ratecontrols[i]? = some d) (h : s.m_sSyncSource = d.group) :
    setChannelMaster s i = (s, true) := by
  simp [setChannelMaster, hd, h]

theorem setChannelMaster_fail (s : EngineSync) (i : Nat) (d : RateControl)
    (hd : s.m_ratecontrols[i]? = some d) (h : s.m_sSyncSource ≠ d.group)
    (hb : d.hasEngineBuffer = false) :
    setChannelMaster s i = (disableCurrentMaster s, false) := by
  unfold setChannelMaster
  simp only [hd, h, if_false]
  unfold RateControl.hasEngineBuffer at hb
  cases hc : d.channel with
  | none => rfl
  | some ch =>
    rw [hc] at hb
    simp only at hb
    simp [hb]

theorem slotSourceRateEngineChanged_eq (s : EngineSync) (v : ℚ) :
    ∃ mb, slotSourceRateEngineChanged s v = { s with m_pMasterBpm := mb } := by
  unfold slotSourceRateEngineChanged
  split
  · split
    · exact ⟨_, setMasterBpm_eq _ _⟩
    · exact ⟨_, rfl⟩
  · exact ⟨_, rfl⟩

theorem slotSourceBpmChanged_eq (s : EngineSync) (v : ℚ) :
    ∃ sl mb, slotSourceBpmChanged s v
      = { s with m_pInternalRateSlider := sl, m_pMasterBpm := mb } := by
  unfold slotSourceBpmChanged
  split
  · obtain ⟨b, hb⟩ := setInternalRateSlider_eq s v
    exact ⟨_, b, hb⟩
  · exact ⟨_, _, rfl⟩

theorem slotSourceRateEngineChanged_frame (s : EngineSync) (v : ℚ) :
    slotSourceRateEngineChanged s v
      = { s with m_pMasterBpm := (slotSourceRateEngineChanged s v).m_pMasterBpm } := by
  obtain ⟨mb, e⟩ := slotSourceRateEngineChanged_eq s v
  rw [e]

theorem slotSourceBpmChanged_frame (s : EngineSync) (v : ℚ) :
    slotSourceBpmChanged s v
      = { s with m_pInternalRateSlider := (slotSourceBpmChanged s v).m_pInternalRateSlider,
                 m_pMasterBpm := (slotSourceBpmChanged s v).m_pMasterBpm } := by
  obtain ⟨sl, mb, e⟩ := slotSourceBpmChanged_eq s v
  rw [e]

theorem initializeInternalBeatDistance_frame (s : EngineSync) :
    initializeInternalBeatDistance s
      = { s with m_dPseudoBufferPos := (initializeInternalBeatDistance s).m_dPseudoBufferPos,
                 m_pMasterBeatDistance :=
                   (initializeInternalBeatDistance s).m_pMasterBeatDistance } := by
  obtain ⟨p, b, e⟩ := initializeInternalBeatDistance_eq s
  rw [e]

theorem setChannelMaster_success (s : EngineSync) (i : Nat) (d : RateControl)
    (ch : EngineChannel)
    (hd : s.m_ratecontrols[i]? = some d) (h : s.m_sSyncSource ≠ d.group)
    (hc : d.channel = some ch) (hb : ch.engineBuffer = true) :
    ∃ p b sl mb, setChannelMaster s i =
      ({ s with m_ratecontrols := releasedDecks s,
                connections := releasedConnections s ++ [(i, SourceSignal.rateEngine)] ++
                  [(i, SourceSignal.bpm)] ++ [(i, SourceSignal.beatDistance)],
                m_pSyncInternalEnabled := 0, m_sSyncSource := ch.group,
                m_pChannelMaster := some i, m_dPseudoBufferPos := p,
                m_pMasterBeatDistance := b,
                m_pInternalRateSlider := sl, m_pMasterBpm := mb }, true) := by
  unfold setChannelMaster
  simp only [hd, h, if_false, hc, hb, Bool.not_true, Bool.false_eq_true]
  rw [slotSourceBpmChanged_frame, slotSourceRateEngineChanged_frame]
  simp only [connect, setSyncInternalEnabled]
  rw [initializeInternalBeatDistance_frame, disableCurrentMaster_eq]
  exact ⟨_, _, _, _, rfl⟩

/-! ## Binding and releasing the authority -/

theorem modeOf_setModeAt (s : EngineSync) (l : List RateControl) (i j : Nat) (m : SYNC_MODE)
    (hl : l = setModeAt s.m_ratecontrols i m) :
    modeOf { s with m_ratecontrols := l } j
      = if j = i then (modeOf s i).map (fun _ => m) else modeOf s j := by
  subst hl
  unfold modeOf
  simp only [setModeAt_getElem?]
  split
  · cases s.m_ratecontrols[i]? <;> simp
  · rfl

theorem releasedDecks_length (s : EngineSync) :
    (releasedDecks s).length = s.m_ratecontrols.length := by
  unfold releasedDecks
  split
  · exact setModeAt_length _ _ _
  · rfl

theorem releasedDecks_getElem?_master (s : EngineSync) (j : Nat)
    (h : s.m_pChannelMaster = some j) :
    (releasedDecks s)[j]? = (s.m_ratecontrols[j]?).map (fun d => { d with mode := SYNC_FOLLOWER }) := by
  unfold releasedDecks
  simp [h, setModeAt_getElem?]

theorem releasedDecks_getElem?_other (s : EngineSync) (j : Nat)
    (h : s.m_pChannelMaster ≠ some j) :
    (releasedDecks s)[j]? = s.m_ratecontrols[j]? := by
  unfold releasedDecks
  cases hm : s.m_pChannelMaster with
  | none => rfl
  | some i =>
    have : ¬ j = i := fun e => h (by rw [hm, e])
    simp [setModeAt_getElem?, this]

/-- C3, as the code has it: for a registered deck that is not the sync source
and has no engine buffer, `setChannelMaster` returns `false` after it has
released the previous authority: the sync source is empty, there is no channel
master, the deck that was channel master is in `SYNC_FOLLOWER`, and every other
deck is as it was. -/
theorem setChannelMaster_no_buffer_releases (s : EngineSync) (i : Nat) (d : RateControl)
    (hd : s.m_ratecontrols[i]? = some d) (hsrc : s.m_sSyncSource ≠ d.group)
    (hbuf : d.hasEngineBuffer = false) :
    (setChannelMaster s i).2 = false ∧
    (setChannelMaster s i).1.m_sSyncSource = "" ∧
    (setChannelMaster s i).1.m_pChannelMaster = none ∧
    (∀ j dj, s.m_pChannelMaster = some j → s.m_ratecontrols[j]? = some dj →
      (setChannelMaster s i).1.m_ratecontrols[j]? = some { dj with mode := SYNC_FOLLOWER }) ∧
    (∀ j, s.m_pChannelMaster ≠ some j →
      (setChannelMaster s i).1.m_ratecontrols[j]? = s.m_ratecontrols[j]?) := by
  rw [setChannelMaster_fail s i d hd hsrc hbuf, disableCurrentMaster_eq]
  refine ⟨rfl, rfl, rfl, ?_, ?_⟩
  · intro j dj hj hdj
    simp only [releasedDecks_getElem?_master s j hj, hdj, Option.map_some']
  · intro j hj
    exact releasedDecks_getElem?_other s j hj

/-- Witness of C3 as amended: deck 1 of `boundMasterState`. -/
theorem setChannelMaster_no_buffer_releases_witness :
    (setChannelMaster boundMasterState 1).2 = false ∧
    (setChannelMaster boundMasterState 1).1.m_sSyncSource = "" ∧
    (setChannelMaster boundMasterState 1).1.m_pChannelMaster = none ∧
    (∀ j dj, boundMasterState.m_pChannelMaster = some j →
      boundMasterState.m_ratecontrols[j]? = some dj →
      (setChannelMaster boundMasterState 1).1.m_ratecontrols[j]?
        = some { dj with mode := SYNC_FOLLOWER }) ∧
    (∀ j, boundMasterState.m_pChannelMaster ≠ some j →
      (setChannelMaster boundMasterState 1).1.m_ratecontrols[j]?
        = boundMasterState.m_ratecontrols[j]?) :=
  setChannelMaster_no_buffer_releases boundMasterState 1
    (mkDeck "[Channel2]" SYNC_FOLLOWER false false) rfl (by decide) rfl

/-- Counterexample to C3 as stated: deck 1 of `boundMasterState` is registered,
is not the sync source and has no engine buffer; `setChannelMaster` returns
`false`, but the sync source, the channel master and the mode of the previous
authority (deck 0) are not what they were. -/
theorem setChannelMaster_no_buffer_counterexample :
    (boundMasterState.m_ratecontrols[1]? = some (mkDeck "[Channel2]" SYNC_FOLLOWER false false) ∧
      boundMasterState.m_sSyncSource ≠ "[Channel2]" ∧
      (mkDeck "[Channel2]" SYNC_FOLLOWER false false).hasEngineBuffer = false) ∧
    (setChannelMaster boundMasterState 1).2 = false ∧
    (boundMasterState.m_sSyncSource = "[Channel1]" ∧
      (setChannelMaster boundMasterState 1).1.m_sSyncSource = "") ∧
    (boundMasterState.m_pChannelMaster = some 0 ∧
      (setChannelMaster boundMasterState 1).1.m_pChannelMaster = none) ∧
    (modeOf boundMasterState 0 = some SYNC_MASTER ∧
      modeOf (setChannelMaster boundMasterState 1).1 0 = some SYNC_FOLLOWER) := by
  decide

/-! ## The scan of `chooseNewMaster` -/

theorem mode_follower_of (d : RateControl) (h1 : d.mode ≠ SYNC_MASTER)
    (h2 : d.mode ≠ SYNC_NONE) : d.mode = SYNC_FOLLOWER := by
  cases h : d.mode
  · exact absurd h h2
  · rfl
  · exact absurd h h1

theorem scanDecks_counted (dp : String) :
    ∀ (l : List RateControl) (idx p q : Nat) (nm : Option Nat) (p' q' : Nat) (nm' : Option Nat),
      scanDecks dp l idx p q nm = ScanOutcome.counted p' q' nm' →
      NoOtherMaster dp l ∧ p' = p + l.countP (isCandidate dp) ∧
      ((l.countP (isCandidate dp) = 0 ∧ nm' = nm) ∨
        ∃ k d, nm' = some (idx + k) ∧ l[k]? = some d ∧ isCandidate dp d = true) := by
  intro l
  induction l with
  | nil =>
    intro idx p q nm p' q' nm' h
    simp only [scanDecks, ScanOutcome.counted.injEq] at h
    refine ⟨fun d hd => absurd hd (List.not_mem_nil d), by simp [h.1], Or.inl ⟨rfl, h.2.2.symm⟩⟩
  | cons d rest ih =>
    intro idx p q nm p' q' nm' h
    have shift : ∀ nm0 : Option Nat, isCandidate dp d = false →
        ((rest.countP (isCandidate dp) = 0 ∧ nm' = nm0) ∨
          ∃ k d', nm' = some (idx + 1 + k) ∧ rest[k]? = some d' ∧ isCandidate dp d' = true) →
        (((d :: rest).countP (isCandidate dp) = 0 ∧ nm' = nm0) ∨
          ∃ k d', nm' = some (idx + k) ∧ (d :: rest)[k]? = some d' ∧
            isCandidate dp d' = true) := by
      intro nm0 hc hh
      rcases hh with ⟨h0, hh⟩ | ⟨k, d', e1, e2, e3⟩
      · exact Or.inl ⟨by rw [List.countP_cons, h0, hc]; rfl, hh⟩
      · exact Or.inr ⟨k + 1, d', by rw [e1]; congr 1; omega, by simpa using e2, e3⟩
    unfold scanDecks at h
    by_cases hg : d.group = dp
    · simp only [hg, if_true] at h
      obtain ⟨a, b, c⟩ := ih _ _ _ _ _ _ _ h
      refine ⟨?_, ?_, shift nm (by simp [isCandidate, hg]) c⟩
      · intro x hx hne
        rcases List.mem_cons.mp hx with e | e
        · subst e; exact absurd hg hne
        · exact a x e hne
      · rw [b, List.countP_cons]
        simp [isCandidate, hg]
    · simp only [hg, if_false] at h
      by_cases hm : d.mode = SYNC_MASTER
      · simp [hm] at h
      · simp only [hm, if_false] at h
        have nom : ∀ a : NoOtherMaster dp rest, NoOtherMaster dp (d :: rest) := by
          intro a x hx hne
          rcases List.mem_cons.mp hx with e | e
          · subst e; exact hm
          · exact a x e hne
        by_cases hn : d.mode = SYNC_NONE
        · simp only [hn, if_true] at h
          obtain ⟨a, b, c⟩ := ih _ _ _ _ _ _ _ h
          refine ⟨nom a, ?_, shift nm (by simp [isCandidate, hn]) c⟩
          rw [b, List.countP_cons]
          simp [isCandidate, hn]
        · simp only [hn, if_false] at h
          have hf := mode_follower_of d hm hn
          by_cases hp : d.isPlaying = true
          · simp only [hp, if_true] at h
            obtain ⟨a, b, c⟩ := ih _ _ _ _ _ _ _ h
            refine ⟨nom a, ?_, ?_⟩
            · rw [b, List.countP_cons]
              simp [isCandidate, hg, hf, hp]
              omega
            · rcases c with ⟨_, e⟩ | ⟨k, d', e1, e2, e3⟩
              · exact Or.inr ⟨0, d, by simpa using e, by simp, by simp [isCandidate, hg, hf, hp]⟩
              · exact Or.inr ⟨k + 1, d', by rw [e1]; congr 1; omega, by simpa using e2, e3⟩
          · simp only [hp] at h
            obtain ⟨a, b, c⟩ := ih _ _ _ _ _ _ _ h
            refine ⟨nom a, ?_, shift nm (by simp [isCandidate, hp]) c⟩
            rw [b, List.countP_cons]
            simp [isCandidate, hp]

theorem scanDecks_of_noOtherMaster (dp : String) :
    ∀ (l : List RateControl) (idx p q : Nat) (nm : Option Nat), NoOtherMaster dp l →
      ∃ p' q' nm', scanDecks dp l idx p q nm = ScanOutcome.counted p' q' nm' := by
  intro l
  induction l with
  | nil => intro idx p q nm _; exact ⟨p, q, nm, rfl⟩
  | cons d rest ih =>
    intro idx p q nm h
    have hr : NoOtherMaster dp rest := fun x hx => h x (List.mem_cons_of_mem _ hx)
    unfold scanDecks
    by_cases hg : d.group = dp
    · simp only [hg, if_true]; exact ih _ _ _ _ hr
    · have hm : d.mode ≠ SYNC_MASTER := h d (List.mem_cons_self _ _) hg
      simp only [hg, hm, if_false]
      split
      · exact ih _ _ _ _ hr
      · split
        · exact ih _ _ _ _ hr
        · exact ih _ _ _ _ hr

theorem scanDecks_alreadyMaster (dp : String) :
    ∀ (l : List RateControl) (idx p q : Nat) (nm : Option Nat) (g : String),
      scanDecks dp l idx p q nm = ScanOutcome.alreadyMaster g →
      ∃ d ∈ l, d.group = g ∧ d.group ≠ dp ∧ d.mode = SYNC_MASTER := by
  intro l
  induction l with
  | nil => intro idx p q nm g h; simp [scanDecks] at h
  | cons d rest ih =>
    intro idx p q nm g h
    have lift : (∃ x ∈ rest, x.group = g ∧ x.group ≠ dp ∧ x.mode = SYNC_MASTER) →
        ∃ x ∈ d :: rest, x.group = g ∧ x.group ≠ dp ∧ x.mode = SYNC_MASTER := by
      rintro ⟨x, hx, e⟩
      exact ⟨x, List.mem_cons_of_mem _ hx, e⟩
    unfold scanDecks at h
    by_cases hg : d.group = dp
    · simp only [hg, if_true] at h; exact lift (ih _ _ _ _ _ h)
    · simp only [hg, if_false] at h
      by_cases hm : d.mode = SYNC_MASTER
      · simp only [hm, if_true, ScanOutcome.alreadyMaster.injEq] at h
        exact ⟨d, List.mem_cons_self _ _, h, hg, hm⟩
      · simp only [hm, if_false] at h
        split at h
        · exact lift (ih _ _ _ _ _ h)
        · split at h
          · exact lift (ih _ _ _ _ _ h)
          · exact lift (ih _ _ _ _ _ h)

theorem countP_unique (P : RateControl → Bool) :
    ∀ (l : List RateControl) (j k : Nat) (a b : RateControl), l.countP P = 1 →
      l[j]? = some a → P a = true → l[k]? = some b → P b = true → j = k := by
  intro l
  induction l with
  | nil => intro j k a b h; simp at h
  | cons d rest ih =>
    intro j k a b h ha pa hb pb
    have pos : ∀ (n : Nat) (x : RateControl), rest[n]? = some x → P x = true →
        0 < rest.countP P := by
      intro n x hx px
      exact List.countP_pos_iff.mpr ⟨x, List.getElem?_mem hx, px⟩
    rw [List.countP_cons] at h
    cases j with
    | zero =>
      cases k with
      | zero => rfl
      | succ k =>
        simp only [List.getElem?_cons_zero, Option.some.injEq] at ha
        simp only [List.getElem?_cons_succ] at hb
        have := pos k b hb pb
        subst ha
        simp only [pa, if_true] at h
        omega
    | succ j =>
      simp only [List.getElem?_cons_succ] at ha
      have hj := pos j a ha pa
      cases k with
      | zero =>
        simp only [List.getElem?_cons_zero, Option.some.injEq] at hb
        subst hb
        simp only [pb, if_true] at h
        omega
      | succ k =>
        simp only [List.getElem?_cons_succ] at hb
        have hd : P d = false := by
          cases hP : P d
          · rfl
          · simp only [hP, if_true] at h; omega
        simp only [hd] at h
        have := ih j k a b (by simpa using h) ha pa hb pb
        omega

/-! ## Elections return -/

theorem getElem?_lt (l : List RateControl) (i : Nat) (d : RateControl)
    (h : l[i]? = some d) : i < l.length := by
  by_contra hc
  rw [List.getElem?_eq_none (not_lt.mp hc)] at h
  cases h

theorem countP_setModeAt_master (l : List RateControl) (i : Nat) (d : RateControl)
    (hd : l[i]? = some d) (hm : d.mode ≠ SYNC_MASTER) :
    (setModeAt l i SYNC_MASTER).countP notMaster + 1 = l.countP notMaster := by
  have hi := getElem?_lt l i d hd
  have hget : l[i] = d := by
    have := List.getElem?_eq_getElem hi
    rw [this] at hd
    exact Option.some.inj hd
  have hpos : 0 < l.countP notMaster :=
    List.countP_pos_iff.mpr ⟨d, List.getElem?_mem hd, by simp [notMaster, hm]⟩
  unfold setModeAt
  simp only [hd]
  rw [List.countP_set _ _ _ _ hi, hget]
  simp [notMaster, hm]
  omega

theorem countP_setModeAt_le (l : List RateControl) (j : Nat) (m : SYNC_MODE) :
    (setModeAt l j m).countP notMaster ≤ l.countP notMaster + 1 := by
  unfold setModeAt
  split
  · rename_i d hd
    rw [List.countP_set _ _ _ _ (getElem?_lt l j d hd)]
    split <;> split <;> omega
  · omega

theorem setChannelMaster_cases (s : EngineSync) (i : Nat) (d : RateControl)
    (hd : s.m_ratecontrols[i]? = some d) :
    (setChannelMaster s i).2 = true ∨ setChannelMaster s i = (disableCurrentMaster s, false) := by
  by_cases h : s.m_sSyncSource = d.group
  · left; rw [setChannelMaster_already s i d hd h]
  · cases hb : d.hasEngineBuffer
    · right; exact setChannelMaster_fail s i d hd h hb
    · left
      unfold RateControl.hasEngineBuffer at hb
      cases hc : d.channel with
      | none => rw [hc] at hb; cases hb
      | some ch =>
        rw [hc] at hb
        obtain ⟨p, b, sl, mb, e⟩ := setChannelMaster_success s i d ch hd h hc hb
        rw [e]

theorem setChannelMasterOrChoose_mono (c1 c2 : EngineSync → String → Option EngineSync)
    (hc : ∀ s g r, c1 s g = some r → c2 s g = some r) (s : EngineSync) (i : Nat) (g : String)
    (r : EngineSync) (h : setChannelMasterOrChoose c1 s i g = some r) :
    setChannelMasterOrChoose c2 s i g = some r := by
  unfold setChannelMasterOrChoose at h ⊢
  simp only at h ⊢
  split
  · rename_i hb; simpa [hb] using h
  · rename_i hb
    simp only [hb] at h
    exact hc _ _ _ h

theorem followerTail_mono (c1 c2 : EngineSync → String → Option EngineSync)
    (hc : ∀ s g r, c1 s g = some r → c2 s g = some r) (s : EngineSync) (i : Nat) (g : String)
    (r : EngineSync) (h : followerTail c1 s i g = some r) :
    followerTail c2 s i g = some r := by
  unfold followerTail at h ⊢
  split
  · rename_i h1
    simp only [h1, if_true] at h
    exact setChannelMasterOrChoose_mono c1 c2 hc _ _ _ _ h
  · rename_i h1
    simp only [h1, if_false] at h
    split
    · rename_i h2
      simp only [h2, if_true] at h
      split
      · rename_i h3
        simp only [h3, if_true] at h
        split
        · rename_i h4
          simp only [h4, if_true] at h
          exact setChannelMasterOrChoose_mono c1 c2 hc _ _ _ _ h
        · rename_i h4
          simpa only [h4, if_false] using h
      · rename_i h3
        simpa only [h3, if_false] using h
    · rename_i h2
      simpa only [h2, if_false] using h

theorem setChannelSyncModeWith_mono (c1 c2 : EngineSync → String → Option EngineSync)
    (hc : ∀ s g r, c1 s g = some r → c2 s g = some r) (s : EngineSync) (i : Nat)
    (st : SYNC_MODE) (r : EngineSync) (h : setChannelSyncModeWith c1 s i st = some r) :
    setChannelSyncModeWith c2 s i st = some r := by
  unfold setChannelSyncModeWith at h ⊢
  cases hd : s.m_ratecontrols[i]? with
  | none => simpa [hd] using h
  | some d =>
    simp only [hd] at h ⊢
    cases st with
    | SYNC_MASTER => exact setChannelMasterOrChoose_mono c1 c2 hc _ _ _ _ h
    | SYNC_FOLLOWER =>
      simp only at h ⊢
      split
      · rename_i h1
        simp only [h1, if_true] at h
        cases h2 : c1 s d.group with
        | none => simp [h2] at h
        | some s1 =>
          rw [h2] at h
          rw [hc _ _ _ h2]
          exact followerTail_mono c1 c2 hc _ _ _ _ h
      · rename_i h1
        simp only [h1, if_false] at h
        split
        · rename_i h2; simpa only [h2, if_true] using h
        · rename_i h2
          simp only [h2, if_false] at h
          exact followerTail_mono c1 c2 hc _ _ _ _ h
    | SYNC_NONE =>
      simp only at h ⊢
      cases h2 : c1 s "" with
      | none => simp [h2] at h
      | some s1 =>
        rw [h2] at h
        rw [hc _ _ _ h2]
        exact h

theorem chooseNewMaster_succ_mono :
    ∀ (n : Nat) (s : EngineSync) (dp : String) (r : EngineSync),
      chooseNewMaster n s dp = some r → chooseNewMaster (n + 1) s dp = some r := by
  intro n
  induction n with
  | zero => intro s dp r h; simp [chooseNewMaster] at h
  | succ n ih =>
    intro s dp r h
    rw [chooseNewMaster] at h ⊢
    cases hs : scanDecks dp s.m_ratecontrols 0 0 0 none with
    | alreadyMaster g => simpa [hs] using h
    | counted p q nm =>
      simp only [hs] at h ⊢
      have key : ∀ (x : EngineSync) (i : Nat) (y : EngineSync),
          setChannelSyncModeWith (chooseNewMaster n) x i SYNC_MASTER = some y →
          setChannelSyncModeWith (chooseNewMaster (n + 1)) x i SYNC_MASTER = some y :=
        fun x i y hy => setChannelSyncModeWith_mono _ _ ih x i SYNC_MASTER y hy
      by_cases h1 : p = 1
      · simp only [h1, if_true] at h ⊢
        cases nm with
        | none => exact h
        | some i =>
          simp only [Option.map_eq_some'] at h ⊢
          obtain ⟨y, hy, e⟩ := h
          exact ⟨y, key _ _ _ hy, e⟩
      · simp only [h1, if_false] at h ⊢
        by_cases h2 : dp ≠ kMasterSyncGroup
        · rw [if_pos h2] at h ⊢
          exact h
        · rw [if_neg h2] at h ⊢
          cases nm with
          | none => exact h
          | some i =>
            simp only [Option.map_eq_some'] at h ⊢
            obtain ⟨y, hy, e⟩ := h
            exact ⟨y, key _ _ _ hy, e⟩

theorem chooseNewMaster_mono (n m : Nat) (hnm : n ≤ m) (s : EngineSync) (dp : String)
    (r : EngineSync) (h : chooseNewMaster n s dp = some r) :
    chooseNewMaster m s dp = some r := by
  induction m with
  | zero =>
    have : n = 0 := by omega
    subst this; exact h
  | succ m ih =>
    by_cases e : n = m + 1
    · subst e; exact h
    · exact chooseNewMaster_succ_mono m s dp r (ih (by omega))

theorem setMode_getElem? (s : EngineSync) (i j : Nat) (m : SYNC_MODE) :
    (setMode s i m).m_ratecontrols[j]? =
      if j = i then (s.m_ratecontrols[i]?).map (fun d => { d with mode := m })
      else s.m_ratecontrols[j]? :=
  setModeAt_getElem? _ _ _ _

theorem promote_eq (choose : EngineSync → String → Option EngineSync) (s : EngineSync)
    (i : Nat) (d : RateControl) (hd : s.m_ratecontrols[i]? = some d) :
    setChannelSyncModeWith choose (setMode s i SYNC_MASTER) i SYNC_MASTER =
      setChannelMasterOrChoose choose
        { setMode s i SYNC_MASTER with m_bExplicitMasterSelected := true } i d.group := by
  unfold setChannelSyncModeWith
  rw [setMode_getElem?]
  simp [hd]

theorem electionMeasure_release (s : EngineSync) (i : Nat) (d : RateControl)
    (hd : s.m_ratecontrols[i]? = some d) (hm : d.mode ≠ SYNC_MASTER) :
    electionMeasure (disableCurrentMaster
      { setMode s i SYNC_MASTER with m_bExplicitMasterSelected := true })
      < electionMeasure s := by
  rw [disableCurrentMaster_eq]
  unfold electionMeasure releasedDecks
  have h1 := countP_setModeAt_master s.m_ratecontrols i d hd hm
  cases hp : s.m_pChannelMaster with
  | none =>
    simp only [setMode, hp, Option.isSome_none, Bool.false_eq_true, if_false]
    omega
  | some j =>
    have h2 := countP_setModeAt_le (setModeAt s.m_ratecontrols i SYNC_MASTER) j SYNC_FOLLOWER
    simp only [setMode, hp, Option.isSome_none, Option.isSome_some, Bool.false_eq_true,
      if_false, if_true]
    omega

theorem chooseNewMaster_some_of_measure :
    ∀ (n : Nat) (s : EngineSync) (dp : String), electionMeasure s < n →
      ∃ r, chooseNewMaster n s dp = some r := by
  intro n
  induction n with
  | zero => intro s dp h; omega
  | succ n ih =>
    intro s dp h
    rw [chooseNewMaster]
    cases hs : scanDecks dp s.m_ratecontrols 0 0 0 none with
    | alreadyMaster g => exact ⟨_, rfl⟩
    | counted p q nm =>
      simp only []
      obtain ⟨hnom, _, hnm⟩ := scanDecks_counted dp _ _ _ _ _ _ _ _ hs
      have key : ∀ i, nm = some i →
          ∃ y, setChannelSyncModeWith (chooseNewMaster n) (setMode s i SYNC_MASTER) i
            SYNC_MASTER = some y := by
        intro i hi
        rcases hnm with ⟨_, e⟩ | ⟨k, d, e1, e2, e3⟩
        · rw [e] at hi; cases hi
        · rw [e1] at hi
          have hik : k = i := by simpa using hi
          subst hik
          have hne : d.group ≠ dp := by
            simp only [isCandidate, Bool.and_eq_true, decide_eq_true_eq] at e3
            exact e3.1.1
          have hm : d.mode ≠ SYNC_MASTER := hnom d (List.getElem?_mem e2) hne
          rw [promote_eq _ s k d e2]
          unfold setChannelMasterOrChoose
          simp only []
          have hd1 : ({ setMode s k SYNC_MASTER with
              m_bExplicitMasterSelected := true } : EngineSync).m_ratecontrols[k]?
              = some { d with mode := SYNC_MASTER } := by
            show (setMode s k SYNC_MASTER).m_ratecontrols[k]? = _
            rw [setMode_getElem?]
            simp [e2]
          rcases setChannelMaster_cases _ k _ hd1 with hc | hc
          · rw [if_pos hc]; exact ⟨_, rfl⟩
          · rw [hc]
            simp only [Bool.false_eq_true, if_false]
            exact ih _ _ (lt_of_lt_of_le (electionMeasure_release s k d e2 hm) (by omega))
      by_cases h1 : p = 1
      · simp only [h1, if_true]
        cases nm with
        | none => exact ⟨_, rfl⟩
        | some i =>
          obtain ⟨y, hy⟩ := key i rfl
          exact ⟨_, by simp only [hy]; rfl⟩
      · simp only [h1, if_false]
        by_cases h2 : dp ≠ kMasterSyncGroup
        · rw [if_pos h2]; exact ⟨_, rfl⟩
        · rw [if_neg h2]
          cases nm with
          | none => exact ⟨_, rfl⟩
          | some i =>
            obtain ⟨y, hy⟩ := key i rfl
            exact ⟨_, by simp only [hy]; rfl⟩

theorem electionMeasure_lt_fuelBound (s : EngineSync) : electionMeasure s < fuelBound s := by
  unfold electionMeasure fuelBound
  have := List.countP_le_length notMaster (l := s.m_ratecontrols)
  split <;> omega

theorem chooseNewMaster_total (s : EngineSync) (dp : String) :
    ∃ r, ∀ fuel, fuelBound s ≤ fuel → chooseNewMaster fuel s dp = some r := by
  obtain ⟨r, hr⟩ := chooseNewMaster_some_of_measure (fuelBound s) s dp
    (electionMeasure_lt_fuelBound s)
  exact ⟨r, fun fuel hf => chooseNewMaster_mono _ _ hf s dp r hr⟩

/-! ## Elections -/

/-- C4, the code at a failing input: in `noBufferState` no deck is the sync
source, so the invariant holds; `chooseNewMaster` excluding the internal clock
returns with `[Channel2]` as sync source, a deck without an engine buffer. -/
theorem chooseNewMaster_adopts_deck_without_buffer :
    SourceHasBuffer noBufferState ∧
    ∃ r, chooseNewMaster (fuelBound noBufferState) noBufferState kMasterSyncGroup = some r ∧
      r.m_sSyncSource = "[Channel2]" ∧
      modeOf r 0 = some SYNC_MASTER ∧ modeOf r 1 = some SYNC_MASTER ∧
      ¬ SourceHasBuffer r := by
  refine ⟨by unfold SourceHasBuffer; decide, _, rfl, by decide, by decide, by decide, ?_⟩
  unfold SourceHasBuffer
  decide

/-- The early return keeps the explicit flag: in `boundMasterState` the flag is
set and deck 0 is in `SYNC_MASTER`; `chooseNewMaster` excluding no deck returns
at that deck and the flag is still set. -/
theorem chooseNewMaster_explicit_flag_counterexample :
    ∃ r, chooseNewMaster (fuelBound boundMasterState) boundMasterState "" = some r ∧
      r.m_bExplicitMasterSelected = true :=
  ⟨_, rfl, by decide⟩

/-- The explicit flag after an election: `chooseNewMaster` returns (with the same
result for every fuel from `fuelBound` on); when no deck outside of the excluded group is
in `SYNC_MASTER` the explicit flag is clear afterwards, and when there is such a
deck the election returns at it, with the flag and everything but the sync
source as before. -/
theorem chooseNewMaster_explicit_flag (s : EngineSync) (dp : String) :
    ∃ r, (∀ fuel, fuelBound s ≤ fuel → chooseNewMaster fuel s dp = some r) ∧
      (NoOtherMaster dp s.m_ratecontrols → r.m_bExplicitMasterSelected = false) ∧
      (¬ NoOtherMaster dp s.m_ratecontrols →
        ∃ d ∈ s.m_ratecontrols, d.group ≠ dp ∧ d.mode = SYNC_MASTER ∧
          r = { s with m_sSyncSource := d.group }) := by
  obtain ⟨r, hr⟩ := chooseNewMaster_total s dp
  refine ⟨r, hr, ?_, ?_⟩
  · intro hnom
    have h := hr (fuelBound s) (le_refl _)
    unfold fuelBound at h
    rw [chooseNewMaster] at h
    obtain ⟨p, q, nm, hs⟩ := scanDecks_of_noOtherMaster dp s.m_ratecontrols 0 0 0 none hnom
    simp only [hs, Option.map_eq_some'] at h
    obtain ⟨y, _, e⟩ := h
    rw [← e]
  · intro hnom
    have h := hr (fuelBound s) (le_refl _)
    unfold fuelBound at h
    rw [chooseNewMaster] at h
    cases hs : scanDecks dp s.m_ratecontrols 0 0 0 none with
    | alreadyMaster g =>
      obtain ⟨d, hd, e1, e2, e3⟩ := scanDecks_alreadyMaster dp _ _ _ _ _ _ hs
      simp only [hs, Option.some.injEq] at h
      exact ⟨d, hd, e2, e3, by rw [← h, e1]⟩
    | counted p q nm =>
      exact absurd (scanDecks_counted dp _ _ _ _ _ _ _ _ hs).1 hnom

/-- An instance: `boundMasterState`, where the flag is set,
excluding `[Channel1]`, its only deck in `SYNC_MASTER`; the flag is clear
afterwards. -/
theorem chooseNewMaster_explicit_flag_witness :
    boundMasterState.m_bExplicitMasterSelected = true ∧
    NoOtherMaster "[Channel1]" boundMasterState.m_ratecontrols ∧
    ∃ r, (∀ fuel, fuelBound boundMasterState ≤ fuel →
        chooseNewMaster fuel boundMasterState "[Channel1]" = some r) ∧
      r.m_bExplicitMasterSelected = false :=
  ⟨rfl, by unfold NoOtherMaster; decide,
    (chooseNewMaster_explicit_flag boundMasterState "[Channel1]").imp
      (fun _ h => ⟨h.1, h.2.1 (by unfold NoOtherMaster; decide)⟩)⟩

theorem scanDecks_start (dp : String) (l : List RateControl) (hnom : NoOtherMaster dp l) :
    ∃ q nm, scanDecks dp l 0 0 0 none
        = ScanOutcome.counted (l.countP (isCandidate dp)) q nm ∧
      ((l.countP (isCandidate dp) = 0 ∧ nm = none) ∨
        ∃ k d, nm = some k ∧ l[k]? = some d ∧ isCandidate dp d = true) := by
  obtain ⟨p, q, nm, hs⟩ := scanDecks_of_noOtherMaster dp l 0 0 0 none hnom
  obtain ⟨_, hp, hnm⟩ := scanDecks_counted dp _ _ _ _ _ _ _ _ hs
  refine ⟨q, nm, ?_, ?_⟩
  · rw [hs, hp]; simp
  · simpa using hnm

theorem promote_success (choose : EngineSync → String → Option EngineSync) (s : EngineSync)
    (k : Nat) (dc : RateControl) (ch : EngineChannel)
    (hc : s.m_ratecontrols[k]? = some dc) (hsrc : s.m_sSyncSource ≠ dc.group)
    (hch : dc.channel = some ch) (hbuf : ch.engineBuffer = true) :
    ∃ y, setChannelSyncModeWith choose (setMode s k SYNC_MASTER) k SYNC_MASTER = some y ∧
      y.m_ratecontrols = releasedDecks (setMode s k SYNC_MASTER) ∧
      y.m_sSyncSource = ch.group ∧ y.m_pChannelMaster = some k ∧
      y.m_bExplicitMasterSelected = true ∧ y.m_pSyncInternalEnabled = 0 ∧
      y.connections = releasedConnections s ++ [(k, SourceSignal.rateEngine)] ++
        [(k, SourceSignal.bpm)] ++ [(k, SourceSignal.beatDistance)] := by
  have hd1 : ({ setMode s k SYNC_MASTER with
      m_bExplicitMasterSelected := true } : EngineSync).m_ratecontrols[k]?
      = some { dc with mode := SYNC_MASTER } := by
    show (setMode s k SYNC_MASTER).m_ratecontrols[k]? = _
    rw [setMode_getElem?]
    simp [hc]
  obtain ⟨p, b, sl, mb, e⟩ := setChannelMaster_success
    { setMode s k SYNC_MASTER with m_bExplicitMasterSelected := true } k
    { dc with mode := SYNC_MASTER } ch hd1 hsrc hch hbuf
  rw [promote_eq _ s k dc hc]
  unfold setChannelMasterOrChoose
  simp only [e, if_true]
  exact ⟨_, rfl, rfl, rfl, rfl, rfl, rfl, rfl⟩

/-- The promotion of a deck that is not the channel master: when no deck outside
of the excluded group is in `SYNC_MASTER`, exactly one deck outside of it is in a mode other than `SYNC_NONE` and playing, that
deck `c` has an attached channel of its own group with an engine buffer, and
`c` is neither the sync source nor the channel master, then `chooseNewMaster`
returns (from fuel 1 on) with deck `c` in `SYNC_MASTER`, its group as sync
source, and `c` as channel master. -/
theorem chooseNewMaster_promotes_sole_playing (s : EngineSync) (dp : String) (c : Nat)
    (dc : RateControl) (ch : EngineChannel)
    (hnom : NoOtherMaster dp s.m_ratecontrols)
    (hone : s.m_ratecontrols.countP (isCandidate dp) = 1)
    (hc : s.m_ratecontrols[c]? = some dc) (hcand : isCandidate dp dc = true)
    (hch : dc.channel = some ch) (hbuf : ch.engineBuffer = true) (hgrp : ch.group = dc.group)
    (hsrc : s.m_sSyncSource ≠ dc.group) (hpcm : s.m_pChannelMaster ≠ some c) :
    ∃ r, (∀ fuel, 1 ≤ fuel → chooseNewMaster fuel s dp = some r) ∧
      r.m_ratecontrols[c]? = some { dc with mode := SYNC_MASTER } ∧
      r.m_sSyncSource = dc.group ∧ r.m_pChannelMaster = some c := by
  obtain ⟨q, nm, hs, hnm⟩ := scanDecks_start dp s.m_ratecontrols hnom
  rw [hone] at hs hnm
  rcases hnm with ⟨h0, _⟩ | ⟨k, d, e1, e2, e3⟩
  · omega
  · have hk : k = c := countP_unique _ _ _ _ _ _ hone e2 e3 hc hcand
    subst hk
    obtain ⟨y, e, y1, y2, y3, _, _, _⟩ :=
      promote_success (chooseNewMaster 0) s k dc ch hc hsrc hch hbuf
    have h1 : chooseNewMaster 1 s dp = some { y with m_bExplicitMasterSelected := false } := by
      rw [chooseNewMaster]
      simp only [hs, e1, if_true, e, Option.map_some']
    refine ⟨_, fun fuel hf => chooseNewMaster_mono 1 fuel hf s dp _ h1, ?_, ?_, y3⟩
    · show y.m_ratecontrols[k]? = _
      rw [y1, releasedDecks_getElem?_other (setMode s k SYNC_MASTER) k hpcm, setMode_getElem?]
      simp [hc]
    · show y.m_sSyncSource = _
      rw [y2, hgrp]

/-- An instance: `solePlayingState`, excluding no deck; deck 0 is the one
playing follower. -/
theorem chooseNewMaster_promotes_sole_playing_witness :
    ∃ r, (∀ fuel, 1 ≤ fuel → chooseNewMaster fuel
        solePlayingState "" = some r) ∧
      r.m_ratecontrols[0]?
        = some { mkDeck "[Channel1]" SYNC_FOLLOWER true true with mode := SYNC_MASTER } ∧
      r.m_sSyncSource = (mkDeck "[Channel1]" SYNC_FOLLOWER true true).group ∧
      r.m_pChannelMaster = some 0 :=
  chooseNewMaster_promotes_sole_playing solePlayingState "" 0
    (mkDeck "[Channel1]" SYNC_FOLLOWER true true) { group := "[Channel1]", engineBuffer := true }
    (by unfold NoOtherMaster; decide) (by decide) rfl (by decide) rfl rfl rfl
    (by decide) (by decide)

/-- The fallback of an election to the internal clock: when no deck outside of
the excluded group is in `SYNC_MASTER`, the number of decks outside of it that are in a mode other than `SYNC_NONE` and
playing is not one, and the excluded group is not the internal clock, then
`chooseNewMaster` returns (from fuel 1 on) with the internal clock as sync
source, its toggle on, no channel master, and the deck that was channel master
in `SYNC_FOLLOWER`. The state is one in which the internal clock, if it already
is the sync source, has its toggle on and no deck as channel master
(`InternalCoherent`, which the operations keep: `coherent_chooseNewMaster`,
`coherent_setChannelSyncMode`, `coherent_setDeckPlaying`,
`coherent_slotInternalMasterChanged`). -/
theorem chooseNewMaster_falls_back_to_internal (s : EngineSync) (dp : String)
    (hnom : NoOtherMaster dp s.m_ratecontrols)
    (hcount : s.m_ratecontrols.countP (isCandidate dp) ≠ 1)
    (hdp : dp ≠ kMasterSyncGroup) (hcoh : InternalCoherent s) :
    ∃ r, (∀ fuel, 1 ≤ fuel → chooseNewMaster fuel s dp = some r) ∧
      r.m_sSyncSource = kMasterSyncGroup ∧ r.m_pSyncInternalEnabled = 1 ∧
      r.m_pChannelMaster = none ∧
      (∀ j dj, s.m_pChannelMaster = some j → s.m_ratecontrols[j]? = some dj →
        r.m_ratecontrols[j]? = some { dj with mode := SYNC_FOLLOWER }) := by
  obtain ⟨q, nm, hs, _⟩ := scanDecks_start dp s.m_ratecontrols hnom
  have h1 : chooseNewMaster 1 s dp
      = some { setInternalMaster s with m_bExplicitMasterSelected := false } := by
    rw [chooseNewMaster]
    simp only [hs, hcount, if_false]
    rw [if_pos hdp]
    rfl
  refine ⟨_, fun fuel hf => chooseNewMaster_mono 1 fuel hf s dp _ h1, ?_⟩
  by_cases hsrc : s.m_sSyncSource = kMasterSyncGroup
  · rw [setInternalMaster_already s hsrc]
    obtain ⟨t1, t2⟩ := hcoh hsrc
    refine ⟨hsrc, t1, t2, ?_⟩
    intro j dj hj
    rw [t2] at hj
    cases hj
  · obtain ⟨p, b, v, sl, mb, e⟩ := setInternalMaster_eq s hsrc
    rw [e]
    refine ⟨rfl, rfl, rfl, ?_⟩
    intro j dj hj hdj
    show (releasedDecks s)[j]? = _
    rw [releasedDecks_getElem?_master s j hj, hdj]
    rfl

/-- An instance: `soleMasterState`, excluding its bound master `[Channel1]`,
the only deck. -/
theorem chooseNewMaster_falls_back_to_internal_witness :
    ∃ r, (∀ fuel, 1 ≤ fuel → chooseNewMaster fuel soleMasterState "[Channel1]" = some r) ∧
      r.m_sSyncSource = kMasterSyncGroup ∧ r.m_pSyncInternalEnabled = 1 ∧
      r.m_pChannelMaster = none ∧
      (∀ j dj, soleMasterState.m_pChannelMaster = some j →
        soleMasterState.m_ratecontrols[j]? = some dj →
        r.m_ratecontrols[j]? = some { dj with mode := SYNC_FOLLOWER }) :=
  chooseNewMaster_falls_back_to_internal soleMasterState "[Channel1]"
    (by unfold NoOtherMaster; decide) (by decide) (by decide)
    (by unfold InternalCoherent; decide)

/-- Counterexample to C8 as stated, at two states in which no deck in a mode
other than `SYNC_NONE` is playing. In `pausedMasterState` the paused deck
`[Channel1]` is in `SYNC_MASTER` and `chooseNewMaster` excluding the internal
clock returns with it as sync source. In `pausedFollowerState` the sync source
is `[Channel1]` before the call and still is after it. -/
theorem chooseNewMaster_excluding_internal_counterexample :
    ((∀ d ∈ pausedMasterState.m_ratecontrols, d.mode ≠ SYNC_NONE → d.isPlaying = false) ∧
      ∃ r, chooseNewMaster (fuelBound pausedMasterState) pausedMasterState kMasterSyncGroup
          = some r ∧ r.m_sSyncSource = "[Channel1]") ∧
    ((∀ d ∈ pausedFollowerState.m_ratecontrols, d.mode ≠ SYNC_NONE → d.isPlaying = false) ∧
      ∃ r, chooseNewMaster (fuelBound pausedFollowerState) pausedFollowerState kMasterSyncGroup
          = some r ∧ r.m_sSyncSource = "[Channel1]") :=
  ⟨⟨by decide, _, rfl, by decide⟩, ⟨by decide, _, rfl, by decide⟩⟩

/-- C8, as the code has it: when no deck in a mode other than `SYNC_NONE` is
playing and no deck outside of the group of the internal clock is in
`SYNC_MASTER`, `chooseNewMaster` excluding the internal clock only clears the
explicit flag, so the sync source stays what it was; the handler of the
internal-clock toggle, which empties the sync source before that call, ends
with no sync source. -/
theorem chooseNewMaster_excluding_internal (s : EngineSync)
    (hplay : ∀ d ∈ s.m_ratecontrols, d.mode ≠ SYNC_NONE → d.isPlaying = false)
    (hnom : NoOtherMaster kMasterSyncGroup s.m_ratecontrols) :
    (∀ fuel, 1 ≤ fuel → chooseNewMaster fuel s kMasterSyncGroup
      = some { s with m_bExplicitMasterSelected := false }) ∧
    (∀ fuel, 1 ≤ fuel → slotInternalMasterChanged fuel s 0
      = some { s with m_sSyncSource := "", m_bExplicitMasterSelected := false }) := by
  have h0 : s.m_ratecontrols.countP (isCandidate kMasterSyncGroup) = 0 := by
    rw [List.countP_eq_zero]
    intro d hd
    simp only [isCandidate, Bool.and_eq_true, decide_eq_true_eq, not_and, Bool.not_eq_true]
    intro hm
    exact hplay d hd hm.2
  have key : ∀ x : EngineSync, x.m_ratecontrols = s.m_ratecontrols →
      chooseNewMaster 1 x kMasterSyncGroup
        = some { x with m_bExplicitMasterSelected := false } := by
    intro x hx
    obtain ⟨q, nm, hs, hnm⟩ := scanDecks_start kMasterSyncGroup s.m_ratecontrols hnom
    rw [h0] at hs
    have hnone : nm = none := by
      rcases hnm with ⟨_, e⟩ | ⟨k, d, _, e2, e3⟩
      · exact e
      · have := List.countP_pos_iff.mpr ⟨d, List.getElem?_mem e2, e3⟩
        omega
    rw [← hx] at hs
    rw [chooseNewMaster]
    simp only [hs, hnone]
    simp
  refine ⟨fun fuel hf => chooseNewMaster_mono 1 fuel hf s _ _ (key s rfl), ?_⟩
  intro fuel hf
  unfold slotInternalMasterChanged
  simp only [ne_eq, not_true_eq_false, if_false]
  exact chooseNewMaster_mono 1 fuel hf _ _ _ (key { s with m_sSyncSource := "" } rfl)

/-- Witness of C8 as amended: `pausedFollowerState`. -/
theorem chooseNewMaster_excluding_internal_witness :
    (∀ fuel, 1 ≤ fuel → chooseNewMaster fuel pausedFollowerState kMasterSyncGroup
      = some { pausedFollowerState with m_bExplicitMasterSelected := false }) ∧
    (∀ fuel, 1 ≤ fuel → slotInternalMasterChanged fuel pausedFollowerState 0
      = some { pausedFollowerState with
          m_sSyncSource := "", m_bExplicitMasterSelected := false }) :=
  chooseNewMaster_excluding_internal pausedFollowerState (by decide)
    (by unfold NoOtherMaster; decide)

/-! ## Requests of a sync mode -/

/-- An explicit request by a deck that is bound whenever it is the sync source:
for a registered deck `d` with an attached channel of its own group that has an
engine buffer, `setChannelSyncMode(d, SYNC_MASTER)` returns, for
every fuel, with the group of `d` as sync source, `d` as channel master, the
explicit flag set, the internal-clock toggle off, and any other deck that was
channel master in `SYNC_FOLLOWER`. The state is one in which `d`, if it already
is the sync source, is the channel master and the toggle is off. -/
theorem setChannelSyncMode_master_binds (s : EngineSync) (i : Nat) (d : RateControl)
    (ch : EngineChannel) (hd : s.m_ratecontrols[i]? = some d)
    (hch : d.channel = some ch) (hbuf : ch.engineBuffer = true) (hgrp : ch.group = d.group)
    (hcoh : s.m_sSyncSource = d.group →
      s.m_pSyncInternalEnabled = 0 ∧ s.m_pChannelMaster = some i) :
    ∃ r, (∀ fuel, setChannelSyncMode fuel s i SYNC_MASTER = some r) ∧
      r.m_sSyncSource = d.group ∧ r.m_pChannelMaster = some i ∧
      r.m_bExplicitMasterSelected = true ∧ r.m_pSyncInternalEnabled = 0 ∧
      (∀ j dj, j ≠ i → s.m_pChannelMaster = some j → s.m_ratecontrols[j]? = some dj →
        r.m_ratecontrols[j]? = some { dj with mode := SYNC_FOLLOWER }) := by
  have hrw : ∀ fuel, setChannelSyncMode fuel s i SYNC_MASTER
      = setChannelMasterOrChoose (chooseNewMaster fuel)
          { s with m_bExplicitMasterSelected := true } i d.group := by
    intro fuel
    unfold setChannelSyncMode setChannelSyncModeWith
    simp only [hd]
  by_cases hsrc : s.m_sSyncSource = d.group
  · obtain ⟨t1, t2⟩ := hcoh hsrc
    refine ⟨{ s with m_bExplicitMasterSelected := true }, ?_, hsrc, t2, rfl, t1, ?_⟩
    · intro fuel
      rw [hrw]
      unfold setChannelMasterOrChoose
      rw [setChannelMaster_already { s with m_bExplicitMasterSelected := true } i d hd hsrc]
      rfl
    · intro j dj hji hj
      rw [t2] at hj
      exact absurd (Option.some.inj hj).symm hji
  · obtain ⟨p, b, sl, mb, e⟩ := setChannelMaster_success
      { s with m_bExplicitMasterSelected := true } i d ch hd hsrc hch hbuf
    refine ⟨(setChannelMaster { s with m_bExplicitMasterSelected := true } i).1, ?_, ?_⟩
    · intro fuel
      rw [hrw]
      unfold setChannelMasterOrChoose
      simp only [e, if_true]
    · rw [e]
      refine ⟨hgrp, rfl, rfl, rfl, ?_⟩
      intro j dj _ hj hdj
      have := releasedDecks_getElem?_master { s with m_bExplicitMasterSelected := true } j hj
      rw [show ({ s with m_bExplicitMasterSelected := true } : EngineSync).m_ratecontrols[j]?
        = some dj from hdj] at this
      exact this

/-- An instance: deck 1 of `twoPlayingState`, while deck 0 is the bound
master. -/
theorem setChannelSyncMode_master_binds_witness :
    ∃ r, (∀ fuel, setChannelSyncMode fuel twoPlayingState 1 SYNC_MASTER = some r) ∧
      r.m_sSyncSource = (mkDeck "[Channel2]" SYNC_FOLLOWER true true).group ∧
      r.m_pChannelMaster = some 1 ∧
      r.m_bExplicitMasterSelected = true ∧ r.m_pSyncInternalEnabled = 0 ∧
      (∀ j dj, j ≠ 1 → twoPlayingState.m_pChannelMaster = some j →
        twoPlayingState.m_ratecontrols[j]? = some dj →
        r.m_ratecontrols[j]? = some { dj with mode := SYNC_FOLLOWER }) :=
  setChannelSyncMode_master_binds twoPlayingState 1
    (mkDeck "[Channel2]" SYNC_FOLLOWER true true) { group := "[Channel2]", engineBuffer := true }
    rfl rfl rfl rfl (by decide)

theorem chooseNewMaster_internal_eq (s : EngineSync) (dp : String)
    (hnom : NoOtherMaster dp s.m_ratecontrols)
    (hcount : s.m_ratecontrols.countP (isCandidate dp) ≠ 1)
    (hdp : dp ≠ kMasterSyncGroup) (fuel : Nat) (hf : 1 ≤ fuel) :
    chooseNewMaster fuel s dp
      = some { setInternalMaster s with m_bExplicitMasterSelected := false } := by
  obtain ⟨q, nm, hs, _⟩ := scanDecks_start dp s.m_ratecontrols hnom
  have h1 : chooseNewMaster 1 s dp
      = some { setInternalMaster s with m_bExplicitMasterSelected := false } := by
    rw [chooseNewMaster]
    simp only [hs, hcount, if_false]
    rw [if_pos hdp]
    rfl
  exact chooseNewMaster_mono 1 fuel hf s dp _ h1

theorem mem_setModeAt (l : List RateControl) (i : Nat) (m : SYNC_MODE) (x : RateControl)
    (hx : x ∈ setModeAt l i m) :
    ∃ d ∈ l, x.group = d.group ∧ x.channel = d.channel := by
  obtain ⟨j, hj⟩ := List.mem_iff_getElem?.mp hx
  rw [setModeAt_getElem?] at hj
  by_cases h : j = i
  · simp only [h, if_true] at hj
    cases hd : l[i]? with
    | none => rw [hd] at hj; cases hj
    | some d =>
      rw [hd] at hj
      simp only [Option.map_some', Option.some.injEq] at hj
      exact ⟨d, List.getElem?_mem hd, by rw [← hj], by rw [← hj]⟩
  · simp only [h, if_false] at hj
    exact ⟨x, List.getElem?_mem hj, rfl, rfl⟩

theorem registryOk_setModeAt (l : List RateControl) (i : Nat) (m : SYNC_MODE)
    (h : RegistryOk l) : RegistryOk (setModeAt l i m) := by
  intro x hx
  obtain ⟨d, hd, e1, e2⟩ := mem_setModeAt l i m x hx
  rw [e1, e2]
  exact h d hd

theorem registryOk_releasedDecks (s : EngineSync) (h : RegistryOk s.m_ratecontrols) :
    RegistryOk (releasedDecks s) := by
  unfold releasedDecks
  split
  · exact registryOk_setModeAt _ _ _ h
  · exact h

theorem coherent_setInternalMaster (s : EngineSync) (h1 : RegistryOk s.m_ratecontrols)
    (h2 : InternalCoherent s) :
    RegistryOk (setInternalMaster s).m_ratecontrols ∧ InternalCoherent (setInternalMaster s) := by
  by_cases hsrc : s.m_sSyncSource = kMasterSyncGroup
  · rw [setInternalMaster_already s hsrc]; exact ⟨h1, h2⟩
  · obtain ⟨p, b, v, sl, mb, e⟩ := setInternalMaster_eq s hsrc
    rw [e]
    exact ⟨registryOk_releasedDecks s h1, fun _ => ⟨rfl, rfl⟩⟩

theorem coherent_disableCurrentMaster (s : EngineSync) (h1 : RegistryOk s.m_ratecontrols) :
    RegistryOk (disableCurrentMaster s).m_ratecontrols ∧
      InternalCoherent (disableCurrentMaster s) := by
  rw [disableCurrentMaster_eq]
  refine ⟨registryOk_releasedDecks s h1, ?_⟩
  intro h
  exact absurd (show ("" : String) = kMasterSyncGroup from h) (by decide)

theorem coherent_setChannelMaster (s : EngineSync) (i : Nat) (h1 : RegistryOk s.m_ratecontrols)
    (h2 : InternalCoherent s) :
    RegistryOk (setChannelMaster s i).1.m_ratecontrols ∧
      InternalCoherent (setChannelMaster s i).1 := by
  cases hd : s.m_ratecontrols[i]? with
  | none =>
    have : setChannelMaster s i = (s, false) := by simp [setChannelMaster, hd]
    rw [this]; exact ⟨h1, h2⟩
  | some d =>
    by_cases hsrc : s.m_sSyncSource = d.group
    · rw [setChannelMaster_already s i d hd hsrc]; exact ⟨h1, h2⟩
    · cases hb : d.hasEngineBuffer with
      | false =>
        rw [setChannelMaster_fail s i d hd hsrc hb]
        exact coherent_disableCurrentMaster s h1
      | true =>
        unfold RateControl.hasEngineBuffer at hb
        cases hc : d.channel with
        | none => rw [hc] at hb; cases hb
        | some ch =>
          rw [hc] at hb
          obtain ⟨p, b, sl, mb, e⟩ := setChannelMaster_success s i d ch hd hsrc hc hb
          rw [e]
          refine ⟨registryOk_releasedDecks s h1, ?_⟩
          intro h
          have hg := h1 d (List.getElem?_mem hd)
          have : ch.group = kMasterSyncGroup := h
          rw [hg.2 ch hc] at this
          exact absurd this hg.1

theorem coherent_setMode (s : EngineSync) (i : Nat) (m : SYNC_MODE)
    (h1 : RegistryOk s.m_ratecontrols) (h2 : InternalCoherent s) :
    RegistryOk (setMode s i m).m_ratecontrols ∧ InternalCoherent (setMode s i m) :=
  ⟨registryOk_setModeAt _ _ _ h1, h2⟩

theorem coherent_setChannelMasterOrChoose
    (choose : EngineSync → String → Option EngineSync)
    (hc : ∀ s g r, RegistryOk s.m_ratecontrols → InternalCoherent s → choose s g = some r →
      RegistryOk r.m_ratecontrols ∧ InternalCoherent r)
    (s : EngineSync) (i : Nat) (g : String) (r : EngineSync)
    (h1 : RegistryOk s.m_ratecontrols) (h2 : InternalCoherent s)
    (h : setChannelMasterOrChoose choose s i g = some r) :
    RegistryOk r.m_ratecontrols ∧ InternalCoherent r := by
  unfold setChannelMasterOrChoose at h
  simp only at h
  have hs := coherent_setChannelMaster s i h1 h2
  split at h
  · simp only [Option.some.injEq] at h
    rw [← h]; exact hs
  · exact hc _ _ _ hs.1 hs.2 h

theorem coherent_followerTail
    (choose : EngineSync → String → Option EngineSync)
    (hc : ∀ s g r, RegistryOk s.m_ratecontrols → InternalCoherent s → choose s g = some r →
      RegistryOk r.m_ratecontrols ∧ InternalCoherent r)
    (s : EngineSync) (i : Nat) (g : String) (r : EngineSync)
    (h1 : RegistryOk s.m_ratecontrols) (h2 : InternalCoherent s)
    (h : followerTail choose s i g = some r) :
    RegistryOk r.m_ratecontrols ∧ InternalCoherent r := by
  have hm := coherent_setMode s i SYNC_MASTER h1 h2
  unfold followerTail at h
  split at h
  · exact coherent_setChannelMasterOrChoose choose hc _ _ _ _ hm.1 hm.2 h
  · split at h
    · split at h
      · split at h
        · exact coherent_setChannelMasterOrChoose choose hc _ _ _ _ hm.1 hm.2 h
        · simp only [Option.some.injEq] at h; rw [← h]; exact ⟨h1, h2⟩
      · split at h
        · simp only [Option.some.injEq] at h
          rw [← h]; exact coherent_setInternalMaster s h1 h2
        · simp only [Option.some.injEq] at h; rw [← h]; exact ⟨h1, h2⟩
    · simp only [Option.some.injEq] at h; rw [← h]; exact ⟨h1, h2⟩

theorem coherent_setChannelSyncModeWith
    (choose : EngineSync → String → Option EngineSync)
    (hc : ∀ s g r, RegistryOk s.m_ratecontrols → InternalCoherent s → choose s g = some r →
      RegistryOk r.m_ratecontrols ∧ InternalCoherent r)
    (s : EngineSync) (i : Nat) (st : SYNC_MODE) (r : EngineSync)
    (h1 : RegistryOk s.m_ratecontrols) (h2 : InternalCoherent s)
    (h : setChannelSyncModeWith choose s i st = some r) :
    RegistryOk r.m_ratecontrols ∧ InternalCoherent r := by
  unfold setChannelSyncModeWith at h
  cases hd : s.m_ratecontrols[i]? with
  | none =>
    simp only [hd, Option.some.injEq] at h
    rw [← h]; exact ⟨h1, h2⟩
  | some d =>
    simp only [hd] at h
    cases st with
    | SYNC_MASTER =>
      exact coherent_setChannelMasterOrChoose choose hc
        { s with m_bExplicitMasterSelected := true } _ _ _ h1 h2 h
    | SYNC_FOLLOWER =>
      simp only at h
      split at h
      · cases h3 : choose s d.group with
        | none => simp [h3] at h
        | some s1 =>
          rw [h3] at h
          have hs1 := hc _ _ _ h1 h2 h3
          exact coherent_followerTail choose hc _ _ _ _ hs1.1 hs1.2 h
      · split at h
        · simp only [Option.some.injEq] at h; rw [← h]; exact ⟨h1, h2⟩
        · exact coherent_followerTail choose hc _ _ _ _ h1 h2 h
    | SYNC_NONE =>
      simp only at h
      cases h3 : choose s "" with
      | none => simp [h3] at h
      | some s1 =>
        rw [h3] at h
        simp only [Option.map_some', Option.some.injEq] at h
        have hs1 := hc _ _ _ h1 h2 h3
        rw [← h]
        exact coherent_setMode s1 i SYNC_NONE hs1.1 hs1.2

theorem coherent_chooseNewMaster :
    ∀ (fuel : Nat) (s : EngineSync) (dp : String) (r : EngineSync),
      RegistryOk s.m_ratecontrols → InternalCoherent s → chooseNewMaster fuel s dp = some r →
      RegistryOk r.m_ratecontrols ∧ InternalCoherent r := by
  intro fuel
  induction fuel with
  | zero => intro s dp r _ _ h; simp [chooseNewMaster] at h
  | succ n ih =>
    intro s dp r h1 h2 h
    rw [chooseNewMaster] at h
    cases hs : scanDecks dp s.m_ratecontrols 0 0 0 none with
    | alreadyMaster g =>
      simp only [hs, Option.some.injEq] at h
      obtain ⟨d, hd, e1, _, _⟩ := scanDecks_alreadyMaster dp _ _ _ _ _ _ hs
      rw [← h]
      refine ⟨h1, ?_⟩
      intro hk
      have : g = kMasterSyncGroup := hk
      rw [← e1] at this
      exact absurd this (h1 d hd).1
    | counted p q nm =>
      simp only [hs, Option.map_eq_some'] at h
      obtain ⟨y, hy, e⟩ := h
      have hflag : RegistryOk y.m_ratecontrols ∧ InternalCoherent y →
          RegistryOk r.m_ratecontrols ∧ InternalCoherent r := by
        intro hh
        rw [← e]
        exact hh
      apply hflag
      have key : ∀ i, setChannelSyncModeWith (chooseNewMaster n) (setMode s i SYNC_MASTER) i
          SYNC_MASTER = some y → RegistryOk y.m_ratecontrols ∧ InternalCoherent y := by
        intro i hi
        have hm := coherent_setMode s i SYNC_MASTER h1 h2
        exact coherent_setChannelSyncModeWith _ ih _ _ _ _ hm.1 hm.2 hi
      by_cases hp : p = 1
      · simp only [hp, if_true] at hy
        cases nm with
        | none => simp only [Option.some.injEq] at hy; rw [← hy]; exact ⟨h1, h2⟩
        | some i => exact key i hy
      · simp only [hp, if_false] at hy
        by_cases hdp : dp ≠ kMasterSyncGroup
        · rw [if_pos hdp] at hy
          simp only [Option.some.injEq] at hy
          rw [← hy]; exact coherent_setInternalMaster s h1 h2
        · rw [if_neg hdp] at hy
          cases nm with
          | none => simp only [Option.some.injEq] at hy; rw [← hy]; exact ⟨h1, h2⟩
          | some i => exact key i hy

theorem coherent_setChannelSyncMode (fuel : Nat) (s : EngineSync) (i : Nat) (st : SYNC_MODE)
    (r : EngineSync) (h1 : RegistryOk s.m_ratecontrols) (h2 : InternalCoherent s)
    (h : setChannelSyncMode fuel s i st = some r) :
    RegistryOk r.m_ratecontrols ∧ InternalCoherent r :=
  coherent_setChannelSyncModeWith _ (coherent_chooseNewMaster fuel) s i st r h1 h2 h

theorem coherent_setDeckPlaying (s : EngineSync) (i : Nat) (b : Bool)
    (h1 : RegistryOk s.m_ratecontrols) (h2 : InternalCoherent s) :
    RegistryOk (setDeckPlaying s i b).m_ratecontrols ∧ InternalCoherent (setDeckPlaying s i b) := by
  unfold setDeckPlaying
  split
  · exact ⟨h1, h2⟩
  · split
    · simp only
      split
      · unfold initializeInternalBeatDistanceOf
        split
        · exact ⟨h1, h2⟩
        · exact ⟨h1, h2⟩
      · split
        · split
          · have hs := coherent_setChannelMaster s i h1 h2
            split
            · exact coherent_setMode _ i SYNC_MASTER hs.1 hs.2
            · exact hs
          · exact coherent_setInternalMaster s h1 h2
        · exact ⟨h1, h2⟩
    · exact ⟨h1, h2⟩

theorem coherent_slotInternalMasterChanged (fuel : Nat) (s : EngineSync) (state : ℚ)
    (r : EngineSync) (h1 : RegistryOk s.m_ratecontrols) (h2 : InternalCoherent s)
    (h : slotInternalMasterChanged fuel s state = some r) :
    RegistryOk r.m_ratecontrols ∧ InternalCoherent r := by
  unfold slotInternalMasterChanged at h
  split at h
  · simp only [Option.some.injEq] at h
    rw [← h]; exact coherent_setInternalMaster s h1 h2
  · exact coherent_chooseNewMaster fuel { s with m_sSyncSource := "" } _ r h1
      (fun hk => absurd (show ("" : String) = kMasterSyncGroup from hk) (by decide)) h

theorem registryOk_addChannelLoop (pChannel : EngineChannel) (l : List RateControl)
    (h : RegistryOk l) : RegistryOk (addChannelLoop pChannel l) := by
  induction l with
  | nil => exact h
  | cons d rest ih =>
    have hd := h d (List.mem_cons_self _ _)
    have hrest : RegistryOk rest := fun x hx => h x (List.mem_cons_of_mem _ hx)
    unfold addChannelLoop
    split
    · rename_i hg
      intro x hx
      rcases List.mem_cons.mp hx with e | e
      · subst e
        refine ⟨hd.1, ?_⟩
        intro ch hch
        simp only [Option.some.injEq] at hch
        rw [← hch]
        exact hg.symm
      · exact hrest x e
    · intro x hx
      rcases List.mem_cons.mp hx with e | e
      · subst e; exact hd
      · exact ih hrest x e

theorem registryOk_addChannel (s : EngineSync) (pChannel : EngineChannel)
    (h : RegistryOk s.m_ratecontrols) : RegistryOk (addChannel s pChannel).m_ratecontrols :=
  registryOk_addChannelLoop pChannel _ h

theorem registryOk_addDeck (s : EngineSync) (pNewRate : RateControl)
    (h : RegistryOk s.m_ratecontrols) (hg : pNewRate.group ≠ kMasterSyncGroup)
    (hc : ∀ ch, pNewRate.channel = some ch → ch.group = pNewRate.group) :
    RegistryOk (addDeck s pNewRate).m_ratecontrols := by
  unfold addDeck
  split
  · exact h
  · intro x hx
    rcases List.mem_append.mp hx with e | e
    · exact h x e
    · rw [List.mem_singleton.mp e]
      exact ⟨hg, hc⟩

/-! ## Frame properties of requests and reactions -/

/-- C11: when the explicit flag is set and the registered deck `d` is not the
sync source, `setChannelSyncMode(d, SYNC_FOLLOWER)` returns, for every fuel,
the state it was given: sync source, channel master, every deck, the flag, the
phase accumulator, the samples per beat, the published values and the
connections are all as before. -/
theorem setChannelSyncMode_follower_explicit (s : EngineSync) (i : Nat) (d : RateControl)
    (hd : s.m_ratecontrols[i]? = some d) (hflag : s.m_bExplicitMasterSelected = true)
    (hsrc : s.m_sSyncSource ≠ d.group) (fuel : Nat) :
    setChannelSyncMode fuel s i SYNC_FOLLOWER = some s := by
  unfold setChannelSyncMode setChannelSyncModeWith
  simp only [hd, hsrc, decide_False, Bool.false_eq_true, if_false, hflag, if_true]

/-- Witness of C11: deck 1 of `boundMasterState`, whose explicit flag is set and
whose sync source is deck 0. -/
theorem setChannelSyncMode_follower_explicit_witness :
    setChannelSyncMode (fuelBound boundMasterState) boundMasterState 1 SYNC_FOLLOWER
      = some boundMasterState :=
  setChannelSyncMode_follower_explicit boundMasterState 1
    (mkDeck "[Channel2]" SYNC_FOLLOWER false false) rfl rfl (by decide) _

/-- The fallback of `setDeckPlaying` when the sync source is the channel master:
when the explicit flag is clear, deck `a` is the authority (channel master, its group the sync source, which is not the group of the internal
clock), deck `b` is registered in a mode other than `SYNC_NONE`, and at least
two decks in a mode other than `SYNC_NONE` are playing, then after
`setDeckPlaying(b, playing)` the internal clock is the sync source, its toggle
is on, there is no channel master, and deck `a` is in `SYNC_FOLLOWER`. -/
theorem setDeckPlaying_falls_back_to_internal (s : EngineSync) (a b : Nat)
    (da db : RateControl) (playing : Bool)
    (hflag : s.m_bExplicitMasterSelected = false)
    (ha : s.m_ratecontrols[a]? = some da) (hpcm : s.m_pChannelMaster = some a)
    (hsrc : s.m_sSyncSource = da.group) (hgrp : da.group ≠ kMasterSyncGroup)
    (hb : s.m_ratecontrols[b]? = some db) (hmode : db.mode ≠ SYNC_NONE)
    (hcount : 2 ≤ playingSyncDeckCount s) :
    (setDeckPlaying s b playing).m_sSyncSource = kMasterSyncGroup ∧
    (setDeckPlaying s b playing).m_pSyncInternalEnabled = 1 ∧
    (setDeckPlaying s b playing).m_pChannelMaster = none ∧
    (setDeckPlaying s b playing).m_ratecontrols[a]?
      = some { da with mode := SYNC_FOLLOWER } := by
  have h1 : ¬ playingSyncDeckCount s = 1 := by omega
  have h0 : ¬ playingSyncDeckCount s = 0 := by omega
  have hne : s.m_sSyncSource ≠ kMasterSyncGroup := by rw [hsrc]; exact hgrp
  have e : setDeckPlaying s b playing = setInternalMaster s := by
    unfold setDeckPlaying
    simp [hb, hmode, h1, h0, hflag]
  obtain ⟨p, q, v, sl, mb, e2⟩ := setInternalMaster_eq s hne
  rw [e, e2]
  refine ⟨rfl, rfl, rfl, ?_⟩
  show (releasedDecks s)[a]? = _
  rw [releasedDecks_getElem?_master s a hpcm, ha]
  rfl

/-- An instance: in `twoPlayingState` deck 0 is the bound master and deck 1,
a follower, is playing as well. -/
theorem setDeckPlaying_falls_back_to_internal_witness :
    (setDeckPlaying twoPlayingState 1 true).m_sSyncSource = kMasterSyncGroup ∧
    (setDeckPlaying twoPlayingState 1 true).m_pSyncInternalEnabled = 1 ∧
    (setDeckPlaying twoPlayingState 1 true).m_pChannelMaster = none ∧
    (setDeckPlaying twoPlayingState 1 true).m_ratecontrols[0]?
      = some { mkDeck "[Channel1]" SYNC_MASTER true true with mode := SYNC_FOLLOWER } :=
  setDeckPlaying_falls_back_to_internal twoPlayingState 0 1
    (mkDeck "[Channel1]" SYNC_MASTER true true) (mkDeck "[Channel2]" SYNC_FOLLOWER true true)
    true rfl rfl rfl rfl (by decide) rfl (by decide) (by decide)

/-- C20: when the deck at index `i` is the channel master, with nominal tempo
`d.fileBpm`, `slotSourceRateEngineChanged(r)` sets the master tempo to
`r * d.fileBpm` and changes nothing else: every deck, the sync source, the
channel master and all other values are as before. -/
theorem slotSourceRateEngineChanged_sets_tempo (s : EngineSync) (i : Nat) (d : RateControl)
    (hpcm : s.m_pChannelMaster = some i) (hd : s.m_ratecontrols[i]? = some d) (r : ℚ) :
    slotSourceRateEngineChanged s r = { s with m_pMasterBpm := r * d.fileBpm } := by
  have e : slotSourceRateEngineChanged s r = setMasterBpm s (r * d.fileBpm) := by
    unfold slotSourceRateEngineChanged
    rw [hpcm]
    simp only [hd]
  rw [e, setMasterBpm_eq]

/-- Witness of C20: rate 11/10 on the bound master of `twoPlayingState`, a
120 BPM track, gives the master tempo 132. -/
theorem slotSourceRateEngineChanged_sets_tempo_witness :
    slotSourceRateEngineChanged twoPlayingState (11 / 10)
      = { twoPlayingState with m_pMasterBpm := 132 } := by
  rw [slotSourceRateEngineChanged_sets_tempo twoPlayingState 0
    (mkDeck "[Channel1]" SYNC_MASTER true true) rfl rfl (11 / 10)]
  have : (11 / 10 : ℚ) * (mkDeck "[Channel1]" SYNC_MASTER true true).fileBpm = 132 := by
    norm_num [mkDeck]
  rw [this]

/-- The release of the channel master: after `disableCurrentMaster` the sync
source is empty, there is no channel master, the deck that was channel master is
in `SYNC_FOLLOWER` with none of its three signals connected, and every other deck
is as it was; a second `disableCurrentMaster` changes nothing. -/
theorem disableCurrentMaster_idempotent (s : EngineSync) :
    (disableCurrentMaster s).m_sSyncSource = "" ∧
    (disableCurrentMaster s).m_pChannelMaster = none ∧
    (∀ j dj, s.m_pChannelMaster = some j → s.m_ratecontrols[j]? = some dj →
      (disableCurrentMaster s).m_ratecontrols[j]? = some { dj with mode := SYNC_FOLLOWER }) ∧
    (∀ j, s.m_pChannelMaster ≠ some j →
      (disableCurrentMaster s).m_ratecontrols[j]? = s.m_ratecontrols[j]?) ∧
    (∀ j sig, s.m_pChannelMaster = some j →
      (j, sig) ∉ (disableCurrentMaster s).connections) ∧
    disableCurrentMaster (disableCurrentMaster s) = disableCurrentMaster s := by
  refine ⟨?_, ?_, ?_, ?_, ?_, ?_⟩
  · rw [disableCurrentMaster_eq]
  · rw [disableCurrentMaster_eq]
  · intro j dj hj hdj
    rw [disableCurrentMaster_eq]
    show (releasedDecks s)[j]? = _
    rw [releasedDecks_getElem?_master s j hj, hdj]
    rfl
  · intro j hj
    rw [disableCurrentMaster_eq]
    exact releasedDecks_getElem?_other s j hj
  · intro j sig hj hmem
    rw [disableCurrentMaster_eq] at hmem
    have hm : (j, sig) ∈ releasedConnections s := hmem
    unfold releasedConnections at hm
    rw [hj] at hm
    simp only [List.mem_filter, decide_eq_true_eq] at hm
    cases sig <;> simp at hm
  · rw [disableCurrentMaster_eq (disableCurrentMaster s)]
    have h1 : (disableCurrentMaster s).m_pChannelMaster = none := by
      rw [disableCurrentMaster_eq]
    have h2 : (disableCurrentMaster s).m_sSyncSource = "" := by
      rw [disableCurrentMaster_eq]
    have h3 : releasedDecks (disableCurrentMaster s) = (disableCurrentMaster s).m_ratecontrols := by
      unfold releasedDecks; rw [h1]
    have h4 : releasedConnections (disableCurrentMaster s)
        = (disableCurrentMaster s).connections := by
      unfold releasedConnections; rw [h1]
    have h5 : releasedToggle (disableCurrentMaster s)
        = (disableCurrentMaster s).m_pSyncInternalEnabled := by
      unfold releasedToggle
      rw [h2, if_neg (by decide)]
    rw [h3, h4, h5, ← h1, ← h2]

/-! ## The tick of the internal clock -/

theorem tdiv_two_eq_floor (n : Int) (hn : 0 ≤ n) : ((n.tdiv 2 : Int) : ℚ) = ⌊(n : ℚ) / 2⌋ := by
  have h := Rat.floor_intCast_div_natCast n 2
  have h2 : ((2 : ℕ) : ℚ) = 2 := by norm_num
  rw [h2] at h
  rw [h, Int.tdiv_eq_ediv hn (by decide)]
  rfl

theorem process_of_wrap (fuel : Nat) (s : EngineSync) (n : Int) (p : ℚ)
    (hsrc : s.m_sSyncSource = kMasterSyncGroup) (hspb : 0 < s.m_dSamplesPerBeat)
    (h : wrapPseudoBufferPos s.m_dSamplesPerBeat fuel
      (roundDouble (s.m_dPseudoBufferPos + ((n.tdiv 2 : Int) : ℚ))) = some p) :
    process fuel s n = some { s with m_dPseudoBufferPos := p,
                                     m_pMasterBeatDistance :=
                                       if p < 0 then 0 else p / s.m_dSamplesPerBeat } := by
  have hnp : ¬ s.m_dSamplesPerBeat ≤ 0 := not_le.mpr hspb
  unfold process
  simp only [hsrc, ne_eq, not_true_eq_false, if_false, hnp, h, Option.map_some']
  rfl

/-- Whenever `process` returns, from an accumulator that is not negative and
with positive samples per beat, the accumulator is in `[0, m_dSamplesPerBeat)`
and the samples per beat are unchanged. -/
theorem process_range_of_returns (fuel : Nat) (s r : EngineSync) (n : Int)
    (hsrc : s.m_sSyncSource = kMasterSyncGroup) (hspb : 0 < s.m_dSamplesPerBeat)
    (hlo : 0 ≤ s.m_dPseudoBufferPos) (hn : 0 ≤ n) (h : process fuel s n = some r) :
    0 ≤ r.m_dPseudoBufferPos ∧ r.m_dPseudoBufferPos < s.m_dSamplesPerBeat ∧
    r.m_dSamplesPerBeat = s.m_dSamplesPerBeat := by
  have hq : (0 : ℚ) ≤ ((n.tdiv 2 : Int) : ℚ) := by exact_mod_cast tdiv_two_nonneg n hn
  cases hw : wrapPseudoBufferPos s.m_dSamplesPerBeat fuel
      (roundDouble (s.m_dPseudoBufferPos + ((n.tdiv 2 : Int) : ℚ))) with
  | none =>
    have hnp : ¬ s.m_dSamplesPerBeat ≤ 0 := not_le.mpr hspb
    unfold process at h
    simp [hsrc, hnp, hw] at h
  | some p =>
    rw [process_of_wrap fuel s n p hsrc hspb hw] at h
    simp only [Option.some.injEq] at h
    have hr := wrapPseudoBufferPos_range s.m_dSamplesPerBeat fuel _ p
      (roundDouble_nonneg _ (by linarith)) hw
    rw [← h]
    exact ⟨hr.1, hr.2, rfl⟩

/-- Counterexample to C19 as stated: `offGridState` has the internal clock as
sync source, 22050 samples per beat and the accumulator at `2^-44`, in
`[0, 22050)`. After `process(2048)` the accumulator is 1024, the `double` nearest
to `2^-44 + 1024`: it is not `pos + ⌊n/2⌋`, although that is below the samples
per beat, and not `pos + ⌊n/2⌋ - k * 22050` for any natural number `k`. -/
theorem process_advances_by_frames_counterexample :
    offGridState.m_sSyncSource = kMasterSyncGroup ∧ 0 < offGridState.m_dSamplesPerBeat ∧
    0 ≤ offGridState.m_dPseudoBufferPos ∧
    offGridState.m_dPseudoBufferPos < offGridState.m_dSamplesPerBeat ∧
    offGridState.m_dPseudoBufferPos + ⌊((2048 : Int) : ℚ) / 2⌋
      < offGridState.m_dSamplesPerBeat ∧
    ∃ r, (∀ fuel, process fuel offGridState 2048 = some r) ∧
      r.m_dPseudoBufferPos = 1024 ∧
      r.m_dPseudoBufferPos ≠ offGridState.m_dPseudoBufferPos + ⌊((2048 : Int) : ℚ) / 2⌋ ∧
      ∀ k : ℕ, r.m_dPseudoBufferPos ≠ offGridState.m_dPseudoBufferPos
        + ⌊((2048 : Int) : ℚ) / 2⌋ - k * offGridState.m_dSamplesPerBeat := by
  have hf : ⌊((2048 : Int) : ℚ) / 2⌋ = 1024 := by
    rw [Int.floor_eq_iff]
    norm_num
  have e0 : (2048 : Int).tdiv 2 = 1024 := by decide
  have hpos : offGridState.m_dPseudoBufferPos = 1 / 2 ^ 44 := rfl
  have hspb : offGridState.m_dSamplesPerBeat = 22050 := rfl
  have hsum : roundDouble (offGridState.m_dPseudoBufferPos
      + ((((2048 : Int).tdiv 2 : Int)) : ℚ)) = 1024 := by
    rw [e0, hpos]
    rw [roundDouble_eq _ 10 (2 ^ 52) (by norm_num) (by norm_num [abs_of_pos])
      (by norm_num [abs_of_pos]) (by norm_num) (by norm_num)]
    norm_num
  have hw : ∀ fuel, wrapPseudoBufferPos offGridState.m_dSamplesPerBeat fuel
      (roundDouble (offGridState.m_dPseudoBufferPos + ((((2048 : Int).tdiv 2 : Int)) : ℚ)))
      = some 1024 := by
    intro fuel
    rw [hsum, hspb]
    cases fuel with
    | zero => norm_num [wrapPseudoBufferPos]
    | succ f => norm_num [wrapPseudoBufferPos]
  refine ⟨rfl, by rw [hspb]; norm_num, by rw [hpos]; norm_num, by rw [hpos, hspb]; norm_num,
    by rw [hf, hpos, hspb]; norm_num, _,
    fun fuel => process_of_wrap fuel offGridState 2048 1024 rfl (by rw [hspb]; norm_num)
      (hw fuel), rfl, ?_, ?_⟩
  · show (1024 : ℚ) ≠ _
    rw [hf, hpos]
    norm_num
  · intro k
    show (1024 : ℚ) ≠ _
    rw [hf, hpos, hspb]
    intro h
    have h1 : (k : ℚ) * 22050 = 1 / 2 ^ 44 := by
      push_cast at h
      linarith
    rcases Nat.eq_zero_or_pos k with h0 | h0
    · rw [h0] at h1
      norm_num at h1
    · have : (1 : ℚ) ≤ k := by exact_mod_cast h0
      have h2 : (22050 : ℚ) ≤ (k : ℚ) * 22050 := by nlinarith
      rw [h1] at h2
      norm_num at h2

/-- C19, as the code has it: with the internal clock as sync source, positive
samples per beat, the phase accumulator not negative, a buffer size `n ≥ 0`, and
the samples per beat and the accumulator both multiples of a power of two `2^j`
(`-1074 ≤ j ≤ 0`) with `pos + ⌊n/2⌋ < 2^(53+j)`, so that the sum and every
difference are `double`s: `process(n)` returns (a fuel of `k` is enough) with the
accumulator at `pos + ⌊n/2⌋ - k * m_dSamplesPerBeat` for a natural number `k`,
which is `pos + ⌊n/2⌋` when that is below the samples per beat; the accumulator is again in
`[0, m_dSamplesPerBeat)` and a multiple of `2^j`, and the samples per beat are
unchanged. The upper bound on the accumulator before the call is not needed. -/
theorem process_advances_by_frames (s : EngineSync) (n : Int) (j : ℤ)
    (hsrc : s.m_sSyncSource = kMasterSyncGroup) (hspb : 0 < s.m_dSamplesPerBeat)
    (hlo : 0 ≤ s.m_dPseudoBufferPos) (hn : 0 ≤ n)
    (hj : -1074 ≤ j) (hj0 : j ≤ 0)
    (hgs : OnGrid j s.m_dSamplesPerBeat) (hgp : OnGrid j s.m_dPseudoBufferPos)
    (hb : s.m_dPseudoBufferPos + ⌊(n : ℚ) / 2⌋ < 2 ^ 53 * (2 : ℚ) ^ j) :
    ∃ (k : ℕ) (r : EngineSync), (∀ fuel, k ≤ fuel → process fuel s n = some r) ∧
      r.m_dPseudoBufferPos = s.m_dPseudoBufferPos + ⌊(n : ℚ) / 2⌋ - k * s.m_dSamplesPerBeat ∧
      (s.m_dPseudoBufferPos + ⌊(n : ℚ) / 2⌋ < s.m_dSamplesPerBeat →
        k = 0 ∧ r.m_dPseudoBufferPos = s.m_dPseudoBufferPos + ⌊(n : ℚ) / 2⌋) ∧
      (0 ≤ r.m_dPseudoBufferPos ∧ r.m_dPseudoBufferPos < s.m_dSamplesPerBeat) ∧
      OnGrid j r.m_dPseudoBufferPos ∧
      r.m_dSamplesPerBeat = s.m_dSamplesPerBeat := by
  have hq : (0 : ℚ) ≤ ((⌊(n : ℚ) / 2⌋ : Int) : ℚ) := by
    rw [← tdiv_two_eq_floor n hn]
    exact_mod_cast tdiv_two_nonneg n hn
  have hgsum : OnGrid j (s.m_dPseudoBufferPos + ⌊(n : ℚ) / 2⌋) :=
    onGrid_add j _ _ hgp (onGrid_intCast j hj0 _)
  have hsum : roundDouble (s.m_dPseudoBufferPos + ((n.tdiv 2 : Int) : ℚ))
      = s.m_dPseudoBufferPos + ⌊(n : ℚ) / 2⌋ := by
    rw [tdiv_two_eq_floor n hn]
    exact roundDouble_of_onGrid j _ hj hgsum (by linarith) hb
  have hq0 : 0 ≤ (s.m_dPseudoBufferPos + ⌊(n : ℚ) / 2⌋) / s.m_dSamplesPerBeat :=
    div_nonneg (by linarith) hspb.le
  obtain ⟨k, hk⟩ := Int.eq_ofNat_of_zero_le (Int.floor_nonneg.mpr hq0)
  have hk1 : (k : ℚ) * s.m_dSamplesPerBeat ≤ s.m_dPseudoBufferPos + ⌊(n : ℚ) / 2⌋ := by
    have := Int.floor_le ((s.m_dPseudoBufferPos + ⌊(n : ℚ) / 2⌋) / s.m_dSamplesPerBeat)
    rw [hk] at this
    have h2 := (le_div_iff₀ hspb).mp this
    exact_mod_cast h2
  have hk2 : s.m_dPseudoBufferPos + ⌊(n : ℚ) / 2⌋ < ((k : ℚ) + 1) * s.m_dSamplesPerBeat := by
    have := Int.lt_floor_add_one ((s.m_dPseudoBufferPos + ⌊(n : ℚ) / 2⌋) / s.m_dSamplesPerBeat)
    rw [hk] at this
    have h2 := (div_lt_iff₀ hspb).mp this
    exact_mod_cast h2
  have hw := wrapPseudoBufferPos_exact s.m_dSamplesPerBeat j hspb hj hgs k
    (s.m_dPseudoBufferPos + ⌊(n : ℚ) / 2⌋) hgsum hb hk1 hk2
  refine ⟨k, _, fun fuel hf => process_of_wrap fuel s n _ hsrc hspb
    (by rw [hsum]; exact hw fuel hf), rfl, ?_, ⟨?_, ?_⟩, ?_, rfl⟩
  · intro hlt
    have hk0 : k = 0 := by
      by_contra hne
      have h1 : (1 : ℚ) ≤ k := by exact_mod_cast Nat.one_le_iff_ne_zero.mpr hne
      nlinarith
    refine ⟨hk0, ?_⟩
    show s.m_dPseudoBufferPos + ⌊(n : ℚ) / 2⌋ - (k : ℚ) * s.m_dSamplesPerBeat = _
    rw [hk0]
    simp
  · show 0 ≤ s.m_dPseudoBufferPos + ⌊(n : ℚ) / 2⌋ - (k : ℚ) * s.m_dSamplesPerBeat
    linarith
  · show s.m_dPseudoBufferPos + ⌊(n : ℚ) / 2⌋ - (k : ℚ) * s.m_dSamplesPerBeat < _
    linarith
  · show OnGrid j (s.m_dPseudoBufferPos + ⌊(n : ℚ) / 2⌋ - (k : ℚ) * s.m_dSamplesPerBeat)
    obtain ⟨a, ha⟩ := hgs
    obtain ⟨b, hb2⟩ := hgsum
    exact ⟨b - k * a, by rw [hb2, ha]; push_cast; ring⟩

/-- Witness of C19 as amended: `lateBeatState` has 20671.875 samples per beat
and the accumulator at 20000, both multiples of `2^-3`; a buffer of 2048 samples
takes the accumulator to 21024, past the end of the beat, and `process` returns
after at least one subtraction with the accumulator at
`21024 - k * 20671.875`, in `[0, 20671.875)`. -/
theorem process_advances_by_frames_witness :
    OnGrid (-3) lateBeatState.m_dSamplesPerBeat ∧ OnGrid (-3) lateBeatState.m_dPseudoBufferPos ∧
    ∃ (k : ℕ) (r : EngineSync), 1 ≤ k ∧
      (∀ fuel, k ≤ fuel → process fuel lateBeatState 2048 = some r) ∧
      r.m_dPseudoBufferPos = 20000 + 1024 - k * (20671875 / 1000) ∧
      0 ≤ r.m_dPseudoBufferPos ∧ r.m_dPseudoBufferPos < 20671875 / 1000 := by
  have hf : ⌊((2048 : Int) : ℚ) / 2⌋ = 1024 := by
    rw [Int.floor_eq_iff]
    norm_num
  have hspb : lateBeatState.m_dSamplesPerBeat = 20671875 / 1000 := rfl
  have hpos : lateBeatState.m_dPseudoBufferPos = 20000 := rfl
  have hgs : OnGrid (-3) lateBeatState.m_dSamplesPerBeat := ⟨165375, by rw [hspb]; norm_num⟩
  have hgp : OnGrid (-3) lateBeatState.m_dPseudoBufferPos := ⟨160000, by rw [hpos]; norm_num⟩
  obtain ⟨k, r, h1, h2, _, ⟨h4, h5⟩, _, _⟩ := process_advances_by_frames lateBeatState 2048 (-3)
    rfl (by rw [hspb]; norm_num) (by rw [hpos]; norm_num) (by decide) (by norm_num)
    (by norm_num) hgs hgp (by rw [hf, hpos]; norm_num)
  rw [hf, hpos, hspb] at h2
  rw [hspb] at h5
  refine ⟨hgs, hgp, k, r, ?_, h1, by rw [h2]; norm_num, h4, h5⟩
  by_contra hk
  have hk0 : k = 0 := by omega
  rw [h2, hk0] at h5
  norm_num at h5

/-! ## Recomputing the samples per beat -/

/-- C14, the code at a failing input: `halfBeatState` has sample rate 44100,
master tempo 120 and 22050 samples per beat. Once the master tempo has been
written to 128 and `slotMasterBpmChanged(128)` has run, the samples per beat are
still 22050 and not 44100 * 60 / 128; the same holds when the writer is
`setChannelRateSlider`. -/
theorem slotMasterBpmChanged_keeps_samplesPerBeat :
    halfBeatState.m_pMasterBpm = 120 ∧ 0 < halfBeatState.m_pSampleRate ∧
    (∃ r, (∀ fuel, slotMasterBpmChanged fuel { halfBeatState with m_pMasterBpm := 128 } 128
        = some r) ∧
      r.m_pMasterBpm = 128 ∧ r.m_dSamplesPerBeat = 22050) ∧
    (setChannelRateSlider halfBeatState 0 128).m_pMasterBpm = 128 ∧
    (setChannelRateSlider halfBeatState 0 128).m_dSamplesPerBeat = 22050 ∧
    halfBeatState.m_pSampleRate * 60 / 128 ≠ 22050 := by
  have e2 : setChannelRateSlider halfBeatState 0 128
      = { setInternalRateSlider halfBeatState 128 with m_pMasterBpm := 128 } :=
    setMasterBpm_eq _ 128
  obtain ⟨b, e3⟩ := setInternalRateSlider_eq halfBeatState 128
  rw [e2, e3]
  refine ⟨rfl, by norm_num [halfBeatState],
    ⟨_, fun fuel => slotMasterBpmChanged_of_stored fuel halfBeatState 128, rfl, rfl⟩,
    rfl, rfl, by norm_num [halfBeatState]⟩

/-- Counterexample to C15 as stated: with master tempo 0 and sample rate 44100,
`updateSamplesPerBeat` leaves 44100 samples per beat, not 21338. -/
theorem updateSamplesPerBeat_fallback_counterexample :
    (updateSamplesPerBeat { clockState with m_pMasterBpm := 0 }).m_dSamplesPerBeat = 44100 ∧
    (44100 : ℚ) ≠ 21338 := by
  refine ⟨?_, by norm_num⟩
  simp [updateSamplesPerBeat, qFuzzyCompare_zero_right, clockState]

/-- C15, as the code has it: for every master tempo and sample rate, whenever
the tempo is zero or `sampleRate * 60 / tempo` is not positive,
`updateSamplesPerBeat` leaves the samples per beat equal to the sample rate;
and whenever the sample rate is positive, the samples per beat are positive
after `updateSamplesPerBeat`, whatever the tempo. Nothing else is changed. -/
theorem updateSamplesPerBeat_fallback (s : EngineSync) :
    ((s.m_pMasterBpm = 0 ∨ s.m_pSampleRate * 60 / s.m_pMasterBpm ≤ 0) →
      updateSamplesPerBeat s = { s with m_dSamplesPerBeat := s.m_pSampleRate }) ∧
    (0 < s.m_pSampleRate → 0 < (updateSamplesPerBeat s).m_dSamplesPerBeat) := by
  constructor
  · intro h
    unfold updateSamplesPerBeat
    by_cases h0 : s.m_pMasterBpm = 0
    · simp [qFuzzyCompare_zero_right, h0]
    · rcases h with h | h
      · exact absurd h h0
      · simp [qFuzzyCompare_zero_right, h0, h]
  · intro hr
    unfold updateSamplesPerBeat
    by_cases h0 : s.m_pMasterBpm = 0
    · simp [qFuzzyCompare_zero_right, h0, hr]
    · by_cases h : s.m_pSampleRate * 60 / s.m_pMasterBpm ≤ 0
      · simp [qFuzzyCompare_zero_right, h0, h, hr]
      · simp [qFuzzyCompare_zero_right, h0, h]
        exact not_le.mp h

/-- Witness of C15 as amended: master tempo -120 at sample rate 44100. -/
theorem updateSamplesPerBeat_fallback_witness :
    (updateSamplesPerBeat { clockState with m_pMasterBpm := -120 }).m_dSamplesPerBeat = 44100 ∧
    0 < (updateSamplesPerBeat { clockState with m_pMasterBpm := -120 }).m_dSamplesPerBeat := by
  have h := updateSamplesPerBeat_fallback { clockState with m_pMasterBpm := -120 }
  have h1 := h.1 (Or.inr (by norm_num [clockState]))
  have h2 := h.2 (by norm_num [clockState])
  refine ⟨?_, h2⟩
  rw [h1]
  rfl

/-! ## Reactions to a new sample rate -/

theorem slotSampleRateChanged_eq (s : EngineSync) (srate : ℚ) :
    slotSampleRateChanged s srate =
      { s with
        m_dPseudoBufferPos :=
          (staticCastInt srate : ℚ) * getInternalBeatDistance s / s.m_dSamplesPerBeat,
        m_dSamplesPerBeat := (updateSamplesPerBeat s).m_dSamplesPerBeat } := by
  unfold slotSampleRateChanged updateSamplesPerBeat
  simp only
  split
  · rfl
  · split <;> rfl

theorem updateSamplesPerBeat_of_pos (s : EngineSync)
    (htempo : 0 < s.m_pMasterBpm) (hrate : 0 < s.m_pSampleRate) :
    (updateSamplesPerBeat s).m_dSamplesPerBeat = s.m_pSampleRate * 60 / s.m_pMasterBpm := by
  have h0 : s.m_pMasterBpm ≠ 0 := ne_of_gt htempo
  have h1 : 0 < s.m_pSampleRate * 60 / s.m_pMasterBpm := by positivity
  simp [updateSamplesPerBeat, qFuzzyCompare_zero_right, h0, not_le.mpr h1]

/-- C13, the code at a failing input: `halfBeatState` has the internal clock as
sync source at tempo 120 and sample rate 44100, with 22050 samples per beat and
the accumulator at 11025, so the beat fraction is 1/2. After the sample rate
has been written to 48000 and `slotSampleRateChanged(48000)` has run, the
samples per beat are 24000 and the accumulator is 160/147, so the beat fraction
is 1/22050 and not 1/2. (Were the slot to run while the control still holds
44100, the beat fraction would be 16/324135.) -/
theorem slotSampleRateChanged_loses_beat_fraction :
    (halfBeatState.m_sSyncSource = kMasterSyncGroup ∧
      halfBeatState.m_dSamplesPerBeat = 44100 * 60 / halfBeatState.m_pMasterBpm ∧
      getInternalBeatDistance halfBeatState = 1 / 2) ∧
    (setSampleRate halfBeatState 48000).m_dSamplesPerBeat = 24000 ∧
    (setSampleRate halfBeatState 48000).m_dPseudoBufferPos = 160 / 147 ∧
    getInternalBeatDistance (setSampleRate halfBeatState 48000) = 1 / 22050 ∧
    getInternalBeatDistance (slotSampleRateChanged halfBeatState 48000) = 16 / 324135 := by
  have hfrac : getInternalBeatDistance halfBeatState = 1 / 2 := by
    norm_num [getInternalBeatDistance, halfBeatState]
  have hcast : staticCastInt 48000 = 48000 := by
    unfold staticCastInt
    rw [if_pos (by norm_num)]
    rw [Int.floor_eq_iff]
    norm_num
  have hspb : (updateSamplesPerBeat { halfBeatState with m_pSampleRate := 48000 }).m_dSamplesPerBeat
      = 24000 := by
    rw [updateSamplesPerBeat_of_pos _ (by norm_num [halfBeatState]) (by norm_num)]
    norm_num [halfBeatState]
  have hfrac2 : getInternalBeatDistance { halfBeatState with m_pSampleRate := 48000 } = 1 / 2 :=
    hfrac
  have e : setSampleRate halfBeatState 48000 =
      { halfBeatState with
        m_pSampleRate := 48000, m_dPseudoBufferPos := 160 / 147,
        m_dSamplesPerBeat := 24000 } := by
    unfold setSampleRate
    rw [slotSampleRateChanged_eq, hspb, hfrac2, hcast]
    have : ((48000 : Int) : ℚ) * (1 / 2) /
        ({ halfBeatState with m_pSampleRate := 48000 } : EngineSync).m_dSamplesPerBeat
        = 160 / 147 := by
      norm_num [halfBeatState]
    rw [this]
  have hspb0 : (updateSamplesPerBeat halfBeatState).m_dSamplesPerBeat = 22050 := by
    rw [updateSamplesPerBeat_of_pos _ (by norm_num [halfBeatState])
      (by norm_num [halfBeatState])]
    norm_num [halfBeatState]
  have e0 : slotSampleRateChanged halfBeatState 48000 =
      { halfBeatState with m_dPseudoBufferPos := 160 / 147, m_dSamplesPerBeat := 22050 } := by
    rw [slotSampleRateChanged_eq, hspb0, hfrac, hcast]
    have : ((48000 : Int) : ℚ) * (1 / 2) / halfBeatState.m_dSamplesPerBeat = 160 / 147 := by
      norm_num [halfBeatState]
    rw [this]
  refine ⟨⟨rfl, by norm_num [halfBeatState], hfrac⟩, ?_, ?_, ?_, ?_⟩
  · rw [e]
  · rw [e]
  · rw [e]
    norm_num [getInternalBeatDistance]
  · rw [e0]
    norm_num [getInternalBeatDistance]

/-! ## The phase at a fallback to the internal clock -/

theorem setInternalRateSlider_of_deck_source (s : EngineSync) (v : ℚ)
    (hsrc : s.m_sSyncSource ≠ kMasterSyncGroup) :
    setInternalRateSlider s v = { s with m_pInternalRateSlider := v } := by
  unfold setInternalRateSlider slotSyncRateSliderChanged
  simp [hsrc]

theorem setInternalMaster_of_master (s : EngineSync) (i : Nat) (d : RateControl) (p : ℚ)
    (hsrc : s.m_sSyncSource ≠ kMasterSyncGroup) (hpcm : s.m_pChannelMaster = some i)
    (hd : s.m_ratecontrols[i]? = some d) (hp : d.beatDistance = some p)
    (htempo : 0 < s.m_pMasterBpm) (hrate : 0 < s.m_pSampleRate) :
    setInternalMaster s =
      { s with
        m_ratecontrols := releasedDecks s, connections := releasedConnections s,
        m_pSyncInternalEnabled := 1, m_sSyncSource := kMasterSyncGroup,
        m_pChannelMaster := none, m_dPseudoBufferPos := p * s.m_dSamplesPerBeat,
        m_pMasterBeatDistance := p,
        m_dSamplesPerBeat := s.m_pSampleRate * 60 / s.m_pMasterBpm,
        m_pInternalRateSlider := s.m_pMasterBpm } := by
  have h0 : s.m_pMasterBpm ≠ 0 := ne_of_gt htempo
  have h1 : ¬ s.m_pSampleRate * 60 / s.m_pMasterBpm ≤ 0 := not_le.mpr (by positivity)
  unfold setInternalMaster
  simp only [hsrc, if_false, qFuzzyCompare_zero_right, decide_eq_true_eq, h0, decide_False,
    Bool.not_false, if_true]
  rw [setInternalRateSlider_of_deck_source s _ hsrc]
  unfold initializeInternalBeatDistance initializeInternalBeatDistanceOf
  simp only [hpcm, hd, hp]
  rw [disableCurrentMaster_eq]
  unfold updateSamplesPerBeat
  simp [qFuzzyCompare_zero_right, h0, h1, setSyncInternalEnabled, releasedDecks,
    releasedConnections, hpcm]

theorem setInternalMaster_phase (s : EngineSync) (i : Nat) (d : RateControl) (p : ℚ)
    (hsrc : s.m_sSyncSource ≠ kMasterSyncGroup) (hpcm : s.m_pChannelMaster = some i)
    (hd : s.m_ratecontrols[i]? = some d) (hp : d.beatDistance = some p) (hp0 : 0 ≤ p)
    (htempo : 0 < s.m_pMasterBpm) (hrate : 0 < s.m_pSampleRate)
    (hspb : 0 ≤ s.m_dSamplesPerBeat) :
    (setInternalMaster s).m_sSyncSource = kMasterSyncGroup ∧
    getInternalBeatDistance (setInternalMaster s)
      = p * s.m_dSamplesPerBeat / (s.m_pSampleRate * 60 / s.m_pMasterBpm) := by
  rw [setInternalMaster_of_master s i d p hsrc hpcm hd hp htempo hrate]
  refine ⟨rfl, ?_⟩
  unfold getInternalBeatDistance
  have : ¬ p * s.m_dSamplesPerBeat < 0 := not_lt.mpr (mul_nonneg hp0 hspb)
  simp only [this, if_false]

theorem setInternalMaster_phase_continuous (s : EngineSync) (i : Nat) (d : RateControl) (p : ℚ)
    (hsrc : s.m_sSyncSource ≠ kMasterSyncGroup) (hpcm : s.m_pChannelMaster = some i)
    (hd : s.m_ratecontrols[i]? = some d) (hp : d.beatDistance = some p) (hp0 : 0 ≤ p)
    (htempo : 0 < s.m_pMasterBpm) (hrate : 0 < s.m_pSampleRate)
    (hspb : s.m_dSamplesPerBeat = s.m_pSampleRate * 60 / s.m_pMasterBpm) :
    (setInternalMaster s).m_sSyncSource = kMasterSyncGroup ∧
    getInternalBeatDistance (setInternalMaster s) = p := by
  have hpos : 0 < s.m_dSamplesPerBeat := by rw [hspb]; positivity
  obtain ⟨h1, h2⟩ := setInternalMaster_phase s i d p hsrc hpcm hd hp hp0 htempo hrate
    (le_of_lt hpos)
  refine ⟨h1, ?_⟩
  rw [h2, ← hspb]
  field_simp

theorem releasedDecks_getElem?_same (s : EngineSync) (i : Nat) (d : RateControl)
    (hd : s.m_ratecontrols[i]? = some d) :
    ∃ d', (releasedDecks s)[i]? = some d' ∧ d'.fileBpm = d.fileBpm ∧
      d'.beatDistance = d.beatDistance ∧ d'.group = d.group ∧ d'.channel = d.channel := by
  by_cases h : s.m_pChannelMaster = some i
  · rw [releasedDecks_getElem?_master s i h, hd]
    exact ⟨_, rfl, rfl, rfl, rfl, rfl⟩
  · rw [releasedDecks_getElem?_other s i h, hd]
    exact ⟨_, rfl, rfl, rfl, rfl, rfl⟩

theorem slotSourceBpmChanged_masterBpm (s : EngineSync) (v : ℚ)
    (hsrc : s.m_sSyncSource ≠ kMasterSyncGroup) :
    (slotSourceBpmChanged s v).m_pMasterBpm = s.m_pMasterBpm := by
  unfold slotSourceBpmChanged
  split
  · rw [setInternalRateSlider_of_deck_source s v hsrc]
  · rfl

theorem slotSourceRateEngineChanged_of_master (s : EngineSync) (i : Nat) (d : RateControl)
    (hpcm : s.m_pChannelMaster = some i) (hd : s.m_ratecontrols[i]? = some d) (r : ℚ) :
    (slotSourceRateEngineChanged s r).m_pMasterBpm = r * d.fileBpm ∧
    (slotSourceRateEngineChanged s r).m_sSyncSource = s.m_sSyncSource := by
  have e : slotSourceRateEngineChanged s r = setMasterBpm s (r * d.fileBpm) := by
    unfold slotSourceRateEngineChanged
    rw [hpcm]
    simp only [hd]
  rw [e, setMasterBpm_eq]
  exact ⟨rfl, rfl⟩

theorem setChannelMaster_success_tempo (s : EngineSync) (i : Nat) (d : RateControl)
    (ch : EngineChannel)
    (hd : s.m_ratecontrols[i]? = some d) (h : s.m_sSyncSource ≠ d.group)
    (hc : d.channel = some ch) (hb : ch.engineBuffer = true)
    (hk : ch.group ≠ kMasterSyncGroup) :
    (setChannelMaster s i).1.m_pMasterBpm = d.rateEngine * d.fileBpm := by
  obtain ⟨d', hd', hf, _, _, _⟩ := releasedDecks_getElem?_same s i d hd
  unfold setChannelMaster
  simp only [hd, h, if_false, hc, hb, Bool.not_true, Bool.false_eq_true]
  rw [slotSourceBpmChanged_masterBpm]
  · have hy := slotSourceRateEngineChanged_of_master
      (setSyncInternalEnabled
        (initializeInternalBeatDistance
          (connect
            (connect
              (connect
                { disableCurrentMaster s with
                  m_sSyncSource := ch.group, m_pChannelMaster := some i }
                i SourceSignal.rateEngine)
              i SourceSignal.bpm)
            i SourceSignal.beatDistance))
        false) i d'
      (by rw [initializeInternalBeatDistance_frame]; rfl)
      (by rw [initializeInternalBeatDistance_frame, disableCurrentMaster_eq]; exact hd')
      d.rateEngine
    rw [← hf]
    exact hy.1
  · rw [slotSourceRateEngineChanged_frame, initializeInternalBeatDistance_frame]
    exact hk

/-- C16, the code at a failing input. `freshDeckState` is a new coordinator
(tempo 124, samples per beat 44100 * 60 / 124) with one deck that plays a
120 BPM track and is half a beat after its last beat. `setChannelMaster` binds
the deck: it is channel master and sync source, the master tempo is 120, and
the samples per beat are still those of tempo 124. In that state
`setInternalMaster` makes the internal clock the sync source, and
`getInternalBeatDistance` is then 15/31 and not the 1/2 of the deck. -/
theorem setInternalMaster_phase_jump :
    ((setChannelMaster freshDeckState 0).2 = true ∧
      (setChannelMaster freshDeckState 0).1.m_sSyncSource = "[Channel1]" ∧
      (setChannelMaster freshDeckState 0).1.m_pChannelMaster = some 0 ∧
      ((setChannelMaster freshDeckState 0).1.m_ratecontrols[0]?).map
        (fun d => d.beatDistance) = some (some (1 / 2)) ∧
      (setChannelMaster freshDeckState 0).1.m_pMasterBpm = 120 ∧
      (setChannelMaster freshDeckState 0).1.m_pSampleRate = 44100 ∧
      (setChannelMaster freshDeckState 0).1.m_dSamplesPerBeat = 44100 * 60 / 124) ∧
    (setInternalMaster (setChannelMaster freshDeckState 0).1).m_sSyncSource
      = kMasterSyncGroup ∧
    getInternalBeatDistance (setInternalMaster (setChannelMaster freshDeckState 0).1)
      = 15 / 31 := by
  have hd : freshDeckState.m_ratecontrols[0]? = some
      { group := "[Channel1]", mode := SYNC_FOLLOWER,
        channel := some { group := "[Channel1]", engineBuffer := true },
        play := some 1, fileBpm := 120, rateEngine := 1, bpm := 120,
        beatDistance := some (1 / 2) } := rfl
  have htempo := setChannelMaster_success_tempo freshDeckState 0 _
    { group := "[Channel1]", engineBuffer := true } hd (by decide) rfl rfl (by decide)
  obtain ⟨p, b, sl, mb, e⟩ := setChannelMaster_success freshDeckState 0 _
    { group := "[Channel1]", engineBuffer := true } hd (by decide) rfl rfl
  have h120 : (setChannelMaster freshDeckState 0).1.m_pMasterBpm = 120 := by
    rw [htempo]; norm_num
  have hsrc : (setChannelMaster freshDeckState 0).1.m_sSyncSource = "[Channel1]" := by
    rw [e]
  have hpcm : (setChannelMaster freshDeckState 0).1.m_pChannelMaster = some 0 := by
    rw [e]
  have hdecks : (setChannelMaster freshDeckState 0).1.m_ratecontrols[0]? = some
      { group := "[Channel1]", mode := SYNC_FOLLOWER,
        channel := some { group := "[Channel1]", engineBuffer := true },
        play := some 1, fileBpm := 120, rateEngine := 1, bpm := 120,
        beatDistance := some (1 / 2) } := by
    rw [e]; exact hd
  have hsr : (setChannelMaster freshDeckState 0).1.m_pSampleRate = 44100 := by
    rw [e]; rfl
  have hspb : (setChannelMaster freshDeckState 0).1.m_dSamplesPerBeat = 44100 * 60 / 124 := by
    rw [e]; rfl
  have hne : (setChannelMaster freshDeckState 0).1.m_sSyncSource ≠ kMasterSyncGroup := by
    rw [hsrc]; decide
  obtain ⟨h1, h2⟩ := setInternalMaster_phase (setChannelMaster freshDeckState 0).1 0 _ (1 / 2)
    hne hpcm hdecks rfl (by norm_num) (by rw [h120]; norm_num) (by rw [hsr]; norm_num)
    (by rw [hspb]; norm_num)
  refine ⟨⟨by rw [e], hsrc, hpcm, by rw [hdecks]; rfl, h120, hsr, hspb⟩, h1, ?_⟩
  rw [h2, hspb, hsr, h120]
  norm_num

/-! ## Connections to the signals of the authority -/

theorem releasedConnections_eq_nil (s : EngineSync)
    (hsub : ∀ c ∈ s.connections, s.m_pChannelMaster = some c.1) :
    releasedConnections s = [] := by
  unfold releasedConnections
  cases hp : s.m_pChannelMaster with
  | none =>
    simp only
    cases hc : s.connections with
    | nil => rfl
    | cons c rest =>
      have := hsub c (by rw [hc]; exact List.mem_cons_self _ _)
      rw [hp] at this
      cases this
  | some j =>
    simp only
    rw [List.filter_eq_nil_iff]
    intro c hc
    rw [List.mem_filter, List.mem_filter] at hc
    obtain ⟨⟨hmem, h1⟩, h2⟩ := hc
    have hj := hsub c hmem
    rw [hp] at hj
    have hj' : c.1 = j := (Option.some.inj hj).symm
    simp only [decide_eq_true_eq] at h1 h2 ⊢
    obtain ⟨c1, c2⟩ := c
    simp only at hj'
    subst hj'
    cases c2
    · exact absurd rfl h1
    · exact absurd rfl h2
    · simp

/-- C18: when every connection the coordinator holds is to a signal of the
channel master, and the registered deck `x` has a non-empty group and an
attached channel with an engine buffer, then after `disableCurrentMaster`
followed by `setChannelMaster(x)` the bind has returned `true`, `x` is the
channel master, and the connections are exactly the three signals of `x`
(rate, tempo and beat distance), each once. -/
theorem release_then_bind_connections (s : EngineSync) (x : Nat) (d : RateControl)
    (ch : EngineChannel)
    (hsub : ∀ c ∈ s.connections, s.m_pChannelMaster = some c.1)
    (hd : s.m_ratecontrols[x]? = some d) (hg : d.group ≠ "")
    (hc : d.channel = some ch) (hb : ch.engineBuffer = true) :
    (setChannelMaster (disableCurrentMaster s) x).2 = true ∧
    (setChannelMaster (disableCurrentMaster s) x).1.m_pChannelMaster = some x ∧
    (setChannelMaster (disableCurrentMaster s) x).1.connections
      = [(x, SourceSignal.rateEngine), (x, SourceSignal.bpm), (x, SourceSignal.beatDistance)] := by
  obtain ⟨d', hd', _, _, hg', hc'⟩ := releasedDecks_getElem?_same s x d hd
  have hdx : (disableCurrentMaster s).m_ratecontrols[x]? = some d' := by
    rw [disableCurrentMaster_eq]; exact hd'
  have hsrc : (disableCurrentMaster s).m_sSyncSource ≠ d'.group := by
    rw [disableCurrentMaster_eq, hg']
    exact fun h => hg h.symm
  obtain ⟨p, b, sl, mb, e⟩ := setChannelMaster_success (disableCurrentMaster s) x d' ch hdx hsrc
    (by rw [hc', hc]) hb
  have hnil : releasedConnections (disableCurrentMaster s) = [] := by
    have h1 : (disableCurrentMaster s).m_pChannelMaster = none := by
      rw [disableCurrentMaster_eq]
    have h2 : (disableCurrentMaster s).connections = releasedConnections s := by
      rw [disableCurrentMaster_eq]
    unfold releasedConnections
    rw [h1]
    simp only
    rw [h2]
    exact releasedConnections_eq_nil s hsub
  rw [e]
  refine ⟨rfl, rfl, ?_⟩
  show releasedConnections (disableCurrentMaster s) ++ _ ++ _ ++ _ = _
  rw [hnil]
  rfl

/-- Witness of C18: `twoPlayingState`, whose connections are those of its bound
master, deck 0, and the deck 1. -/
theorem release_then_bind_connections_witness :
    (setChannelMaster (disableCurrentMaster twoPlayingState) 1).2 = true ∧
    (setChannelMaster (disableCurrentMaster twoPlayingState) 1).1.m_pChannelMaster = some 1 ∧
    (setChannelMaster (disableCurrentMaster twoPlayingState) 1).1.connections
      = [(1, SourceSignal.rateEngine), (1, SourceSignal.bpm), (1, SourceSignal.beatDistance)] :=
  release_then_bind_connections twoPlayingState 1
    (mkDeck "[Channel2]" SYNC_FOLLOWER true true) { group := "[Channel2]", engineBuffer := true }
    (by decide) rfl (by decide) rfl rfl

/-! ## Registration of decks -/

/-- C21: `addDeck(c)` on a registry appends `c` at the end, the existing decks
and their order unchanged, when no registered deck has the group of `c`, and
leaves the state as it is when one has; nothing but the registry is ever
changed, and a registry with pairwise distinct groups has pairwise distinct
groups afterwards. -/
theorem addDeck_appends_or_keeps (s : EngineSync) (c : RateControl)
    (hnd : (s.m_ratecontrols.map (fun d => d.group)).Nodup) :
    ((∀ d ∈ s.m_ratecontrols, d.group ≠ c.group) →
      addDeck s c = { s with m_ratecontrols := s.m_ratecontrols ++ [c] }) ∧
    ((∃ d ∈ s.m_ratecontrols, d.group = c.group) → addDeck s c = s) ∧
    ((addDeck s c).m_ratecontrols.map (fun d => d.group)).Nodup := by
  have hnew : (∀ d ∈ s.m_ratecontrols, d.group ≠ c.group) →
      addDeck s c = { s with m_ratecontrols := s.m_ratecontrols ++ [c] } := by
    intro h
    unfold addDeck
    have : s.m_ratecontrols.any (fun pRate => decide (pRate.group = c.group)) = false := by
      rw [List.any_eq_false]
      intro d hd
      simpa using h d hd
    simp [this]
  have hold : (∃ d ∈ s.m_ratecontrols, d.group = c.group) → addDeck s c = s := by
    rintro ⟨d, hd, hg⟩
    unfold addDeck
    have : s.m_ratecontrols.any (fun pRate => decide (pRate.group = c.group)) = true := by
      rw [List.any_eq_true]
      exact ⟨d, hd, by simpa using hg⟩
    simp [this]
  refine ⟨hnew, hold, ?_⟩
  by_cases h : ∃ d ∈ s.m_ratecontrols, d.group = c.group
  · rw [hold h]; exact hnd
  · have h' : ∀ d ∈ s.m_ratecontrols, d.group ≠ c.group := by
      intro d hd hg
      exact h ⟨d, hd, hg⟩
    rw [hnew h']
    show ((s.m_ratecontrols ++ [c]).map (fun d => d.group)).Nodup
    rw [List.map_append, List.nodup_append]
    refine ⟨hnd, by simp, ?_⟩
    intro g hg1 hg2
    rw [List.mem_map] at hg1
    obtain ⟨d, hd, e⟩ := hg1
    simp only [List.map_cons, List.map_nil, List.mem_singleton] at hg2
    exact h' d hd (e.trans hg2)

/-- Witness of C21: the registry of `twoPlayingState`, to which a deck
`[Channel3]` is appended and in which a second `[Channel1]` is not. -/
theorem addDeck_appends_or_keeps_witness :
    (addDeck twoPlayingState (mkDeck "[Channel3]" SYNC_NONE false false)).m_ratecontrols
      = twoPlayingState.m_ratecontrols ++ [mkDeck "[Channel3]" SYNC_NONE false false] ∧
    addDeck twoPlayingState (mkDeck "[Channel1]" SYNC_NONE false false) = twoPlayingState ∧
    ((addDeck twoPlayingState (mkDeck "[Channel3]" SYNC_NONE false false)).m_ratecontrols.map
      (fun d => d.group)).Nodup := by
  have h3 := addDeck_appends_or_keeps twoPlayingState
    (mkDeck "[Channel3]" SYNC_NONE false false) (by decide)
  have h1 := addDeck_appends_or_keeps twoPlayingState
    (mkDeck "[Channel1]" SYNC_NONE false false) (by decide)
  refine ⟨?_, h1.2.1 ⟨mkDeck "[Channel1]" SYNC_MASTER true true, by decide, rfl⟩, h3.2.2⟩
  rw [h3.1 (by decide)]

/-! ## A deck that leaves sync -/

/-- C23, the code at a failing input: in `soleMasterState` the playing deck
`[Channel1]` is the bound master, in `SYNC_MASTER`, so no deck in `SYNC_NONE` is
the sync source. After `setChannelSyncMode(deck, SYNC_NONE)` the deck is in
`SYNC_NONE` and still is the sync source and the channel master. -/
theorem setChannelSyncMode_none_keeps_source :
    NoNoneSource soleMasterState ∧
    ∃ r, setChannelSyncMode (fuelBound soleMasterState) soleMasterState 0 SYNC_NONE = some r ∧
      modeOf r 0 = some SYNC_NONE ∧ r.m_sSyncSource = "[Channel1]" ∧
      r.m_pChannelMaster = some 0 ∧ ¬ NoNoneSource r := by
  refine ⟨by unfold NoNoneSource; decide, _, rfl, by decide, by decide, by decide, ?_⟩
  unfold NoNoneSource
  decide

/-! ## The nesting of elections -/

/-- An election with fuel `n + 1` returns when every election nested in it
returns with fuel `n`: the nested election is that of a candidate outside of
the excluded group, not in `SYNC_MASTER`, without an engine buffer and not the
sync source, in the state that the failed bind leaves. -/
theorem chooseNewMaster_step (n : Nat) (s : EngineSync) (dp : String)
    (hnest : ∀ k d, s.m_ratecontrols[k]? = some d → d.group ≠ dp → d.mode ≠ SYNC_MASTER →
      s.m_sSyncSource ≠ d.group → d.hasEngineBuffer = false →
      ∃ r, chooseNewMaster n (disableCurrentMaster
        { setMode s k SYNC_MASTER with m_bExplicitMasterSelected := true }) d.group = some r) :
    ∃ r, chooseNewMaster (n + 1) s dp = some r := by
  rw [chooseNewMaster]
  cases hs : scanDecks dp s.m_ratecontrols 0 0 0 none with
  | alreadyMaster g => exact ⟨_, rfl⟩
  | counted p q nm =>
    simp only []
    obtain ⟨hnom, _, hnm⟩ := scanDecks_counted dp _ _ _ _ _ _ _ _ hs
    have key : ∀ i, nm = some i →
        ∃ y, setChannelSyncModeWith (chooseNewMaster n) (setMode s i SYNC_MASTER) i
          SYNC_MASTER = some y := by
      intro i hi
      rcases hnm with ⟨_, e⟩ | ⟨k, d, e1, e2, e3⟩
      · rw [e] at hi; cases hi
      · rw [e1] at hi
        have hik : k = i := by simpa using hi
        subst hik
        have hne : d.group ≠ dp := by
          simp only [isCandidate, Bool.and_eq_true, decide_eq_true_eq] at e3
          exact e3.1.1
        have hm : d.mode ≠ SYNC_MASTER := hnom d (List.getElem?_mem e2) hne
        rw [promote_eq _ s k d e2]
        unfold setChannelMasterOrChoose
        simp only []
        have hd1 : ({ setMode s k SYNC_MASTER with
            m_bExplicitMasterSelected := true } : EngineSync).m_ratecontrols[k]?
            = some { d with mode := SYNC_MASTER } := by
          show (setMode s k SYNC_MASTER).m_ratecontrols[k]? = _
          rw [setMode_getElem?]
          simp [e2]
        by_cases hsrc : s.m_sSyncSource = d.group
        · rw [setChannelMaster_already _ k _ hd1 hsrc]
          exact ⟨_, rfl⟩
        · cases hb : d.hasEngineBuffer with
          | true =>
            unfold RateControl.hasEngineBuffer at hb
            cases hch : d.channel with
            | none => rw [hch] at hb; cases hb
            | some ch =>
              rw [hch] at hb
              obtain ⟨p, b, sl, mb, e⟩ := setChannelMaster_success
                { setMode s k SYNC_MASTER with m_bExplicitMasterSelected := true } k
                { d with mode := SYNC_MASTER } ch hd1 hsrc hch hb
              rw [e]
              exact ⟨_, rfl⟩
          | false =>
            rw [setChannelMaster_fail _ k { d with mode := SYNC_MASTER } hd1 hsrc hb]
            simp only [Bool.false_eq_true, if_false]
            exact hnest k d e2 hne hm hsrc hb
    by_cases h1 : p = 1
    · simp only [h1, if_true]
      cases nm with
      | none => exact ⟨_, rfl⟩
      | some i =>
        obtain ⟨y, hy⟩ := key i rfl
        exact ⟨_, by simp only [hy]; rfl⟩
    · simp only [h1, if_false]
      by_cases h2 : dp ≠ kMasterSyncGroup
      · rw [if_pos h2]; exact ⟨_, rfl⟩
      · rw [if_neg h2]
        cases nm with
        | none => exact ⟨_, rfl⟩
        | some i =>
          obtain ⟨y, hy⟩ := key i rfl
          exact ⟨_, by simp only [hy]; rfl⟩

/-- An election returns without a nested election when a deck outside of the
excluded group is in `SYNC_MASTER`. -/
theorem chooseNewMaster_one_of_master (s : EngineSync) (dp : String) (j : Nat) (d : RateControl)
    (hd : s.m_ratecontrols[j]? = some d) (hg : d.group ≠ dp) (hm : d.mode = SYNC_MASTER) :
    ∃ r, chooseNewMaster 1 s dp = some r := by
  rw [chooseNewMaster]
  cases hs : scanDecks dp s.m_ratecontrols 0 0 0 none with
  | alreadyMaster g => exact ⟨_, rfl⟩
  | counted p q nm =>
    obtain ⟨hnom, _, _⟩ := scanDecks_counted dp _ _ _ _ _ _ _ _ hs
    exact absurd hm (hnom d (List.getElem?_mem hd) hg)

/-- An election returns without a nested election when every registered deck
is in the excluded group. -/
theorem chooseNewMaster_one_of_excluded (s : EngineSync) (dp : String)
    (h : ∀ d ∈ s.m_ratecontrols, d.group = dp) :
    ∃ r, chooseNewMaster 1 s dp = some r := by
  apply chooseNewMaster_step 0 s dp
  intro k d hd hg _ _ _
  exact absurd (h d (List.getElem?_mem hd)) hg

/-- The decks that a failed bind of deck `k` leaves when there was no channel
master: those before, with deck `k` in `SYNC_MASTER`. -/
theorem released_decks_of_none (s : EngineSync) (k : Nat) (hp : s.m_pChannelMaster = none) :
    (disableCurrentMaster
      { setMode s k SYNC_MASTER with m_bExplicitMasterSelected := true }).m_ratecontrols
      = setModeAt s.m_ratecontrols k SYNC_MASTER := by
  rw [disableCurrentMaster_eq]
  show releasedDecks { setMode s k SYNC_MASTER with m_bExplicitMasterSelected := true } = _
  unfold releasedDecks
  simp [setMode, hp]

/-- The state after a failed bind has no channel master. -/
theorem released_master_none (s : EngineSync) : (disableCurrentMaster s).m_pChannelMaster = none := by
  rw [disableCurrentMaster_eq]

/-- With no channel master and the excluded group that of a deck in
`SYNC_MASTER`, an election has at most one election nested in it. -/
theorem chooseNewMaster_two_of_excluded_master (s : EngineSync) (dp : String) (j : Nat)
    (d : RateControl) (hp : s.m_pChannelMaster = none)
    (hd : s.m_ratecontrols[j]? = some d) (hg : d.group = dp) (hm : d.mode = SYNC_MASTER) :
    ∃ r, chooseNewMaster 2 s dp = some r := by
  apply chooseNewMaster_step 1 s dp
  intro k x hx hxg hxm _ _
  have hjk : j ≠ k := by
    intro e
    rw [e, hx] at hd
    cases hd
    exact hxm hm
  apply chooseNewMaster_one_of_master _ _ j d
  · rw [released_decks_of_none s k hp, setModeAt_getElem?]
    simp [hjk, hd]
  · rw [hg]; exact fun e => hxg e.symm
  · exact hm

/-- With no channel master an election has at most two levels of elections
nested in it. -/
theorem chooseNewMaster_three_of_none (s : EngineSync) (dp : String)
    (hp : s.m_pChannelMaster = none) :
    ∃ r, chooseNewMaster 3 s dp = some r := by
  apply chooseNewMaster_step 2 s dp
  intro k x hx _ _ _ _
  apply chooseNewMaster_two_of_excluded_master _ _ k { x with mode := SYNC_MASTER }
    (released_master_none _)
  · rw [released_decks_of_none s k hp, setModeAt_getElem?]
    simp [hx]
  · rfl
  · rfl

/-- In every state an election has at most three levels of elections nested in
it. -/
theorem chooseNewMaster_four (s : EngineSync) (dp : String) :
    ∃ r, chooseNewMaster 4 s dp = some r := by
  apply chooseNewMaster_step 3 s dp
  intro k x _ _ _ _ _
  exact chooseNewMaster_three_of_none _ _ (released_master_none _)

/-- When the channel master is the sync source, an election has at most two
levels of elections nested in it. -/
theorem chooseNewMaster_three_of_coherent (s : EngineSync) (dp : String)
    (hc : MasterCoherent s) :
    ∃ r, chooseNewMaster 3 s dp = some r := by
  apply chooseNewMaster_step 2 s dp
  intro k x hx _ _ hsrc _
  have hpk : s.m_pChannelMaster ≠ some k := fun e => hsrc (hc k x e hx)
  apply chooseNewMaster_two_of_excluded_master _ _ k { x with mode := SYNC_MASTER }
    (released_master_none _)
  · have hpk1 : ({ setMode s k SYNC_MASTER with
        m_bExplicitMasterSelected := true } : EngineSync).m_pChannelMaster ≠ some k := hpk
    rw [disableCurrentMaster_eq]
    show (releasedDecks { setMode s k SYNC_MASTER with m_bExplicitMasterSelected := true })[k]?
      = _
    rw [releasedDecks_getElem?_other _ k hpk1]
    show (setMode s k SYNC_MASTER).m_ratecontrols[k]? = _
    rw [setMode_getElem?]
    simp [hx]
  · rfl
  · rfl

/-- The groups of the decks after a failed bind are those before. -/
theorem released_groups (s : EngineSync) (k : Nat) (y : RateControl)
    (hy : y ∈ (disableCurrentMaster
      { setMode s k SYNC_MASTER with m_bExplicitMasterSelected := true }).m_ratecontrols) :
    ∃ d ∈ s.m_ratecontrols, y.group = d.group := by
  rw [disableCurrentMaster_eq] at hy
  have hy2 : y ∈ releasedDecks
      { setMode s k SYNC_MASTER with m_bExplicitMasterSelected := true } := hy
  have h1 : ∃ d ∈ setModeAt s.m_ratecontrols k SYNC_MASTER, y.group = d.group := by
    unfold releasedDecks at hy2
    cases hp : s.m_pChannelMaster with
    | none =>
      simp only [setMode, hp] at hy2
      exact ⟨y, hy2, rfl⟩
    | some j =>
      simp only [setMode, hp] at hy2
      obtain ⟨d, hd, e, _⟩ := mem_setModeAt _ _ _ _ hy2
      exact ⟨d, hd, e⟩
  obtain ⟨d, hd, e⟩ := h1
  obtain ⟨d2, hd2, e2, _⟩ := mem_setModeAt _ _ _ _ hd
  exact ⟨d2, hd2, e.trans e2⟩

/-- Two members of a list of at most one deck are the same deck. -/
theorem mem_unique_of_length_le_one (l : List RateControl) (hl : l.length ≤ 1)
    (a b : RateControl) (ha : a ∈ l) (hb : b ∈ l) : a = b := by
  cases l with
  | nil => cases ha
  | cons c rest =>
    cases rest with
    | nil =>
      rw [List.mem_singleton] at ha hb
      rw [ha, hb]
    | cons _ _ => simp at hl

/-- With at most one registered deck an election has at most one election
nested in it. -/
theorem chooseNewMaster_two_of_single (s : EngineSync) (dp : String)
    (hl : s.m_ratecontrols.length ≤ 1) :
    ∃ r, chooseNewMaster 2 s dp = some r := by
  apply chooseNewMaster_step 1 s dp
  intro k x hx _ _ _ _
  apply chooseNewMaster_one_of_excluded
  intro y hy
  obtain ⟨d, hd, e⟩ := released_groups s k y hy
  rw [e, mem_unique_of_length_le_one _ hl d x hd (List.getElem?_mem hx)]

/-- With an empty registry an election has no election nested in it. -/
theorem chooseNewMaster_one_of_empty (s : EngineSync) (dp : String)
    (hl : s.m_ratecontrols.length = 0) :
    ∃ r, chooseNewMaster 1 s dp = some r := by
  apply chooseNewMaster_one_of_excluded
  intro d hd
  rw [List.length_eq_zero] at hl
  rw [hl] at hd
  cases hd

/-! ## A follower that leaves sync -/

/-- When no deck is in `SYNC_MASTER` and deck `c`, with an engine buffer, is the
only deck in a mode other than `SYNC_NONE` that is playing, and is not the sync
source, `setChannelSyncMode(c, SYNC_NONE)` binds `c` as master in its election
and then sets it to `SYNC_NONE`: afterwards `c` is in `SYNC_NONE` and its group
is the sync source. -/
theorem setChannelSyncMode_none_of_sole_candidate (s : EngineSync) (c : Nat)
    (dc : RateControl) (ch : EngineChannel)
    (hnom : NoOtherMaster "" s.m_ratecontrols)
    (hone : s.m_ratecontrols.countP (isCandidate "") = 1)
    (hc : s.m_ratecontrols[c]? = some dc) (hcand : isCandidate "" dc = true)
    (hch : dc.channel = some ch) (hbuf : ch.engineBuffer = true) (hgrp : ch.group = dc.group)
    (hsrc : s.m_sSyncSource ≠ dc.group) (hpcm : s.m_pChannelMaster ≠ some c) :
    ∃ r, (∀ fuel, 1 ≤ fuel → setChannelSyncMode fuel s c SYNC_NONE = some r) ∧
      modeOf r c = some SYNC_NONE ∧ r.m_sSyncSource = dc.group ∧
      r.m_pChannelMaster = some c := by
  obtain ⟨q, nm, hs, hnm⟩ := scanDecks_start "" s.m_ratecontrols hnom
  rw [hone] at hs hnm
  rcases hnm with ⟨h0, _⟩ | ⟨k, d, e1, e2, e3⟩
  · omega
  · have hk : k = c := countP_unique _ _ _ _ _ _ hone e2 e3 hc hcand
    subst hk
    obtain ⟨y, e, y1, y2, y3, _, _, _⟩ :=
      promote_success (chooseNewMaster 0) s k dc ch hc hsrc hch hbuf
    have h1 : chooseNewMaster 1 s "" = some { y with m_bExplicitMasterSelected := false } := by
      rw [chooseNewMaster]
      simp only [hs, e1, if_true, e, Option.map_some']
    have hyk : y.m_ratecontrols[k]? = some { dc with mode := SYNC_MASTER } := by
      rw [y1, releasedDecks_getElem?_other (setMode s k SYNC_MASTER) k hpcm, setMode_getElem?]
      simp [hc]
    refine ⟨setMode { y with m_bExplicitMasterSelected := false } k SYNC_NONE, ?_, ?_, ?_, y3⟩
    · intro fuel hf
      unfold setChannelSyncMode setChannelSyncModeWith
      simp only [hc, chooseNewMaster_mono 1 fuel hf s "" _ h1, Option.map_some']
    · unfold modeOf
      rw [setMode_getElem?]
      simp [hyk]
    · show y.m_sSyncSource = _
      rw [y2, hgrp]

/-- The same at `solePlayingState`: the internal clock is the sync source and
`[Channel1]` is the one playing follower; after
`setChannelSyncMode([Channel1], SYNC_NONE)` deck `[Channel1]` is in `SYNC_NONE`
and is the sync source and the channel master. -/
theorem setChannelSyncMode_none_sole_follower :
    NoNoneSource solePlayingState ∧
    ∃ r, (∀ fuel, 1 ≤ fuel → setChannelSyncMode fuel solePlayingState 0 SYNC_NONE = some r) ∧
      modeOf r 0 = some SYNC_NONE ∧ r.m_sSyncSource = "[Channel1]" ∧
      r.m_pChannelMaster = some 0 :=
  ⟨by unfold NoNoneSource; decide,
   setChannelSyncMode_none_of_sole_candidate solePlayingState 0
    (mkDeck "[Channel1]" SYNC_FOLLOWER true true) { group := "[Channel1]", engineBuffer := true }
    (by unfold NoOtherMaster; decide) (by decide) rfl (by decide) rfl rfl rfl
    (by decide) (by decide)⟩

/-! ## The election's early return and the release of a deck that is not bound -/

theorem setInternalMaster_of_no_master (s : EngineSync)
    (h : s.m_sSyncSource ≠ kMasterSyncGroup) (hp : s.m_pChannelMaster = none) :
    (setInternalMaster s).m_ratecontrols = s.m_ratecontrols ∧
    (setInternalMaster s).m_sSyncSource = kMasterSyncGroup ∧
    (setInternalMaster s).m_pSyncInternalEnabled = 1 ∧
    (setInternalMaster s).m_pChannelMaster = none ∧
    (setInternalMaster s).m_bExplicitMasterSelected = s.m_bExplicitMasterSelected := by
  obtain ⟨p, b, v, sl, mb, e⟩ := setInternalMaster_eq s h
  rw [e]
  refine ⟨?_, rfl, rfl, rfl, rfl⟩
  show releasedDecks s = _
  unfold releasedDecks
  rw [hp]

/-- C5, the code at a failing input: `flaggedPairState` is the state in which
the election of `noBufferState` ends, with the explicit flag clear. There deck
`[Channel1]`, which has no engine buffer, requests `SYNC_MASTER`: the flag is
set, the bind fails, and `chooseNewMaster("[Channel1]")` runs in the state that
the failed bind leaves. That election returns at `[Channel2]`, a deck in
`SYNC_MASTER`, with the flag still set: `[Channel2]`, which was not requested
and is not bound, is the sync source and the flag says that a master was
selected explicitly. -/
theorem chooseNewMaster_early_return_keeps_flag :
    chooseNewMaster 4 noBufferState kMasterSyncGroup = some flaggedPairState ∧
    flaggedPairState.m_bExplicitMasterSelected = false ∧
    ∃ r, chooseNewMaster 1
        (disableCurrentMaster { flaggedPairState with m_bExplicitMasterSelected := true })
        "[Channel1]" = some r ∧
      setChannelSyncMode 1 flaggedPairState 0 SYNC_MASTER = some r ∧
      r.m_bExplicitMasterSelected = true ∧ r.m_sSyncSource = "[Channel2]" ∧
      r.m_pChannelMaster = none :=
  ⟨rfl, rfl, _, rfl, rfl, by decide, by decide, by decide⟩

/-- C17, the code at a failing input: in `flaggedPairState`, the state in which
the election of `noBufferState` ends, deck `[Channel2]` is the sync source and in
`SYNC_MASTER`, and there is no channel master. `disableCurrentMaster` empties the
sync source and leaves that deck in `SYNC_MASTER`. -/
theorem disableCurrentMaster_keeps_adopted_master :
    chooseNewMaster 4 noBufferState kMasterSyncGroup = some flaggedPairState ∧
    flaggedPairState.m_sSyncSource = "[Channel2]" ∧
    modeOf flaggedPairState 1 = some SYNC_MASTER ∧
    (disableCurrentMaster flaggedPairState).m_sSyncSource = "" ∧
    (disableCurrentMaster flaggedPairState).m_pChannelMaster = none ∧
    modeOf (disableCurrentMaster flaggedPairState) 1 = some SYNC_MASTER :=
  ⟨rfl, rfl, by decide, by decide, by decide, by decide⟩

/-- C7, the code at a failing input: in `adoptedState` deck `[Channel1]` is the
sync source and in `SYNC_MASTER`, without being the channel master. The election
that excludes it finds no other deck in `SYNC_MASTER` and no playing deck, so it
falls back to the internal clock: the internal clock is the sync source, its
toggle is on, and `[Channel1]`, the sync source before, is still in
`SYNC_MASTER`. The state is reached from a new coordinator
(`adoptedState_reached`). -/
theorem chooseNewMaster_fallback_keeps_adopted_master :
    adoptedState.m_sSyncSource = "[Channel1]" ∧
    NoOtherMaster "[Channel1]" adoptedState.m_ratecontrols ∧
    adoptedState.m_ratecontrols.countP (isCandidate "[Channel1]") ≠ 1 ∧
    "[Channel1]" ≠ kMasterSyncGroup ∧
    ∃ r, (∀ fuel, 1 ≤ fuel → chooseNewMaster fuel adoptedState "[Channel1]" = some r) ∧
      r.m_sSyncSource = kMasterSyncGroup ∧ r.m_pSyncInternalEnabled = 1 ∧
      modeOf r 0 = some SYNC_MASTER := by
  have hnom : NoOtherMaster "[Channel1]" adoptedState.m_ratecontrols := by
    unfold NoOtherMaster; decide
  have hcount : adoptedState.m_ratecontrols.countP (isCandidate "[Channel1]") ≠ 1 := by decide
  have hdp : "[Channel1]" ≠ kMasterSyncGroup := by decide
  obtain ⟨h1, h2, h3, _, _⟩ := setInternalMaster_of_no_master adoptedState (by decide) rfl
  refine ⟨rfl, hnom, hcount, hdp, _,
    fun fuel hf => chooseNewMaster_internal_eq adoptedState "[Channel1]" hnom hcount hdp fuel hf,
    h2, h3, ?_⟩
  unfold modeOf
  show ((setInternalMaster adoptedState).m_ratecontrols[0]?).map (fun d => d.mode) = _
  rw [h1]
  decide

/-- C12, the code at a failing input: in `adoptedPlayingState` the explicit flag
is clear, deck `[Channel1]` is the sync source and in `SYNC_MASTER` without being
the channel master, and it and the follower `[Channel2]` are both playing. After
`setDeckPlaying([Channel2], true)` the internal clock is the sync source and
`[Channel1]` is still in `SYNC_MASTER`. The state is reached from a new
coordinator (`adoptedPlayingState_reached`). -/
theorem setDeckPlaying_fallback_keeps_adopted_master :
    adoptedPlayingState.m_bExplicitMasterSelected = false ∧
    adoptedPlayingState.m_sSyncSource = "[Channel1]" ∧
    modeOf adoptedPlayingState 1 = some SYNC_FOLLOWER ∧
    playingSyncDeckCount adoptedPlayingState = 2 ∧
    (setDeckPlaying adoptedPlayingState 1 true).m_sSyncSource = kMasterSyncGroup ∧
    modeOf (setDeckPlaying adoptedPlayingState 1 true) 0 = some SYNC_MASTER := by
  have e : setDeckPlaying adoptedPlayingState 1 true = setInternalMaster adoptedPlayingState :=
    rfl
  obtain ⟨h1, h2, _, _, _⟩ := setInternalMaster_of_no_master adoptedPlayingState (by decide) rfl
  refine ⟨rfl, rfl, by decide, by decide, ?_, ?_⟩
  · rw [e, h2]
  · unfold modeOf
    rw [e, h1]
    decide

/-- C9, the code at a failing input: in `adoptedToggleState` deck `[Channel1]`
has an engine buffer and is the sync source by adoption, with the toggle of the
internal clock on. `setChannelSyncMode([Channel1], SYNC_MASTER)` sets the flag
and returns from `setChannelMaster` at its first test: the toggle is still on,
there is no channel master and no signal is connected. The state is reached
from a new coordinator (`adoptedToggleState_reached`). -/
theorem setChannelSyncMode_master_of_adopted :
    (∃ d, adoptedToggleState.m_ratecontrols[0]? = some d ∧ d.hasEngineBuffer = true) ∧
    ∃ r, (∀ fuel, setChannelSyncMode fuel adoptedToggleState 0 SYNC_MASTER = some r) ∧
      r.m_sSyncSource = "[Channel1]" ∧ r.m_bExplicitMasterSelected = true ∧
      r.m_pSyncInternalEnabled = 1 ∧ r.m_pChannelMaster = none ∧ r.connections = [] :=
  ⟨⟨_, rfl, rfl⟩, { adoptedToggleState with m_bExplicitMasterSelected := true },
    fun _ => rfl, rfl, rfl, rfl, rfl, rfl⟩

theorem hasEngineBuffer_setModeAt (l : List RateControl) (i j : Nat) (m : SYNC_MODE)
    (d : RateControl) (hd : l[j]? = some d) :
    ∃ x, (setModeAt l i m)[j]? = some x ∧ x.hasEngineBuffer = d.hasEngineBuffer := by
  rw [setModeAt_getElem?]
  by_cases h : j = i
  · subst h
    simp only [if_true, hd, Option.map_some']
    exact ⟨_, rfl, rfl⟩
  · simp only [h, if_false]
    exact ⟨d, hd, rfl⟩

theorem hasEngineBuffer_releasedDecks (s : EngineSync) (j : Nat) (d : RateControl)
    (hd : s.m_ratecontrols[j]? = some d) :
    ∃ x, (releasedDecks s)[j]? = some x ∧ x.hasEngineBuffer = d.hasEngineBuffer := by
  unfold releasedDecks
  cases hp : s.m_pChannelMaster with
  | none => exact ⟨d, hd, rfl⟩
  | some i => exact hasEngineBuffer_setModeAt _ _ _ _ _ hd

theorem channelMasterHasBuffer_setMode (s : EngineSync) (i : Nat) (m : SYNC_MODE)
    (h : ChannelMasterHasBuffer s) : ChannelMasterHasBuffer (setMode s i m) := by
  intro j hj
  obtain ⟨d, hd, hb⟩ := h j hj
  obtain ⟨x, hx, e⟩ := hasEngineBuffer_setModeAt s.m_ratecontrols i j m d hd
  exact ⟨x, hx, by rw [e, hb]⟩

theorem channelMasterHasBuffer_disableCurrentMaster (s : EngineSync) :
    ChannelMasterHasBuffer (disableCurrentMaster s) := by
  intro j hj
  rw [disableCurrentMaster_eq] at hj
  cases hj

theorem channelMasterHasBuffer_setInternalMaster (s : EngineSync)
    (h : ChannelMasterHasBuffer s) : ChannelMasterHasBuffer (setInternalMaster s) := by
  by_cases hsrc : s.m_sSyncSource = kMasterSyncGroup
  · rw [setInternalMaster_already s hsrc]; exact h
  · obtain ⟨p, b, v, sl, mb, e⟩ := setInternalMaster_eq s hsrc
    rw [e]
    intro j hj
    cases hj

theorem channelMasterHasBuffer_setChannelMaster (s : EngineSync) (i : Nat)
    (h : ChannelMasterHasBuffer s) : ChannelMasterHasBuffer (setChannelMaster s i).1 := by
  cases hd : s.m_ratecontrols[i]? with
  | none =>
    have : setChannelMaster s i = (s, false) := by simp [setChannelMaster, hd]
    rw [this]; exact h
  | some d =>
    by_cases hsrc : s.m_sSyncSource = d.group
    · rw [setChannelMaster_already s i d hd hsrc]; exact h
    · cases hb : d.hasEngineBuffer with
      | false =>
        rw [setChannelMaster_fail s i d hd hsrc hb]
        exact channelMasterHasBuffer_disableCurrentMaster s
      | true =>
        have hb0 := hb
        unfold RateControl.hasEngineBuffer at hb
        cases hc : d.channel with
        | none => rw [hc] at hb; cases hb
        | some ch =>
          rw [hc] at hb
          obtain ⟨p, b, sl, mb, e⟩ := setChannelMaster_success s i d ch hd hsrc hc hb
          rw [e]
          intro j hj
          have hji : i = j := by
            have : some i = some j := hj
            simpa using this
          subst hji
          obtain ⟨x, hx, e2⟩ := hasEngineBuffer_releasedDecks s i d hd
          exact ⟨x, hx, by rw [e2, hb0]⟩

theorem channelMasterHasBuffer_setChannelMasterOrChoose
    (choose : EngineSync → String → Option EngineSync)
    (hc : ∀ s g r, ChannelMasterHasBuffer s → choose s g = some r → ChannelMasterHasBuffer r)
    (s : EngineSync) (i : Nat) (g : String) (r : EngineSync)
    (h1 : ChannelMasterHasBuffer s)
    (h : setChannelMasterOrChoose choose s i g = some r) :
    ChannelMasterHasBuffer r := by
  unfold setChannelMasterOrChoose at h
  simp only at h
  have hs := channelMasterHasBuffer_setChannelMaster s i h1
  split at h
  · simp only [Option.some.injEq] at h
    rw [← h]; exact hs
  · exact hc _ _ _ hs h

theorem channelMasterHasBuffer_followerTail
    (choose : EngineSync → String → Option EngineSync)
    (hc : ∀ s g r, ChannelMasterHasBuffer s → choose s g = some r → ChannelMasterHasBuffer r)
    (s : EngineSync) (i : Nat) (g : String) (r : EngineSync)
    (h1 : ChannelMasterHasBuffer s)
    (h : followerTail choose s i g = some r) :
    ChannelMasterHasBuffer r := by
  have hm := channelMasterHasBuffer_setMode s i SYNC_MASTER h1
  unfold followerTail at h
  split at h
  · exact channelMasterHasBuffer_setChannelMasterOrChoose choose hc _ _ _ _ hm h
  · split at h
    · split at h
      · split at h
        · exact channelMasterHasBuffer_setChannelMasterOrChoose choose hc _ _ _ _ hm h
        · simp only [Option.some.injEq] at h; rw [← h]; exact h1
      · split at h
        · simp only [Option.some.injEq] at h
          rw [← h]; exact channelMasterHasBuffer_setInternalMaster s h1
        · simp only [Option.some.injEq] at h; rw [← h]; exact h1
    · simp only [Option.some.injEq] at h; rw [← h]; exact h1

theorem channelMasterHasBuffer_setChannelSyncModeWith
    (choose : EngineSync → String → Option EngineSync)
    (hc : ∀ s g r, ChannelMasterHasBuffer s → choose s g = some r → ChannelMasterHasBuffer r)
    (s : EngineSync) (i : Nat) (st : SYNC_MODE) (r : EngineSync)
    (h1 : ChannelMasterHasBuffer s)
    (h : setChannelSyncModeWith choose s i st = some r) :
    ChannelMasterHasBuffer r := by
  unfold setChannelSyncModeWith at h
  cases hd : s.m_ratecontrols[i]? with
  | none =>
    simp only [hd, Option.some.injEq] at h
    rw [← h]; exact h1
  | some d =>
    simp only [hd] at h
    cases st with
    | SYNC_MASTER =>
      exact channelMasterHasBuffer_setChannelMasterOrChoose choose hc
        { s with m_bExplicitMasterSelected := true } _ _ _ h1 h
    | SYNC_FOLLOWER =>
      simp only at h
      split at h
      · cases h3 : choose s d.group with
        | none => simp [h3] at h
        | some s1 =>
          rw [h3] at h
          have hs1 := hc _ _ _ h1 h3
          exact channelMasterHasBuffer_followerTail choose hc _ _ _ _ hs1 h
      · split at h
        · simp only [Option.some.injEq] at h; rw [← h]; exact h1
        · exact channelMasterHasBuffer_followerTail choose hc _ _ _ _ h1 h
    | SYNC_NONE =>
      simp only at h
      cases h3 : choose s "" with
      | none => simp [h3] at h
      | some s1 =>
        rw [h3] at h
        simp only [Option.map_some', Option.some.injEq] at h
        have hs1 := hc _ _ _ h1 h3
        rw [← h]
        exact channelMasterHasBuffer_setMode s1 i SYNC_NONE hs1

theorem channelMasterHasBuffer_chooseNewMaster :
    ∀ (fuel : Nat) (s : EngineSync) (dp : String) (r : EngineSync),
      ChannelMasterHasBuffer s → chooseNewMaster fuel s dp = some r →
      ChannelMasterHasBuffer r := by
  intro fuel
  induction fuel with
  | zero => intro s dp r _ h; simp [chooseNewMaster] at h
  | succ n ih =>
    intro s dp r h1 h
    rw [chooseNewMaster] at h
    cases hs : scanDecks dp s.m_ratecontrols 0 0 0 none with
    | alreadyMaster g =>
      simp only [hs, Option.some.injEq] at h
      rw [← h]
      exact h1
    | counted p q nm =>
      simp only [hs, Option.map_eq_some'] at h
      obtain ⟨y, hy, e⟩ := h
      have hflag : ChannelMasterHasBuffer y → ChannelMasterHasBuffer r := by
        intro hh
        rw [← e]
        exact hh
      apply hflag
      have key : ∀ i, setChannelSyncModeWith (chooseNewMaster n) (setMode s i SYNC_MASTER) i
          SYNC_MASTER = some y → ChannelMasterHasBuffer y := by
        intro i hi
        have hm := channelMasterHasBuffer_setMode s i SYNC_MASTER h1
        exact channelMasterHasBuffer_setChannelSyncModeWith _ ih _ _ _ _ hm hi
      by_cases hp : p = 1
      · simp only [hp, if_true] at hy
        cases nm with
        | none => simp only [Option.some.injEq] at hy; rw [← hy]; exact h1
        | some i => exact key i hy
      · simp only [hp, if_false] at hy
        by_cases hdp : dp ≠ kMasterSyncGroup
        · rw [if_pos hdp] at hy
          simp only [Option.some.injEq] at hy
          rw [← hy]; exact channelMasterHasBuffer_setInternalMaster s h1
        · rw [if_neg hdp] at hy
          cases nm with
          | none => simp only [Option.some.injEq] at hy; rw [← hy]; exact h1
          | some i => exact key i hy

theorem channelMasterHasBuffer_setChannelSyncMode (fuel : Nat) (s : EngineSync) (i : Nat)
    (st : SYNC_MODE) (r : EngineSync) (h1 : ChannelMasterHasBuffer s)
    (h : setChannelSyncMode fuel s i st = some r) :
    ChannelMasterHasBuffer r :=
  channelMasterHasBuffer_setChannelSyncModeWith _ (channelMasterHasBuffer_chooseNewMaster fuel)
    s i st r h1 h

theorem channelMasterHasBuffer_setChannelSyncModeAuto (fuel : Nat) (s : EngineSync) (i : Nat)
    (r : EngineSync) (h1 : ChannelMasterHasBuffer s)
    (h : setChannelSyncModeAuto fuel s i = some r) :
    ChannelMasterHasBuffer r := by
  unfold setChannelSyncModeAuto at h
  split at h
  · simp only [Option.some.injEq] at h; rw [← h]; exact h1
  · split at h
    · exact channelMasterHasBuffer_setChannelMasterOrChoose _
        (channelMasterHasBuffer_chooseNewMaster fuel) _ _ _ _
        (channelMasterHasBuffer_setMode s i SYNC_MASTER h1) h
    · exact channelMasterHasBuffer_setChannelSyncMode fuel _ i SYNC_FOLLOWER r
        (channelMasterHasBuffer_setMode s i SYNC_FOLLOWER h1) h

theorem channelMasterHasBuffer_setDeckPlaying (s : EngineSync) (i : Nat) (b : Bool)
    (h1 : ChannelMasterHasBuffer s) : ChannelMasterHasBuffer (setDeckPlaying s i b) := by
  unfold setDeckPlaying
  split
  · exact h1
  · split
    · simp only
      split
      · unfold initializeInternalBeatDistanceOf
        split
        · exact h1
        · exact h1
      · split
        · split
          · have hs := channelMasterHasBuffer_setChannelMaster s i h1
            split
            · exact channelMasterHasBuffer_setMode _ i SYNC_MASTER hs
            · exact hs
          · exact channelMasterHasBuffer_setInternalMaster s h1
        · exact h1
    · exact h1

theorem channelMasterHasBuffer_slotInternalMasterChanged (fuel : Nat) (s : EngineSync)
    (state : ℚ) (r : EngineSync) (h1 : ChannelMasterHasBuffer s)
    (h : slotInternalMasterChanged fuel s state = some r) :
    ChannelMasterHasBuffer r := by
  unfold slotInternalMasterChanged at h
  split at h
  · simp only [Option.some.injEq] at h
    rw [← h]; exact channelMasterHasBuffer_setInternalMaster s h1
  · exact channelMasterHasBuffer_chooseNewMaster fuel { s with m_sSyncSource := "" } _ r h1 h

theorem channelMasterHasBuffer_addDeck (s : EngineSync) (c : RateControl)
    (h1 : ChannelMasterHasBuffer s) : ChannelMasterHasBuffer (addDeck s c) := by
  unfold addDeck
  split
  · exact h1
  · intro j hj
    obtain ⟨d, hd, hb⟩ := h1 j hj
    refine ⟨d, ?_, hb⟩
    show (s.m_ratecontrols ++ [c])[j]? = some d
    rw [List.getElem?_append_left (getElem?_lt _ _ _ hd), hd]

theorem hasEngineBuffer_addChannelLoop (pChannel : EngineChannel)
    (hc : pChannel.engineBuffer = true) :
    ∀ (l : List RateControl) (j : Nat) (d : RateControl), l[j]? = some d →
      d.hasEngineBuffer = true →
      ∃ x, (addChannelLoop pChannel l)[j]? = some x ∧ x.hasEngineBuffer = true := by
  intro l
  induction l with
  | nil => intro j d hd; simp at hd
  | cons a rest ih =>
    intro j d hd hb
    unfold addChannelLoop
    split
    · cases j with
      | zero =>
        exact ⟨{ a with channel := some pChannel }, by simp,
          by simp [RateControl.hasEngineBuffer, hc]⟩
      | succ n => exact ⟨d, by simpa using hd, hb⟩
    · cases j with
      | zero => exact ⟨d, by simpa using hd, hb⟩
      | succ n =>
        have hd2 : rest[n]? = some d := by simpa using hd
        obtain ⟨x, hx, e⟩ := ih n d hd2 hb
        exact ⟨x, by simpa using hx, e⟩

theorem channelMasterHasBuffer_addChannel (s : EngineSync) (pChannel : EngineChannel)
    (hc : pChannel.engineBuffer = true) (h1 : ChannelMasterHasBuffer s) :
    ChannelMasterHasBuffer (addChannel s pChannel) := by
  intro j hj
  obtain ⟨d, hd, hb⟩ := h1 j hj
  exact hasEngineBuffer_addChannelLoop pChannel hc s.m_ratecontrols j d hd hb

/-- When the channel master has an engine buffer, an election has at most two
levels of elections nested in it: a candidate whose bind fails has no engine
buffer, so it is not the channel master that the failed bind releases, and it
stays in `SYNC_MASTER`. -/
theorem chooseNewMaster_three_of_buffer (s : EngineSync) (dp : String)
    (hc : ChannelMasterHasBuffer s) :
    ∃ r, chooseNewMaster 3 s dp = some r := by
  apply chooseNewMaster_step 2 s dp
  intro k x hx _ _ _ hb
  have hpk : s.m_pChannelMaster ≠ some k := by
    intro e
    obtain ⟨d, hd, hbd⟩ := hc k e
    rw [hx] at hd
    cases hd
    rw [hb] at hbd
    cases hbd
  have hpk1 : ({ setMode s k SYNC_MASTER with
      m_bExplicitMasterSelected := true } : EngineSync).m_pChannelMaster ≠ some k := hpk
  apply chooseNewMaster_two_of_excluded_master _ _ k { x with mode := SYNC_MASTER }
    (released_master_none _)
  · rw [disableCurrentMaster_eq]
    show (releasedDecks { setMode s k SYNC_MASTER with m_bExplicitMasterSelected := true })[k]?
      = _
    rw [releasedDecks_getElem?_other _ k hpk1]
    show (setMode s k SYNC_MASTER).m_ratecontrols[k]? = _
    rw [setMode_getElem?]
    simp [hx]
  · rfl
  · rfl

/-! ## The bound on the nesting of elections -/

/-- Without the invariant of the channel master the bound of two levels fails:
in `staleMasterState`, which has two decks and whose channel master has no
engine buffer, `chooseNewMaster("[Master]")` does not return within two levels of
nested elections (fuel 3); it returns within three (fuel 4). -/
theorem chooseNewMaster_nesting_of_stale_master :
    staleMasterState.m_ratecontrols.length = 2 ∧
    ¬ ChannelMasterHasBuffer staleMasterState ∧
    chooseNewMaster 3 staleMasterState kMasterSyncGroup = none ∧
    ∃ r, chooseNewMaster 4 staleMasterState kMasterSyncGroup = some r ∧
      r.m_sSyncSource = "[Channel1]" := by
  refine ⟨rfl, ?_, rfl, _, rfl, by decide⟩
  intro h
  obtain ⟨d, hd, hb⟩ := h 1 rfl
  have : d = mkDeck "[Channel2]" SYNC_FOLLOWER true false := by
    have e : staleMasterState.m_ratecontrols[1]?
        = some (mkDeck "[Channel2]" SYNC_FOLLOWER true false) := rfl
    rw [e] at hd
    cases hd
    rfl
  rw [this] at hb
  cases hb

/-- C22: `chooseNewMaster` returns in every state and for every excluded group,
with at most three levels of elections nested in the outermost one (fuel 4)
whatever the tempo and phase values and the number of decks. In every state in
which the channel master, if there is one, is a registered deck with an engine
buffer (`ChannelMasterHasBuffer`: it holds when there is no channel master, and
`setChannelMaster` and every operation built on it keep it, lemmas
`channelMasterHasBuffer_setChannelMaster` to
`channelMasterHasBuffer_slotInternalMasterChanged`), a deck that an election has
set to `SYNC_MASTER` is found by the election two levels below, which returns at
it: the nesting is at most two levels deep and at most as deep as there are
registered decks (fuel `min 3 (length + 1)`). The result is the same for every
larger fuel. -/
theorem chooseNewMaster_nesting_bounded (s : EngineSync) (dp : String) :
    ∃ r, (∀ fuel, 4 ≤ fuel → chooseNewMaster fuel s dp = some r) ∧
      (ChannelMasterHasBuffer s → ∀ fuel, min 3 (s.m_ratecontrols.length + 1) ≤ fuel →
        chooseNewMaster fuel s dp = some r) := by
  obtain ⟨r, hr⟩ := chooseNewMaster_four s dp
  have lift : ∀ k, k ≤ 4 → (∃ y, chooseNewMaster k s dp = some y) →
      ∀ fuel, k ≤ fuel → chooseNewMaster fuel s dp = some r := by
    intro k hk ⟨y, hy⟩ fuel hf
    have h4 := chooseNewMaster_mono k 4 hk s dp y hy
    rw [hr] at h4
    cases h4
    exact chooseNewMaster_mono k fuel hf s dp r hy
  refine ⟨r, lift 4 (le_refl 4) ⟨r, hr⟩, ?_⟩
  intro hc fuel hf
  by_cases h0 : s.m_ratecontrols.length = 0
  · exact lift 1 (by omega) (chooseNewMaster_one_of_empty s dp h0) fuel
      (by rw [h0] at hf; exact hf)
  · by_cases h1 : s.m_ratecontrols.length = 1
    · exact lift 2 (by omega) (chooseNewMaster_two_of_single s dp (by omega)) fuel
        (by rw [h1] at hf; exact hf)
    · have h3 : 3 ≤ fuel := by
        have : min 3 (s.m_ratecontrols.length + 1) = 3 := by omega
        omega
      exact lift 3 (by omega) (chooseNewMaster_three_of_buffer s dp hc) fuel h3

/-- Witness of C22: `noBufferState` has two decks and no channel master; the
election excluding the internal clock, which nests two levels deep, returns with
fuel 3 and with fuel 4. -/
theorem chooseNewMaster_nesting_bounded_witness :
    ChannelMasterHasBuffer noBufferState ∧
    chooseNewMaster 2 noBufferState kMasterSyncGroup = none ∧
    ∃ r, chooseNewMaster 4 noBufferState kMasterSyncGroup = some r ∧
      chooseNewMaster 3 noBufferState kMasterSyncGroup = some r := by
  have hc : ChannelMasterHasBuffer noBufferState := by
    intro j hj
    cases hj
  obtain ⟨r, h4, h3⟩ := chooseNewMaster_nesting_bounded noBufferState kMasterSyncGroup
  exact ⟨hc, rfl, r, h4 4 (le_refl 4), h3 hc 3 (by decide)⟩

/-! ## How the states of the failing inputs are reached -/

theorem disableCurrentMaster_of_idle (s : EngineSync)
    (hp : s.m_pChannelMaster = none) (hsrc : s.m_sSyncSource ≠ kMasterSyncGroup) :
    disableCurrentMaster s = { s with m_sSyncSource := "" } := by
  rw [disableCurrentMaster_eq]
  unfold releasedDecks releasedConnections releasedToggle
  simp only [hp, hsrc, if_false]

theorem setInternalMaster_value (s : EngineSync)
    (h : s.m_sSyncSource ≠ kMasterSyncGroup) (hp : s.m_pChannelMaster = none)
    (hbpm : s.m_pMasterBpm ≠ 0) (hsl : s.m_pInternalRateSlider = s.m_pMasterBpm)
    (hspb : 0 < s.m_pSampleRate * 60 / s.m_pMasterBpm) :
    setInternalMaster s = { s with m_sSyncSource := kMasterSyncGroup, m_pSyncInternalEnabled := 1,
                                   m_dSamplesPerBeat := s.m_pSampleRate * 60 / s.m_pMasterBpm } := by
  have hq : qFuzzyCompare s.m_pMasterBpm 0 = false := by
    rw [qFuzzyCompare_zero_right]
    simp [hbpm]
  have h1 : setInternalRateSlider s s.m_pMasterBpm = s := by
    unfold setInternalRateSlider slotSyncRateSliderChanged
    simp only [h, false_and, if_false]
    cases s
    simp only at hsl
    subst hsl
    rfl
  unfold setInternalMaster
  simp only [h, if_false, hq, Bool.not_false, if_true, h1]
  unfold initializeInternalBeatDistance
  simp only [hp]
  rw [disableCurrentMaster_eq]
  unfold releasedDecks releasedConnections releasedToggle
  simp only [hp, h, if_false]
  unfold updateSamplesPerBeat
  simp only [hq, Bool.false_eq_true, if_false, not_le.mpr hspb, setSyncInternalEnabled, if_true]

theorem setChannelMaster_value (s : EngineSync) (i : Nat) (d : RateControl)
    (ch : EngineChannel) (bd : ℚ)
    (hd : s.m_ratecontrols[i]? = some d) (h : s.m_sSyncSource ≠ d.group)
    (hc : d.channel = some ch) (hb : ch.engineBuffer = true)
    (hk : ch.group ≠ kMasterSyncGroup) (hp : s.m_pChannelMaster = none)
    (hsrc : s.m_sSyncSource ≠ kMasterSyncGroup)
    (hbd : d.beatDistance = some bd) :
    setChannelMaster s i =
      ({ s with connections := s.connections ++ [(i, SourceSignal.rateEngine)] ++
                  [(i, SourceSignal.bpm)] ++ [(i, SourceSignal.beatDistance)],
                m_pSyncInternalEnabled := 0, m_sSyncSource := ch.group,
                m_pChannelMaster := some i, m_dPseudoBufferPos := bd * s.m_dSamplesPerBeat,
                m_pMasterBeatDistance := bd,
                m_pInternalRateSlider := d.bpm, m_pMasterBpm := d.rateEngine * d.fileBpm },
        true) := by
  unfold setChannelMaster
  simp only [hd, h, if_false, hc, hb, Bool.not_true, Bool.false_eq_true,
    disableCurrentMaster_of_idle s hp hsrc]
  simp only [connect, setSyncInternalEnabled, initializeInternalBeatDistance,
    initializeInternalBeatDistanceOf, hd, hbd, slotSourceRateEngineChanged, setMasterBpm_eq,
    slotSourceBpmChanged]
  rw [setInternalRateSlider_of_deck_source _ _ hk]
  simp

/-- How `boundFollowerState` is reached: on a new coordinator with the one deck
`[Channel1]` the explicit request `setChannelSyncMode([Channel1], SYNC_MASTER)`
binds the deck and leaves it in `SYNC_FOLLOWER`; `slotInternalMasterChanged(0)`
then empties the sync source and runs its election in `boundFollowerState`. -/
theorem boundFollowerState_reached :
    (∀ fuel, setChannelSyncMode fuel freshFollowerState 0 SYNC_MASTER
      = some boundByRequestState) ∧
    ∀ fuel, slotInternalMasterChanged fuel boundByRequestState 0
      = chooseNewMaster fuel boundFollowerState kMasterSyncGroup := by
  constructor
  · intro fuel
    have hv := setChannelMaster_value
      { freshFollowerState with m_bExplicitMasterSelected := true } 0
      (mkDeck "[Channel1]" SYNC_FOLLOWER true true)
      { group := "[Channel1]", engineBuffer := true } 0 rfl (by decide) rfl rfl (by decide) rfl
      (by decide) rfl
    unfold setChannelSyncMode setChannelSyncModeWith
    have hd : freshFollowerState.m_ratecontrols[0]?
        = some (mkDeck "[Channel1]" SYNC_FOLLOWER true true) := rfl
    simp only [hd]
    unfold setChannelMasterOrChoose
    simp only [hv, if_true]
    congr 1
    simp only [freshFollowerState, boundByRequestState, mkState, mkDeck]
    norm_num
    decide
  · intro fuel
    rfl

theorem setChannelSyncModeAuto_of_no_buffer (s : EngineSync) (i : Nat) (d : RateControl)
    (hd : s.m_ratecontrols[i]? = some d) (hsrc : s.m_sSyncSource = "")
    (hp : s.m_pChannelMaster = none) (hb : d.hasEngineBuffer = false)
    (hg : d.group ≠ "") (hgk : d.group ≠ kMasterSyncGroup)
    (hnom : NoOtherMaster d.group (setModeAt s.m_ratecontrols i SYNC_MASTER))
    (hcount : (setModeAt s.m_ratecontrols i SYNC_MASTER).countP (isCandidate d.group) ≠ 1)
    (hbpm : s.m_pMasterBpm ≠ 0) (hsl : s.m_pInternalRateSlider = s.m_pMasterBpm)
    (hspb : 0 < s.m_pSampleRate * 60 / s.m_pMasterBpm) (fuel : Nat) (hf : 1 ≤ fuel) :
    setChannelSyncModeAuto fuel s i
      = some { s with m_ratecontrols := setModeAt s.m_ratecontrols i SYNC_MASTER,
                      m_sSyncSource := kMasterSyncGroup, m_pSyncInternalEnabled := 1,
                      m_dSamplesPerBeat := s.m_pSampleRate * 60 / s.m_pMasterBpm,
                      m_bExplicitMasterSelected := false } := by
  have hne : ("" : String) ≠ kMasterSyncGroup := by decide
  have hd1 : (setMode s i SYNC_MASTER).m_ratecontrols[i]? = some { d with mode := SYNC_MASTER } := by
    rw [setMode_getElem?]
    simp [hd]
  have hs1 : (setMode s i SYNC_MASTER).m_sSyncSource ≠ ({ d with mode := SYNC_MASTER } : RateControl).group := by
    show s.m_sSyncSource ≠ d.group
    rw [hsrc]
    exact fun e => hg e.symm
  have hfail := setChannelMaster_fail (setMode s i SYNC_MASTER) i { d with mode := SYNC_MASTER }
    hd1 hs1 hb
  have hdis : disableCurrentMaster (setMode s i SYNC_MASTER)
      = { setMode s i SYNC_MASTER with m_sSyncSource := "" } :=
    disableCurrentMaster_of_idle _ hp (by show s.m_sSyncSource ≠ _; rw [hsrc]; exact hne)
  have e1 : setChannelSyncModeAuto fuel s i
      = chooseNewMaster fuel { setMode s i SYNC_MASTER with m_sSyncSource := "" } d.group := by
    unfold setChannelSyncModeAuto
    simp only [hd, hsrc, if_true]
    unfold setChannelMasterOrChoose
    simp only [hfail, Bool.false_eq_true, if_false, hdis]
  have hv := setInternalMaster_value { setMode s i SYNC_MASTER with m_sSyncSource := "" }
    hne hp hbpm hsl hspb
  rw [e1, chooseNewMaster_internal_eq { setMode s i SYNC_MASTER with m_sSyncSource := "" }
    d.group hnom hcount hgk fuel hf, hv]
  rfl

/-- How `adoptedState` is reached: on a new coordinator with the one deck
`[Channel1]`, whose channel is not attached, `setChannelSyncMode([Channel1])`
sets the deck to `SYNC_MASTER`, fails to bind it and falls back to the internal
clock; when the toggle of the internal clock is then turned off,
`slotInternalMasterChanged(0)` adopts the deck as sync source. -/
theorem adoptedState_reached :
    (∀ fuel, 1 ≤ fuel → setChannelSyncModeAuto fuel freshNoBufferState 0
      = some internalFlaggedState) ∧
    ∀ fuel, 1 ≤ fuel →
      slotInternalMasterChanged fuel { internalFlaggedState with m_pSyncInternalEnabled := 0 } 0
        = some adoptedState := by
  constructor
  · intro fuel hf
    rw [setChannelSyncModeAuto_of_no_buffer freshNoBufferState 0
      (mkDeck "[Channel1]" SYNC_FOLLOWER true false) rfl rfl rfl rfl (by decide) (by decide)
      (by unfold NoOtherMaster; decide) (by decide) (by norm_num [freshNoBufferState, mkState])
      rfl (by norm_num [freshNoBufferState, mkState]) fuel hf]
    congr 1
    simp only [freshNoBufferState, internalFlaggedState, mkState, mkDeck, setModeAt]
    norm_num
  · intro fuel hf
    exact chooseNewMaster_mono 1 fuel hf _ _ _ rfl

/-- How `adoptedToggleState` is reached: on a new coordinator with the decks
`[Channel1]`, whose channel is not attached, and `[Channel2]`,
`setChannelSyncMode([Channel1])` sets `[Channel1]` to `SYNC_MASTER`, fails to
bind it and falls back to the internal clock, whose toggle it turns on; the
channel of `[Channel1]` is then attached by `addChannel`; and when `[Channel2]`
leaves sync, the election of `setChannelSyncMode([Channel2], SYNC_NONE)` adopts
`[Channel1]` as sync source, with the toggle still on. -/
theorem adoptedToggleState_reached :
    (∀ fuel, 1 ≤ fuel → setChannelSyncModeAuto fuel freshPairState 0
      = some internalPairState) ∧
    ∀ fuel, 1 ≤ fuel →
      setChannelSyncMode fuel
        (addChannel internalPairState { group := "[Channel1]", engineBuffer := true })
        1 SYNC_NONE = some adoptedToggleState := by
  constructor
  · intro fuel hf
    rw [setChannelSyncModeAuto_of_no_buffer freshPairState 0
      (mkDeck "[Channel1]" SYNC_FOLLOWER true false) rfl rfl rfl rfl (by decide) (by decide)
      (by unfold NoOtherMaster; decide) (by decide) (by norm_num [freshPairState, mkState])
      rfl (by norm_num [freshPairState, mkState]) fuel hf]
    congr 1
    simp only [freshPairState, internalPairState, mkState, mkDeck, setModeAt]
    norm_num
  · intro fuel hf
    have h1 : setChannelSyncMode 1
        (addChannel internalPairState { group := "[Channel1]", engineBuffer := true })
        1 SYNC_NONE = some adoptedToggleState := rfl
    unfold setChannelSyncMode at h1 ⊢
    exact setChannelSyncModeWith_mono _ _
      (fun s g r h => chooseNewMaster_mono 1 fuel hf s g r h) _ _ _ _ h1

/-- How `adoptedPlayingState` is reached: on a new coordinator with the decks
`[Channel1]`, whose channel is not attached, and the paused `[Channel2]`,
`setChannelSyncMode([Channel1])` sets `[Channel1]` to `SYNC_MASTER`, fails to
bind it and falls back to the internal clock; when the toggle of the internal
clock is then turned off, `slotInternalMasterChanged(0)` adopts `[Channel1]` as
sync source (`adoptedPausedState`); `adoptedPlayingState` is that state once
`[Channel2]` plays. -/
theorem adoptedPlayingState_reached :
    (∀ fuel, 1 ≤ fuel → setChannelSyncModeAuto fuel freshPairState 0
      = some internalPairState) ∧
    (∀ fuel, 1 ≤ fuel →
      slotInternalMasterChanged fuel { internalPairState with m_pSyncInternalEnabled := 0 } 0
        = some adoptedPausedState) ∧
    adoptedPlayingState
      = { adoptedPausedState with
          m_ratecontrols := [mkDeck "[Channel1]" SYNC_MASTER true false,
                             mkDeck "[Channel2]" SYNC_FOLLOWER true true] } :=
  ⟨adoptedToggleState_reached.1,
    fun fuel hf => chooseNewMaster_mono 1 fuel hf _ _ _ rfl, rfl⟩

end EngineSync
